import Mathlib

/-!
# Tile-streaming transforms of `src/tiff_utils.cpp`

A shallow embedding of the pure arithmetic and of the tile loops of
`affineTransformUint8`, `combineChannelsToRGB`, `Compress`, `Colorize` and
`MergeGrayToRGB`, followed by the properties proved about them.

Conventions of the embedding.

* Unsigned machine integers are natural numbers; every operation that can leave
  the range of its C type is followed by an explicit `% 2 ^ w`.
* A `double` is the rational number it denotes.  `toDouble` rounds a rational to
  IEEE-754 binary64 with round-to-nearest, ties-to-even, one rounding per
  operation (the evaluation of `double` expressions on x86-64 and AArch64).  All
  values met here are zero or lie far inside the normal range, so overflow,
  subnormals and infinities are not represented; the one quotient that can be
  `0 / 0`, the drop rate of `Compress`, is an `Option` whose `none` is the NaN.
* A buffer is a list of samples.  Reading outside a buffer is undefined in C; the
  embedding reads `0` there and ignores a write there.
* Loops whose termination depends on the data carry a fuel argument; `none` means
  that the fuel ran out, which stands for a loop that does not terminate.
-/

namespace TiffUtils

/-! ## Binary floating point -/

/-- Nearest integer to `t`; a tie goes to the even neighbour. -/
def roundHalfEven (t : ℚ) : ℤ :=
  if t - ⌊t⌋ < 1 / 2 then ⌊t⌋
  else if 1 / 2 < t - ⌊t⌋ then ⌊t⌋ + 1
  else if ⌊t⌋ % 2 = 0 then ⌊t⌋ else ⌊t⌋ + 1

/-- Exponent of the binary64 unit in the last place at `q`: a positive `q` with
`2 ^ e ≤ q < 2 ^ (e + 1)` is rounded to a multiple of `2 ^ (e - 52)`. -/
def ulpExp (q : ℚ) : ℤ := Int.log 2 q - 52

/-- The `double` nearest to the non-negative rational `q` (53 significant bits). -/
def toDouble (q : ℚ) : ℚ :=
  if q ≤ 0 then 0 else roundHalfEven (q / 2 ^ ulpExp q) * 2 ^ ulpExp q

/-- The `float` nearest to the non-negative rational `q` (24 significant bits). -/
def toFloat (q : ℚ) : ℚ :=
  if q ≤ 0 then 0
  else roundHalfEven (q / 2 ^ (Int.log 2 q - 23)) * 2 ^ (Int.log 2 q - 23)

/-- Conversion of a non-negative `double` to an integer type by `static_cast`:
the fractional part is discarded. -/
def truncDouble (x : ℚ) : ℕ := ⌊x⌋.toNat

/-! ## `affineTransformUint8` (lines 43-58) -/

/-- Windowing of one sample: `value`, `A` (lower bound) and `B` (upper bound) are
the `uint64_t` arguments, the result is the returned `uint8_t`.  `scale` is the
`double` quotient `(double)(D - C) / (B - A)`, and the last branch is
`static_cast<uint8_t>((value - A) * scale)`. -/
def affineTransformUint8 (value A B : ℕ) : ℕ :=
  let C : ℕ := 0
  let D : ℕ := 255
  let scale : ℚ :=
    if B > A then toDouble (toDouble ((D - C : ℕ) : ℚ) / toDouble ((B - A : ℕ) : ℚ)) else 0
  if value ≤ A then C
  else if value ≥ B then D
  else truncDouble (toDouble (toDouble ((value - A : ℕ) : ℚ) * scale)) % 256

/-! ## `combineChannelsToRGB` (lines 61-85) -/

/-- Modelled from the spec: the declaration of `RGBColor` is not among the sources.
A colour is an R, G, B triple; `combineChannelsToRGB` stores `uint8_t` values into
its fields `r`, `g`, `b`. -/
structure RGBColor where
  r : ℕ
  g : ℕ
  b : ℕ
  deriving DecidableEq, Repr

/-- Modelled from the spec: `channel.h` is not among the sources.  A channel
descriptor is a sample-value window (lower and upper bound) and an RGB weight
triple; the fields carry the names `combineChannelsToRGB` reads. -/
structure Channel where
  lowerBound : ℕ
  upperBound : ℕ
  color : RGBColor
  deriving DecidableEq, Repr

/-- One pass of the accumulation loop (lines 69-72): the three `uint32_t` sums
after the channel `ch` has been added with sample `v`. -/
def accumulateChannel (rgbSum : ℕ × ℕ × ℕ) (p : ℕ × Channel) : ℕ × ℕ × ℕ :=
  let windowedValue := affineTransformUint8 p.1 p.2.lowerBound p.2.upperBound
  ((rgbSum.1 + p.2.color.r * windowedValue) % 2 ^ 32,
   (rgbSum.2.1 + p.2.color.g * windowedValue) % 2 ^ 32,
   (rgbSum.2.2 + p.2.color.b * windowedValue) % 2 ^ 32)

/-- The three sums after the loop over all channels (lines 67-73). -/
def accumulateChannels (values : List ℕ) (channels : List Channel) : ℕ × ℕ × ℕ :=
  (values.zip channels).foldl accumulateChannel (0, 0, 0)

/-- Normalisation of one sum (lines 78-81): clamp to `255 * 255`, divide by 255,
narrow to `uint8_t`. -/
def normalizeSum (s : ℕ) : ℕ :=
  (if s > 255 * 255 then 255 * 255 else s) / 255 % 256

/-- The compositor: `Except.error` is the thrown `std::invalid_argument`. -/
def combineChannelsToRGB (values : List ℕ) (channels : List Channel) :
    Except String RGBColor :=
  if values.length ≠ channels.length then
    Except.error "The length of values and channels vectors must be equal."
  else
    let rgbSum := accumulateChannels values channels
    Except.ok ⟨normalizeSum rgbSum.1, normalizeSum rgbSum.2.1, normalizeSum rgbSum.2.2⟩

/-- The exact, unbounded weighted sum of one colour component over all channels;
`weight` selects the component of the weight triple. -/
def exactSum (weight : Channel → ℕ) (values : List ℕ) (channels : List Channel) : ℕ :=
  ((values.zip channels).map fun p =>
    weight p.2 * affineTransformUint8 p.1 p.2.lowerBound p.2.upperBound).sum

/-- A channel with the window `[0, 1]` and full weight on the three components. -/
def whiteChannel : Channel := ⟨0, 1, ⟨255, 255, 255⟩⟩

/-! ## The tile loops (lines 331-377, 541-586, 662-709) -/

/-- The inner loop `for (x = 0; x < m_width; x += tilewidth)` at row `y`, started
at `x` in state `s`; `body` is the loop body, an `Except.error` is an early
`return`.  `x` is a `uint64_t`. -/
def xLoop {σ ε : Type} (body : ℕ → ℕ → σ → Except ε σ) (m_width tilewidth y : ℕ) :
    ℕ → ℕ → σ → Option (Except ε σ)
  | 0, x, s => if x < m_width then none else some (Except.ok s)
  | fuel + 1, x, s =>
    if x < m_width then
      match body x y s with
      | Except.error e => some (Except.error e)
      | Except.ok s1 => xLoop body m_width tilewidth y fuel ((x + tilewidth) % 2 ^ 64) s1
    else some (Except.ok s)

/-- The outer loop `for (y = 0; y < m_height; y += tileheight)` started at `y`. -/
def yLoop {σ ε : Type} (body : ℕ → ℕ → σ → Except ε σ)
    (m_width m_height tilewidth tileheight : ℕ) : ℕ → ℕ → σ → Option (Except ε σ)
  | 0, y, s => if y < m_height then none else some (Except.ok s)
  | fuel + 1, y, s =>
    if y < m_height then
      match xLoop body m_width tilewidth y m_width 0 s with
      | none => none
      | some (Except.error e) => some (Except.error e)
      | some (Except.ok s1) =>
        yLoop body m_width m_height tilewidth tileheight fuel ((y + tileheight) % 2 ^ 64) s1
    else some (Except.ok s)

/-- Both loops from `y = 0`.  A loop with a positive step runs at most `m_height`
(respectively `m_width`) times, which is the fuel it is given. -/
def tileLoop {σ ε : Type} (body : ℕ → ℕ → σ → Except ε σ)
    (m_width m_height tilewidth tileheight : ℕ) (s : σ) : Option (Except ε σ) :=
  yLoop body m_width m_height tilewidth tileheight m_height 0 s

/-- The coordinates `(x, y)` at which the loop body runs, in the order of the
run, for a body that never returns early. -/
def visitedCoords (m_width m_height tilewidth tileheight : ℕ) :
    Option (Except Unit (List (ℕ × ℕ))) :=
  tileLoop (fun x y acc => Except.ok (acc ++ [(x, y)])) m_width m_height tilewidth tileheight []

/-- Rounding-up quotient `ceil(a / b)`. -/
def ceilDiv (a b : ℕ) : ℕ := (a + b - 1) / b

/-- The row-major list `(i * tileWidth, j * tileHeight)`, `j` outer, `i` inner. -/
def rowMajorCoords (width height tileWidth tileHeight : ℕ) : List (ℕ × ℕ) :=
  (List.range (ceilDiv height tileHeight)).flatMap fun j =>
    (List.range (ceilDiv width tileWidth)).map fun i => (i * tileWidth, j * tileHeight)

/-- `tiles_across` of `Compress` (line 288): `uint64_t` operands, `uint32_t` result. -/
def tiles_across (m_width tilewidth : ℕ) : ℕ :=
  (m_width + tilewidth - 1) % 2 ^ 64 / tilewidth % 2 ^ 32

/-- `tiles_down` of `Compress` (line 289). -/
def tiles_down (m_height tileheight : ℕ) : ℕ :=
  (m_height + tileheight - 1) % 2 ^ 64 / tileheight % 2 ^ 32

/-- `tiles_per_image` of `Compress` (line 290): a `uint32_t` product. -/
def tiles_per_image (m_width m_height tilewidth tileheight : ℕ) : ℕ :=
  tiles_across m_width tilewidth * tiles_down m_height tileheight % 2 ^ 32

/-- Conversion of a `uint32_t` value to `int`. -/
def toInt32 (u : ℕ) : ℤ := if u < 2 ^ 31 then (u : ℤ) else (u : ℤ) - 2 ^ 32

/-- `num_tiles` of `Colorize` (line 539): `uint32_t` arithmetic stored in an `int`. -/
def num_tiles (m_width m_height tilewidth tileheight : ℕ) : ℤ :=
  toInt32 ((m_height + tileheight - 1) % 2 ^ 32 / tileheight
    * ((m_width + tilewidth - 1) % 2 ^ 32 / tilewidth) % 2 ^ 32)

/-! ## `Compress`, one directory (lines 314-381) -/

/-- Threshold on the integer mean of a tile (line 14). -/
def MEAN_THRESHOLD : ℕ := 200

/-- Threshold on the 10%-90% spread of a tile (line 15). -/
def DIFF_THRESHOLD : ℕ := 100

/-- The sorted copy `arrCopy` of the first `arrSize` samples (lines 343-345). -/
def arrCopy (arrSize : ℕ) (itile : List ℕ) : List ℕ :=
  (itile.take arrSize).insertionSort (· ≤ ·)

/-- The index `static_cast<int>(0.9 * arrSize)` (line 347), a `double` product. -/
def percentileIndex90 (arrSize : ℕ) : ℕ :=
  truncDouble (toDouble (toDouble (9 / 10) * toDouble (arrSize : ℚ)))

/-- The index `static_cast<int>(0.1 * arrSize)` (line 348). -/
def percentileIndex10 (arrSize : ℕ) : ℕ :=
  truncDouble (toDouble (toDouble (1 / 10) * toDouble (arrSize : ℚ)))

/-- The sample `percentile_90` (line 347). -/
def percentile_90 (arrSize : ℕ) (itile : List ℕ) : ℕ :=
  (arrCopy arrSize itile).getD (percentileIndex90 arrSize) 0

/-- The sample `percentile_10` (line 348). -/
def percentile_10 (arrSize : ℕ) (itile : List ℕ) : ℕ :=
  (arrCopy arrSize itile).getD (percentileIndex10 arrSize) 0

/-- The `uint16_t` difference `diff` (line 349). -/
def diff (arrSize : ℕ) (itile : List ℕ) : ℕ :=
  (percentile_90 arrSize itile + 2 ^ 16 - percentile_10 arrSize itile) % 2 ^ 16

/-- The `uint64_t` accumulator `sum` after the loop of lines 352-355. -/
def tileSum (arrSize : ℕ) (itile : List ℕ) : ℕ :=
  (List.range arrSize).foldl (fun sum i => (sum + itile.getD i 0) % 2 ^ 64) 0

/-- The condition of line 358: the tile is copied to the output buffer. -/
def keepTile (arrSize : ℕ) (itile : List ℕ) : Bool :=
  decide (tileSum arrSize itile / arrSize ≥ MEAN_THRESHOLD ∨ diff arrSize itile > DIFF_THRESHOLD)

/-- The effect of `memcpy(dst, src, n * sizeof(uint16_t))` on the buffer `dst`. -/
def memcpySamples (dst src : List ℕ) (n : ℕ) : List ℕ :=
  src.take n ++ dst.drop n

/-- The state of the tile loop of one directory: the output buffer `otile`, the
`float` counter `drop`, the counter `num_tiles`, and the tiles handed to
`TIFFWriteTile` so far, each with its coordinate. -/
structure CompressState where
  otile : List ℕ
  drop : ℚ
  num_tiles : ℕ
  written : List ((ℕ × ℕ) × List ℕ)

/-- The state before the first tile (lines 143, 325, 330): `otile` comes from
`calloc`, so it holds `ts / 2` zero samples. -/
def compressInit (ts : ℕ) : CompressState :=
  ⟨List.replicate (ts / 2) 0, 0, 0, []⟩

/-- The part of the loop body between the read and the write (lines 341-365). -/
def compressTile (ts : ℕ) (itile : List ℕ) (st : CompressState) : CompressState :=
  let arrSize := ts / 2
  if keepTile arrSize itile then
    { st with otile := memcpySamples st.otile itile arrSize }
  else
    { st with drop := toFloat (st.drop + 1) }

/-- The loop body (lines 334-375).  `readTile x y` is the buffer `TIFFReadTile`
fills, `none` when it fails; `writeTile x y buf` tells whether `TIFFWriteTile`
succeeds.  `Except.error 1` is `return 1`. -/
def compressBody (readTile : ℕ → ℕ → Option (List ℕ)) (writeTile : ℕ → ℕ → List ℕ → Bool)
    (ts x y : ℕ) (st : CompressState) : Except ℕ CompressState :=
  let st1 := { st with num_tiles := st.num_tiles + 1 }
  match readTile x y with
  | none => Except.error 1
  | some itile =>
    let st2 := compressTile ts itile st1
    if writeTile x y st2.otile then
      Except.ok { st2 with written := st2.written ++ [((x, y), st2.otile)] }
    else Except.error 1

/-- The tile loop of one tiled directory of `Compress`. -/
def compressDirectory (readTile : ℕ → ℕ → Option (List ℕ))
    (writeTile : ℕ → ℕ → List ℕ → Bool) (m_width m_height tilewidth tileheight ts : ℕ) :
    Option (Except ℕ CompressState) :=
  tileLoop (compressBody readTile writeTile ts) m_width m_height tilewidth tileheight
    (compressInit ts)

/-- The drop rate printed at the end of a directory (line 381): the `float`
quotient `drop / num_tiles`, `num_tiles` being converted to `float` first.  With
`num_tiles = 0` the quotient is `0.0f / 0.0f`, not a number: `none`. -/
def dropRate (st : CompressState) : Option ℚ :=
  if st.num_tiles = 0 then none else some (toFloat (st.drop / toFloat (st.num_tiles : ℚ)))

/-- The tile `TIFFReadTile` delivers at the coordinate `c`. -/
def tileAt (readTile : ℕ → ℕ → Option (List ℕ)) (c : ℕ × ℕ) : List ℕ :=
  (readTile c.1 c.2).getD []

/-- Modelled from the spec: a tile fails both conditions of the quantile filter,
its integer mean is below 200 and its spread
`sorted[floor(0.9 N)] - sorted[floor(0.1 N)]` is at most 100. -/
def failsBoth (itile : List ℕ) : Bool :=
  decide (itile.sum / itile.length < 200 ∧
    (itile.insertionSort (· ≤ ·)).getD (9 * itile.length / 10) 0
      - (itile.insertionSort (· ≤ ·)).getD (itile.length / 10) 0 ≤ 100)

/-- Modelled from the spec: the number of tiles of a directory, over the
coordinates `coords`, that fail both conditions. -/
def failingTiles (readTile : ℕ → ℕ → Option (List ℕ)) (coords : List (ℕ × ℕ)) : ℕ :=
  (coords.filter fun c => failsBoth (tileAt readTile c)).length

/-- The reads of an all-zero directory of `m_width` x `m_height` pixels with tiles
of 256 samples: a read succeeds for a coordinate inside the image and fails
outside. -/
def zeroImageReadTile (m_width m_height x y : ℕ) : Option (List ℕ) :=
  if x < m_width ∧ y < m_height then some (List.replicate 256 0) else none

/-- A tile of four samples whose integer mean is exactly 200 and whose spread is
`210 - 190 = 20`. -/
def boundaryTile : List ℕ := [190, 210, 200, 200]

/-- The input tiles of a 32 x 16 image cut into two 16 x 16 tiles of 16-bit
samples (`ts = 512`): the tile at `x = 0` holds 300 everywhere, the tile at
`x = 16` holds 0 everywhere. -/
def staleReadTile (x _y : ℕ) : Option (List ℕ) :=
  some (if x = 0 then List.replicate 256 300 else List.replicate 256 0)

/-! ## `MergeGrayToRGB`, the interleave (lines 687-699 and 761-772) -/

/-- One pass of the copy loop: the three stores at index `i`. -/
def interleaveStep (r g b : List ℕ) (o : List ℕ) (i : ℕ) : List ℕ :=
  ((o.set (i * 3) (r.getD i 0)).set (i * 3 + 1) (g.getD i 0)).set (i * 3 + 2) (b.getD i 0)

/-- The tile copy loop (lines 687-699): `tileSize` is the value of
`TIFFTileSize(in)` in the loop condition. -/
def mergeTile (tileSize : ℕ) (r_tile g_tile b_tile o_tile : List ℕ) : List ℕ :=
  (List.range tileSize).foldl (interleaveStep r_tile g_tile b_tile) o_tile

/-- The scanline copy loop (lines 761-772): `scanlineSize` is the value of
`TIFFScanlineSize(in)` in the loop condition. -/
def mergeScanline (scanlineSize : ℕ) (rbuf gbuf bbuf obuf : List ℕ) : List ℕ :=
  (List.range scanlineSize).foldl
    (fun o i => ((o.set (i * 3) (rbuf.getD i 0)).set (i * 3 + 1) (gbuf.getD i 0)).set
      (i * 3 + 2) (bbuf.getD i 0)) obuf

/-- Modelled from the spec: the RGB buffer in which the bytes of three channels
alternate, `r[i]`, `g[i]`, `b[i]` at the offsets `3i`, `3i + 1`, `3i + 2`. -/
def interleaved : List ℕ → List ℕ → List ℕ → List ℕ
  | x :: r, y :: g, z :: b => x :: y :: z :: interleaved r g b
  | _, _, _ => []

/-- Modelled from the spec: the channel `c` of an RGB buffer of `n` pixels, every
third byte of `out` from offset `c`. -/
def deinterleave (n c : ℕ) (out : List ℕ) : List ℕ :=
  (List.range n).map fun i => out.getD (3 * i + c) 0

/-! ## The input handle and the outcome of a run -/

/-- One directory of the input image as the libtiff calls of `MergeGrayToRGB` and
`Colorize` see it: the values `TIFFGetField` delivers (`none` when the call fails),
`TIFFIsTiled`, `TIFFTileSize`, `TIFFScanlineSize`, and the buffers `TIFFReadTile`
and `TIFFReadScanline` fill (`none` when the read fails). -/
structure Directory where
  bitsPerSample : ℕ
  photometric : ℕ
  imageWidth : Option ℕ
  imageLength : Option ℕ
  tileWidth : Option ℕ
  tileLength : Option ℕ
  isTiled : Bool
  tileSize : ℕ
  scanlineSize : ℕ
  readTile : ℕ → ℕ → Option (List ℕ)
  readScanline : ℕ → Option (List ℕ)

/-- A directory without content, read where the handle has no directory. -/
def emptyDirectory : Directory :=
  ⟨0, 0, none, none, none, none, false, 0, 0, fun _ _ => none, fun _ => none⟩

/-- The input handle `in`: its directories and the directory that is current when
the function is entered. -/
structure TiffIn where
  dirs : List Directory
  current : ℕ

/-- The directory selected by `TIFFSetDirectory(in, i)`. -/
def TiffIn.dir (tif : TiffIn) (i : ℕ) : Directory := tif.dirs.getD i emptyDirectory

/-- How a run ends: a `return` with its code, a failed `assert`, or an exception
that leaves the function (`std::out_of_range`, `std::invalid_argument`). -/
inductive Outcome where
  | returned (code : ℤ)
  | assertion
  | out_of_range
  | invalid_argument
  deriving DecidableEq, Repr

/-- The observable result of a run: the outcome, the reads issued, each as
(directory, x, y) with `x = 0` for a scanline, and the buffers written, each with
its coordinate, in the order of the calls. -/
structure RunResult where
  outcome : Outcome
  reads : List (ℕ × ℕ × ℕ)
  written : List ((ℕ × ℕ) × List ℕ)
  deriving DecidableEq, Repr

/-- The buffer `buf` after a read has stored `data` into it. -/
def readInto (buf data : List ℕ) : List ℕ :=
  data.take buf.length ++ buf.drop data.length

/-! ## `MergeGrayToRGB` (lines 599-790) -/

/-- The assertions of `__gray8assert` (lines 123-131); `PHOTOMETRIC_MINISBLACK` is 1. -/
def gray8 (d : Directory) : Bool := d.bitsPerSample = 8 ∧ d.photometric = 1

/-- The buffers of the merge and the trace of its reads and writes. -/
structure MergeState where
  r_tile : List ℕ
  g_tile : List ℕ
  b_tile : List ℕ
  o_tile : List ℕ
  reads : List (ℕ × ℕ × ℕ)
  written : List ((ℕ × ℕ) × List ℕ)

/-- The body of the tile loop (lines 665-706).  The copy loop is bounded by
`TIFFTileSize(in)` of the directory current at that point, directory 2. -/
def mergeTileBody (tif : TiffIn) (writeTile : ℕ → ℕ → List ℕ → Bool) (x y : ℕ)
    (st : MergeState) : Except RunResult MergeState :=
  let reads0 := st.reads ++ [(0, x, y)]
  match (tif.dir 0).readTile x y with
  | none => Except.error ⟨Outcome.returned 1, reads0, st.written⟩
  | some rdata =>
    let reads1 := reads0 ++ [(1, x, y)]
    match (tif.dir 1).readTile x y with
    | none => Except.error ⟨Outcome.returned 1, reads1, st.written⟩
    | some gdata =>
      let reads2 := reads1 ++ [(2, x, y)]
      match (tif.dir 2).readTile x y with
      | none => Except.error ⟨Outcome.returned 1, reads2, st.written⟩
      | some bdata =>
        let r_tile := readInto st.r_tile rdata
        let g_tile := readInto st.g_tile gdata
        let b_tile := readInto st.b_tile bdata
        let o_tile := mergeTile (tif.dir 2).tileSize r_tile g_tile b_tile st.o_tile
        if writeTile x y o_tile then
          Except.ok ⟨r_tile, g_tile, b_tile, o_tile, reads2, st.written ++ [((x, y), o_tile)]⟩
        else Except.error ⟨Outcome.returned 1, reads2, st.written⟩

/-- The body of the row loop (lines 739-779). -/
def mergeLineBody (tif : TiffIn) (writeScanline : ℕ → List ℕ → Bool) (st : MergeState)
    (y : ℕ) : Except RunResult MergeState :=
  let reads0 := st.reads ++ [(0, 0, y)]
  match (tif.dir 0).readScanline y with
  | none => Except.error ⟨Outcome.returned 1, reads0, st.written⟩
  | some rdata =>
    let reads1 := reads0 ++ [(1, 0, y)]
    match (tif.dir 1).readScanline y with
    | none => Except.error ⟨Outcome.returned 1, reads1, st.written⟩
    | some gdata =>
      let reads2 := reads1 ++ [(2, 0, y)]
      match (tif.dir 2).readScanline y with
      | none => Except.error ⟨Outcome.returned 1, reads2, st.written⟩
      | some bdata =>
        let rbuf := readInto st.r_tile rdata
        let gbuf := readInto st.g_tile gdata
        let bbuf := readInto st.b_tile bdata
        let obuf := mergeScanline (tif.dir 2).scanlineSize rbuf gbuf bbuf st.o_tile
        if writeScanline y obuf then
          Except.ok ⟨rbuf, gbuf, bbuf, obuf, reads2, st.written ++ [((0, y), obuf)]⟩
        else Except.error ⟨Outcome.returned 1, reads2, st.written⟩

/-- The result of a loop as the result of the run: an early `return` keeps its
code, a loop that runs to its end is followed by `return 0`. -/
def finishRun {σ : Type} (reads : σ → List (ℕ × ℕ × ℕ)) (written : σ → List ((ℕ × ℕ) × List ℕ)) :
    Except RunResult σ → RunResult
  | Except.error r => r
  | Except.ok st => ⟨Outcome.returned 0, reads st, written st⟩

/-- The function `MergeGrayToRGB(TIFF* in, TIFF* out)`.  `writeTile` and
`writeScanline` tell whether the writes to `out` succeed.  After the loop of lines
610-613 directory 2 is current, so the image size is read from it; the tile-size
loop of lines 648-651 selects directory 1 in both of its passes. -/
def MergeGrayToRGB (tif : TiffIn) (writeTile : ℕ → ℕ → List ℕ → Bool)
    (writeScanline : ℕ → List ℕ → Bool) : Option RunResult :=
  let dircount := tif.dirs.length
  if dircount < 3 then some ⟨Outcome.returned 1, [], []⟩
  else if ¬ (gray8 (tif.dir 0) ∧ gray8 (tif.dir 1) ∧ gray8 (tif.dir 2)) then
    some ⟨Outcome.assertion, [], []⟩
  else
    match (tif.dir 2).imageWidth, (tif.dir 2).imageLength with
    | some m_width, some m_height =>
      if (tif.dir 0).isTiled then
        match (tif.dir 0).tileWidth, (tif.dir 0).tileLength with
        | some tilewidth, some tileheight =>
          let ts := (tif.dir 0).tileSize
          if ¬ ((tif.dir 1).tileSize = ts ∧ (tif.dir 1).tileSize = ts) then
            some ⟨Outcome.assertion, [], []⟩
          else
            (tileLoop (mergeTileBody tif writeTile) m_width m_height tilewidth tileheight
              ⟨List.replicate ts 0, List.replicate ts 0, List.replicate ts 0,
                List.replicate (ts * 3) 0, [], []⟩).map
              (finishRun MergeState.reads MergeState.written)
        | _, _ => some ⟨Outcome.returned 1, [], []⟩
      else
        let ls := (tif.dir 0).scanlineSize
        if ¬ ((tif.dir 1).scanlineSize = ls ∧ (tif.dir 2).scanlineSize = ls) then
          some ⟨Outcome.assertion, [], []⟩
        else
          let n := (tif.dir 2).scanlineSize
          some (finishRun MergeState.reads MergeState.written
            ((List.range m_height).foldlM (mergeLineBody tif writeScanline)
              ⟨List.replicate n 0, List.replicate n 0, List.replicate n 0,
                List.replicate (n * 3) 0, [], []⟩))
    | _, _ => some ⟨Outcome.returned 1, [], []⟩


/-! ## `Colorize` (lines 431-597) -/

/-- The palette loop (lines 448-452): `channels` after the file has been read line
by line.  The constructor `Channel(line)` of `channel.h` is the parameter
`parseChannel`.  For an empty line the condition evaluates `line.at(0)`, which
throws `std::out_of_range`: the result is `none`. -/
def readPalette (parseChannel : String → Channel) (palette : List String) :
    Option (List Channel) :=
  palette.foldlM
    (fun channels line => if ¬ line.isEmpty then some (channels ++ [parseChannel line]) else none)
    []

/-- The element `channels.at(n)` for an `int` index: `none` when `at` throws. -/
def channelAt (channels : List Channel) (n : ℤ) : Option Channel :=
  channels[(n % 2 ^ 64).toNat]?

/-- The loop of lines 461-464 that fills `channels_to_run_map`: `none` when one of
the calls `channels.at(n)` throws `std::out_of_range`. -/
def selectChannels (channels : List Channel) : List ℤ → Option (List Channel)
  | [] => some []
  | n :: rest =>
    match channelAt channels n with
    | none => none
    | some ch => (selectChannels channels rest).map fun chs => ch :: chs

/-- The value of `*std::max_element` over a selection. -/
def maxElement (channels_to_run : List ℤ) : ℤ :=
  channels_to_run.tail.foldl max (channels_to_run.headD 0)

/-- The per-channel tile buffers, the output buffer and the trace of a run. -/
structure ColorizeState where
  channels : List (List ℕ)
  o_tile : List ℕ
  reads : List (ℕ × ℕ × ℕ)
  written : List ((ℕ × ℕ) × List ℕ)

/-- The loop that reads one tile per selected channel (lines 548-557):
`channel_num` counts the channels read so far; an error carries the reads issued. -/
def readChannelTiles (tif : TiffIn) (x y : ℕ) :
    List ℤ → ℕ → List (List ℕ) → List (ℕ × ℕ × ℕ) →
      Except (List (ℕ × ℕ × ℕ)) (List (List ℕ) × List (ℕ × ℕ × ℕ))
  | [], _, bufs, reads => Except.ok (bufs, reads)
  | m :: rest, channel_num, bufs, reads =>
    match (tif.dir m.toNat).readTile x y with
    | none => Except.error (reads ++ [(m.toNat, x, y)])
    | some data =>
      readChannelTiles tif x y rest (channel_num + 1)
        (bufs.set channel_num (readInto (bufs.getD channel_num []) data))
        (reads ++ [(m.toNat, x, y)])

/-- The pixel loop (lines 560-576) over the `n = ts / 2` samples of a tile; an
error is the exception of `combineChannelsToRGB`. -/
def colorizePixels (channels_to_run_map : List Channel) (bufs : List (List ℕ)) (n : ℕ)
    (o_tile : List ℕ) : Except String (List ℕ) :=
  (List.range n).foldlM
    (fun o i =>
      match combineChannelsToRGB (bufs.map fun buf => buf.getD i 0) channels_to_run_map with
      | Except.error e => Except.error e
      | Except.ok rgb =>
        Except.ok (((o.set (i * 3) rgb.r).set (i * 3 + 1) rgb.g).set (i * 3 + 2) rgb.b))
    o_tile

/-- The body of the tile loop (lines 545-583). -/
def colorizeBody (tif : TiffIn) (writeTile : ℕ → ℕ → List ℕ → Bool)
    (channels_to_run : List ℤ) (channels_to_run_map : List Channel) (ts x y : ℕ)
    (st : ColorizeState) : Except RunResult ColorizeState :=
  match readChannelTiles tif x y channels_to_run 0 st.channels st.reads with
  | Except.error reads => Except.error ⟨Outcome.returned 1, reads, st.written⟩
  | Except.ok (bufs, reads) =>
    match colorizePixels channels_to_run_map bufs (ts / 2) st.o_tile with
    | Except.error _ => Except.error ⟨Outcome.invalid_argument, reads, st.written⟩
    | Except.ok o_tile =>
      if writeTile x y o_tile then
        Except.ok ⟨bufs, o_tile, reads, st.written ++ [((x, y), o_tile)]⟩
      else Except.error ⟨Outcome.returned 1, reads, st.written⟩

/-- The function `Colorize`: `palette` holds the lines of the palette file,
`channels_to_run` the selection, an `int` vector.  The size of the palette and the
number of directories are taken to fit an `int`. -/
def Colorize (tif : TiffIn) (writeTile : ℕ → ℕ → List ℕ → Bool)
    (parseChannel : String → Channel) (palette : List String) (channels_to_run : List ℤ) :
    Option RunResult :=
  let num_dir : ℤ := tif.dirs.length
  match readPalette parseChannel palette with
  | none => some ⟨Outcome.out_of_range, [], []⟩
  | some channels =>
    if channels_to_run.length = 0 then some ⟨Outcome.returned 0, [], []⟩
    else
      match selectChannels channels channels_to_run with
      | none => some ⟨Outcome.out_of_range, [], []⟩
      | some channels_to_run_map =>
        let channel_max := maxElement channels_to_run
        if (channel_max % 2 ^ 64).toNat ≥ channels.length then
          some ⟨Outcome.returned (-1), [], []⟩
        else if num_dir ≤ channel_max then some ⟨Outcome.returned (-1), [], []⟩
        else if (tif.dir tif.current).isTiled then
          let ts := (tif.dir (channels_to_run.headD 0).toNat).tileSize
          if ¬ (∀ m ∈ channels_to_run.tail, (tif.dir m.toNat).tileSize = ts) then
            some ⟨Outcome.assertion, [], []⟩
          else
            let last := tif.dir (channels_to_run.getLastD 0).toNat
            match last.imageWidth, last.imageLength, last.tileWidth, last.tileLength with
            | some m_width, some m_height, some tilewidth, some tileheight =>
              (tileLoop (colorizeBody tif writeTile channels_to_run channels_to_run_map ts)
                m_width m_height tilewidth tileheight
                ⟨List.replicate channels_to_run.length (List.replicate (ts / 2) 0),
                  List.replicate (ts / 2 * 3) 0, [], []⟩).map
                (finishRun ColorizeState.reads ColorizeState.written)
            | _, _, _, _ => some ⟨Outcome.returned 1, [], []⟩
        else some ⟨Outcome.returned 0, [], []⟩

/-- A palette reader for examples: every line is the channel with window `[0, 1]`
and full weights. -/
def whiteParse (_line : String) : Channel := whiteChannel

/-- A non-tiled 8-bit grayscale directory of one row holding the bytes `data`. -/
def grayLine (data : List ℕ) : Directory :=
  ⟨8, 1, some data.length, some 1, none, none, false, 0, data.length, fun _ _ => none,
    fun y => if y = 0 then some data else none⟩

/-- An image of four one-row grayscale directories of two pixels each. -/
def fourDirImage : TiffIn :=
  ⟨[grayLine [10, 11], grayLine [20, 21], grayLine [30, 31], grayLine [40, 41]], 0⟩

/-- A tiled 8-bit grayscale directory of a 16 x 16 image with `side` x `side` tiles
whose bytes all are `v`. -/
def grayTile (side v : ℕ) : Directory :=
  ⟨8, 1, some 16, some 16, some side, some side, true, side * side, 16,
    fun _ _ => some (List.replicate (side * side) v), fun _ => none⟩

/-- An image of three tiled grayscale directories: directories 0 and 1 have
16 x 16 tiles (256 bytes), directory 2 has 32 x 32 tiles (1024 bytes). -/
def mismatchedImage : TiffIn := ⟨[grayTile 16 1, grayTile 16 2, grayTile 32 3], 0⟩

/-- An image with a single tiled grayscale directory. -/
def oneDirImage : TiffIn := ⟨[grayTile 16 1], 0⟩

/-- A tiled grayscale directory of a 5 x 3 image with 2 x 2 tiles of four samples
of `bits` bits: the tile at `(x, y)` holds `v`, `v + x`, `v + y`, `v + x + y`, and
a read at a coordinate outside the image fails. -/
def smallTiles (bits v : ℕ) : Directory :=
  ⟨bits, 1, some 5, some 3, some 2, some 2, true, 4 * bits / 8, 5 * bits / 8,
    fun x y => if x < 5 ∧ y < 3 then some [v, v + x, v + y, v + x + y] else none,
    fun _ => none⟩

/-- An image of three tiled 8-bit grayscale directories of 5 x 3 pixels. -/
def threeTiledImage : TiffIn := ⟨[smallTiles 8 10, smallTiles 8 20, smallTiles 8 30], 0⟩

/-- An image of three one-row grayscale directories of two pixels each. -/
def threeLineImage : TiffIn := ⟨[grayLine [10, 11], grayLine [20, 21], grayLine [30, 31]], 0⟩

/-- An image of two tiled 16-bit directories of 5 x 3 pixels. -/
def twoChannelImage : TiffIn := ⟨[smallTiles 16 100, smallTiles 16 200], 0⟩

/-! ## Properties of the rounding -/

theorem floor_le_roundHalfEven (t : ℚ) : ⌊t⌋ ≤ roundHalfEven t := by
  unfold roundHalfEven
  split_ifs <;> omega

theorem roundHalfEven_le_floor_succ (t : ℚ) : roundHalfEven t ≤ ⌊t⌋ + 1 := by
  unfold roundHalfEven
  split_ifs <;> omega

theorem roundHalfEven_intCast (n : ℤ) : roundHalfEven (n : ℚ) = n := by
  unfold roundHalfEven
  simp

theorem roundHalfEven_mono {s t : ℚ} (h : s ≤ t) : roundHalfEven s ≤ roundHalfEven t := by
  have hfl : ⌊s⌋ ≤ ⌊t⌋ := Int.floor_mono h
  rcases hfl.lt_or_eq with hlt | heq
  · -- floor s + 1 ≤ floor t
    exact le_trans (roundHalfEven_le_floor_succ s) (le_trans hlt (floor_le_roundHalfEven t))
  · unfold roundHalfEven
    rw [heq]
    have : s - (⌊t⌋ : ℚ) ≤ t - ⌊t⌋ := by linarith
    split_ifs <;> first | omega | (exfalso; linarith)

theorem int_le_roundHalfEven {n : ℤ} {t : ℚ} (h : (n : ℚ) ≤ t) : n ≤ roundHalfEven t := by
  have := roundHalfEven_mono h
  rwa [roundHalfEven_intCast] at this

theorem roundHalfEven_le_int {n : ℤ} {t : ℚ} (h : t ≤ (n : ℚ)) : roundHalfEven t ≤ n := by
  have := roundHalfEven_mono h
  rwa [roundHalfEven_intCast] at this

theorem ulp_pos (q : ℚ) : (0 : ℚ) < 2 ^ ulpExp q := by positivity

theorem toDouble_of_pos {q : ℚ} (hq : 0 < q) :
    toDouble q = roundHalfEven (q / 2 ^ ulpExp q) * 2 ^ ulpExp q := by
  unfold toDouble
  rw [if_neg (not_le.mpr hq)]

theorem ulpExp_le_iff {q : ℚ} (hq : 0 < q) (j : ℤ) : ulpExp q ≤ j ↔ q < 2 ^ (j + 53) := by
  unfold ulpExp
  have h := Int.lt_zpow_iff_log_lt (b := 2) (by norm_num) (x := j + 53) hq
  rw [Nat.cast_ofNat] at h
  rw [h]
  omega

/-- A grid point `n * 2^j` at or below `q` stays at or below the rounded value. -/
theorem grid_le_toDouble {q : ℚ} (hq : 0 < q) (n j : ℤ) (hj : ulpExp q ≤ j)
    (h : (n : ℚ) * 2 ^ j ≤ q) : (n : ℚ) * 2 ^ j ≤ toDouble q := by
  rw [toDouble_of_pos hq]
  obtain ⟨d, hd⟩ : ∃ d : ℕ, j = ulpExp q + d := ⟨(j - ulpExp q).toNat, by omega⟩
  have hu := ulp_pos q
  have hsplit : (n : ℚ) * 2 ^ j = ((n * 2 ^ d : ℤ) : ℚ) * 2 ^ ulpExp q := by
    rw [hd, zpow_add₀ (by norm_num : (2 : ℚ) ≠ 0)]
    push_cast
    rw [zpow_natCast]
    ring
  rw [hsplit] at h ⊢
  have h1 : ((n * 2 ^ d : ℤ) : ℚ) ≤ q / 2 ^ ulpExp q := by
    rw [le_div_iff₀ hu]; exact h
  have h2 := int_le_roundHalfEven h1
  have h3 : ((n * 2 ^ d : ℤ) : ℚ) ≤ (roundHalfEven (q / 2 ^ ulpExp q) : ℚ) := by exact_mod_cast h2
  exact mul_le_mul_of_nonneg_right h3 hu.le

theorem toDouble_le_grid {q : ℚ} (hq : 0 < q) (n j : ℤ) (hj : ulpExp q ≤ j)
    (h : q ≤ (n : ℚ) * 2 ^ j) : toDouble q ≤ (n : ℚ) * 2 ^ j := by
  rw [toDouble_of_pos hq]
  obtain ⟨d, hd⟩ : ∃ d : ℕ, j = ulpExp q + d := ⟨(j - ulpExp q).toNat, by omega⟩
  have hu := ulp_pos q
  have hsplit : (n : ℚ) * 2 ^ j = ((n * 2 ^ d : ℤ) : ℚ) * 2 ^ ulpExp q := by
    rw [hd, zpow_add₀ (by norm_num : (2 : ℚ) ≠ 0)]
    push_cast
    rw [zpow_natCast]
    ring
  rw [hsplit] at h ⊢
  have h1 : q / 2 ^ ulpExp q ≤ ((n * 2 ^ d : ℤ) : ℚ) := by
    rw [div_le_iff₀ hu]; exact h
  have h2 := roundHalfEven_le_int h1
  have h3 : (roundHalfEven (q / 2 ^ ulpExp q) : ℚ) ≤ ((n * 2 ^ d : ℤ) : ℚ) := by exact_mod_cast h2
  exact mul_le_mul_of_nonneg_right h3 hu.le

theorem toDouble_nonpos {q : ℚ} (hq : q ≤ 0) : toDouble q = 0 := by
  unfold toDouble
  rw [if_pos hq]

theorem toDouble_nonneg (q : ℚ) : 0 ≤ toDouble q := by
  rcases le_or_lt q 0 with h | h
  · rw [toDouble_nonpos h]
  · have := grid_le_toDouble h 0 (ulpExp q) le_rfl (by simpa using h.le)
    simpa using this

theorem zpow_log_le {q : ℚ} (hq : 0 < q) : (2 : ℚ) ^ Int.log 2 q ≤ q := by
  have h := Int.zpow_log_le_self (b := 2) (by norm_num) hq
  rwa [Nat.cast_ofNat] at h

theorem lt_zpow_log_succ (q : ℚ) : q < (2 : ℚ) ^ (Int.log 2 q + 1) := by
  have h := Int.lt_zpow_succ_log_self (b := 2) (by norm_num) q
  rwa [Nat.cast_ofNat] at h

theorem zpow_log_le_toDouble {q : ℚ} (hq : 0 < q) : (2 : ℚ) ^ Int.log 2 q ≤ toDouble q := by
  have := grid_le_toDouble hq 1 (Int.log 2 q) (by unfold ulpExp; omega)
    (by simpa using zpow_log_le hq)
  simpa using this

theorem toDouble_le_zpow_log_succ {q : ℚ} (hq : 0 < q) :
    toDouble q ≤ (2 : ℚ) ^ (Int.log 2 q + 1) := by
  have := toDouble_le_grid hq 1 (Int.log 2 q + 1) (by unfold ulpExp; omega)
    (by simpa using (lt_zpow_log_succ q).le)
  simpa using this

theorem toDouble_pos {q : ℚ} (hq : 0 < q) : 0 < toDouble q :=
  lt_of_lt_of_le (by positivity) (zpow_log_le_toDouble hq)

theorem toDouble_mono {p q : ℚ} (h : p ≤ q) : toDouble p ≤ toDouble q := by
  rcases le_or_lt p 0 with hp | hp
  · rw [toDouble_nonpos hp]; exact toDouble_nonneg q
  · have hq : 0 < q := lt_of_lt_of_le hp h
    have hlog : Int.log 2 p ≤ Int.log 2 q := Int.log_mono_right hp h
    rcases hlog.lt_or_eq with hlt | heq
    · calc toDouble p ≤ (2 : ℚ) ^ (Int.log 2 p + 1) := toDouble_le_zpow_log_succ hp
        _ ≤ (2 : ℚ) ^ Int.log 2 q := zpow_le_zpow_right₀ (by norm_num) (by omega)
        _ ≤ toDouble q := zpow_log_le_toDouble hq
    · have hu : ulpExp p = ulpExp q := by unfold ulpExp; rw [heq]
      rw [toDouble_of_pos hp, toDouble_of_pos hq, hu]
      have hpos := ulp_pos q
      have h1 : p / 2 ^ ulpExp q ≤ q / 2 ^ ulpExp q := div_le_div_of_nonneg_right h hpos.le
      have h2 := roundHalfEven_mono h1
      have h3 : (roundHalfEven (p / 2 ^ ulpExp q) : ℚ) ≤ roundHalfEven (q / 2 ^ ulpExp q) := by
        exact_mod_cast h2
      exact mul_le_mul_of_nonneg_right h3 hpos.le

theorem ulp_le_mul {q : ℚ} (hq : 0 < q) : (2 : ℚ) ^ ulpExp q ≤ q / 2 ^ 52 := by
  unfold ulpExp
  rw [zpow_sub₀ (by norm_num : (2 : ℚ) ≠ 0)]
  have := zpow_log_le hq
  have h52 : (2 : ℚ) ^ (52 : ℤ) = 2 ^ 52 := by norm_num
  rw [h52]
  exact div_le_div_of_nonneg_right this (by positivity)

theorem toDouble_le_add_ulp {q : ℚ} (hq : 0 < q) : toDouble q ≤ q + 2 ^ ulpExp q := by
  rw [toDouble_of_pos hq]
  have hu := ulp_pos q
  have h1 : (roundHalfEven (q / 2 ^ ulpExp q) : ℚ) ≤ q / 2 ^ ulpExp q + 1 := by
    have h2 : (roundHalfEven (q / 2 ^ ulpExp q) : ℚ) ≤ (⌊q / 2 ^ ulpExp q⌋ : ℚ) + 1 := by
      exact_mod_cast roundHalfEven_le_floor_succ (q / 2 ^ ulpExp q)
    linarith [Int.floor_le (q / 2 ^ ulpExp q)]
  calc (roundHalfEven (q / 2 ^ ulpExp q) : ℚ) * 2 ^ ulpExp q
      ≤ (q / 2 ^ ulpExp q + 1) * 2 ^ ulpExp q := mul_le_mul_of_nonneg_right h1 hu.le
    _ = q + 2 ^ ulpExp q := by field_simp

theorem sub_ulp_le_toDouble {q : ℚ} (hq : 0 < q) : q - 2 ^ ulpExp q ≤ toDouble q := by
  rw [toDouble_of_pos hq]
  have hu := ulp_pos q
  have h1 : q / 2 ^ ulpExp q - 1 ≤ (roundHalfEven (q / 2 ^ ulpExp q) : ℚ) := by
    have h2 : (⌊q / 2 ^ ulpExp q⌋ : ℚ) ≤ (roundHalfEven (q / 2 ^ ulpExp q) : ℚ) := by
      exact_mod_cast floor_le_roundHalfEven (q / 2 ^ ulpExp q)
    linarith [Int.lt_floor_add_one (q / 2 ^ ulpExp q)]
  calc q - 2 ^ ulpExp q = (q / 2 ^ ulpExp q - 1) * 2 ^ ulpExp q := by field_simp
    _ ≤ (roundHalfEven (q / 2 ^ ulpExp q) : ℚ) * 2 ^ ulpExp q :=
        mul_le_mul_of_nonneg_right h1 hu.le

theorem toDouble_le_rel {q : ℚ} (hq : 0 < q) : toDouble q ≤ q + q / 2 ^ 52 :=
  le_trans (toDouble_le_add_ulp hq) (by linarith [ulp_le_mul hq])

theorem rel_le_toDouble {q : ℚ} (hq : 0 < q) : q - q / 2 ^ 52 ≤ toDouble q :=
  le_trans (by linarith [ulp_le_mul hq]) (sub_ulp_le_toDouble hq)

theorem toDouble_natCast {n : ℕ} (hn : n < 2 ^ 53) : toDouble (n : ℚ) = n := by
  rcases Nat.eq_zero_or_pos n with h0 | hpos
  · subst h0; simp [toDouble]
  · have hq : (0 : ℚ) < n := by exact_mod_cast hpos
    have hj : ulpExp (n : ℚ) ≤ 0 := by
      rw [ulpExp_le_iff hq]
      have : ((n : ℚ)) < 2 ^ 53 := by exact_mod_cast hn
      norm_num
      linarith
    have h1 := grid_le_toDouble hq n 0 hj (by simp)
    have h2 := toDouble_le_grid hq n 0 hj (by simp)
    simp at h1 h2
    exact le_antisymm h2 h1

theorem roundHalfEven_eq_of_near {t : ℚ} {n : ℤ} (h1 : (n : ℚ) - 1 / 2 < t)
    (h2 : t < (n : ℚ) + 1 / 2) : roundHalfEven t = n := by
  have hfl : ⌊t⌋ = n ∨ ⌊t⌋ = n - 1 := by
    have ha : n - 1 ≤ ⌊t⌋ := by
      rw [Int.le_floor]; push_cast; linarith
    have hb : ⌊t⌋ < n + 1 := by
      rw [Int.floor_lt]; push_cast; linarith
    omega
  unfold roundHalfEven
  rcases hfl with h | h
  · rw [h, if_pos (by linarith)]
  · rw [h]
    push_cast
    rw [if_neg (by linarith), if_pos (by linarith)]
    ring

theorem toDouble_eq_of_near {q : ℚ} (e n : ℤ) (hlo : (2 : ℚ) ^ e ≤ q) (hhi : q < 2 ^ (e + 1))
    (h1 : (n : ℚ) - 1 / 2 < q / 2 ^ (e - 52)) (h2 : q / 2 ^ (e - 52) < (n : ℚ) + 1 / 2) :
    toDouble q = n * 2 ^ (e - 52) := by
  have hq : 0 < q := lt_of_lt_of_le (by positivity) hlo
  have hlog : Int.log 2 q = e := by
    apply le_antisymm
    · have := (Int.lt_zpow_iff_log_lt (b := 2) (by norm_num) (x := e + 1) hq).mp
        (by rw [Nat.cast_ofNat]; exact hhi)
      omega
    · exact (Int.zpow_le_iff_le_log (b := 2) (by norm_num) hq).mp
        (by rw [Nat.cast_ofNat]; exact hlo)
  rw [toDouble_of_pos hq]
  unfold ulpExp
  rw [hlog, roundHalfEven_eq_of_near h1 h2]

theorem toDouble_nine_tenths : toDouble (9 / 10) = 8106479329266893 / 2 ^ 53 := by
  have h := toDouble_eq_of_near (q := 9 / 10) (-1) 8106479329266893
    (by norm_num) (by norm_num) (by norm_num) (by norm_num)
  rw [h]; norm_num

theorem toDouble_one_tenth : toDouble (1 / 10) = 3602879701896397 / 2 ^ 55 := by
  have h := toDouble_eq_of_near (q := 1 / 10) (-4) 7205759403792794
    (by norm_num) (by norm_num) (by norm_num) (by norm_num)
  rw [h]; norm_num

theorem floor_toDouble_eq {q : ℚ} {m : ℕ} (hq : 0 < q) (h1 : (m : ℚ) ≤ q)
    (h2 : q ≤ (m : ℚ) + 1 - 1 / 2 ^ 20) (h3 : q < 2 ^ 33) : ⌊toDouble q⌋ = (m : ℤ) := by
  have hj : ulpExp q ≤ -20 := by
    rw [ulpExp_le_iff hq]; norm_num; linarith
  have hlo := grid_le_toDouble hq (m : ℤ) 0 (by omega) (by simpa using h1)
  have hhi := toDouble_le_grid hq ((m : ℤ) * 2 ^ 20 + 2 ^ 20 - 1) (-20) hj (by
    push_cast
    rw [zpow_neg]
    norm_num
    linarith)
  rw [Int.floor_eq_iff]
  constructor
  · simpa using hlo
  · have : (((m : ℤ) * 2 ^ 20 + 2 ^ 20 - 1 : ℤ) : ℚ) * 2 ^ (-20 : ℤ) < (m : ℚ) + 1 := by
      push_cast
      rw [zpow_neg]
      norm_num
      linarith
    push_cast
    linarith

theorem percentileIndex90_eq {n : ℕ} (hn : n < 2 ^ 31) : percentileIndex90 n = 9 * n / 10 := by
  unfold percentileIndex90 truncDouble
  rw [toDouble_natCast (lt_trans hn (by norm_num)), toDouble_nine_tenths]
  rcases Nat.eq_zero_or_pos n with h0 | hpos
  · subst h0; simp [toDouble]
  · have hq : (0 : ℚ) < n := by exact_mod_cast hpos
    have hnq : (n : ℚ) < 2147483648 := by exact_mod_cast hn
    have ha : 10 * (9 * n / 10) ≤ 9 * n := Nat.mul_div_le _ _
    have hb : 9 * n < 10 * (9 * n / 10) + 10 := by omega
    have haq : (10 : ℚ) * ((9 * n / 10 : ℕ) : ℚ) ≤ 9 * n := by exact_mod_cast ha
    have hbq : (9 : ℚ) * n + 1 ≤ 10 * ((9 * n / 10 : ℕ) : ℚ) + 10 := by exact_mod_cast hb
    have hfl := floor_toDouble_eq (q := 8106479329266893 / 2 ^ 53 * (n : ℚ)) (m := 9 * n / 10)
      (by positivity) (by norm_num; linarith) (by norm_num; linarith)
      (by norm_num; linarith)
    rw [hfl]
    exact Int.toNat_ofNat _

theorem percentileIndex10_eq {n : ℕ} (hn : n < 2 ^ 31) : percentileIndex10 n = n / 10 := by
  unfold percentileIndex10 truncDouble
  rw [toDouble_natCast (lt_trans hn (by norm_num)), toDouble_one_tenth]
  rcases Nat.eq_zero_or_pos n with h0 | hpos
  · subst h0; simp [toDouble]
  · have hq : (0 : ℚ) < n := by exact_mod_cast hpos
    have hnq : (n : ℚ) < 2147483648 := by exact_mod_cast hn
    have ha : 10 * (n / 10) ≤ n := Nat.mul_div_le _ _
    have hb : n < 10 * (n / 10) + 10 := by omega
    have haq : (10 : ℚ) * ((n / 10 : ℕ) : ℚ) ≤ n := by exact_mod_cast ha
    have hbq : (n : ℚ) + 1 ≤ 10 * ((n / 10 : ℕ) : ℚ) + 10 := by exact_mod_cast hb
    have hfl := floor_toDouble_eq (q := 3602879701896397 / 2 ^ 55 * (n : ℚ)) (m := n / 10)
      (by positivity) (by norm_num; linarith) (by norm_num; linarith)
      (by norm_num; linarith)
    rw [hfl]
    exact Int.toNat_ofNat _

/-! ## The window transform outside the window -/

theorem affineTransformUint8_of_le {value A : ℕ} (B : ℕ) (h : value ≤ A) :
    affineTransformUint8 value A B = 0 := by
  simp [affineTransformUint8, h]

theorem affineTransformUint8_of_ge {value A B : ℕ} (h1 : A < value) (h2 : B ≤ value) :
    affineTransformUint8 value A B = 255 := by
  simp [affineTransformUint8, not_le.mpr h1, h2]

theorem affineTransformUint8_le (value A B : ℕ) : affineTransformUint8 value A B ≤ 255 := by
  unfold affineTransformUint8
  simp only []
  split_ifs
  · omega
  · omega
  · omega
  · omega

/-- The transform on a degenerate window (`B <= A`): a step at `A`. -/
theorem affineTransformUint8_step (v A B : ℕ) (h : B ≤ A) :
    affineTransformUint8 v A B = if v ≤ A then 0 else 255 := by
  by_cases hv : v ≤ A
  · rw [if_pos hv, affineTransformUint8_of_le B hv]
  · rw [if_neg hv]
    exact affineTransformUint8_of_ge (by omega) (by omega)

/-- Claim C4, the code at a failing input: with `upperBound = 2 <= lowerBound = 3`
the sample `v = 5` is mapped to 255, not to 0, and so is `v = 7` in the window with
`upperBound = lowerBound = 3`.  Line 48 sets `scale = 0` for such a window, but the
test `value >= B` of line 52 returns `D = 255` before the scaled branch is
reached: every sample above `lowerBound` maps to 255, every other sample to 0. -/
theorem affineTransformUint8_degenerate_window :
    (2 : ℕ) ≤ 3 ∧ affineTransformUint8 5 3 2 = 255 ∧ affineTransformUint8 5 3 2 ≠ 0 ∧
    affineTransformUint8 7 3 3 = 255 ∧
    (∀ v A B, B ≤ A → A < v → affineTransformUint8 v A B = 255) ∧
    (∀ v A B, B ≤ A → v ≤ A → affineTransformUint8 v A B = 0) := by
  have h : affineTransformUint8 5 3 2 = 255 := affineTransformUint8_of_ge (by decide) (by decide)
  refine ⟨by decide, h, by rw [h]; decide, affineTransformUint8_of_ge (by decide) (by decide),
    ?_, ?_⟩
  · intro v A B hBA hv
    rw [affineTransformUint8_step v A B hBA, if_neg (by omega)]
  · intro v A B hBA hv
    rw [affineTransformUint8_step v A B hBA, if_pos hv]

/-- Claim C5: for a window with `lowerBound < upperBound`, `affineTransformUint8`
returns 0 for every `v <= lowerBound`, in particular at `lowerBound`, and 255 for
every `v >= upperBound`, in particular at `upperBound`. -/
theorem affineTransformUint8_boundary (A B : ℕ) (h : A < B) :
    (∀ v, v ≤ A → affineTransformUint8 v A B = 0) ∧
    (∀ v, B ≤ v → affineTransformUint8 v A B = 255) ∧
    affineTransformUint8 A A B = 0 ∧ affineTransformUint8 B A B = 255 :=
  ⟨fun _ hv => affineTransformUint8_of_le B hv,
   fun _ hv => affineTransformUint8_of_ge (by omega) hv,
   affineTransformUint8_of_le B le_rfl,
   affineTransformUint8_of_ge h le_rfl⟩

theorem affineTransformUint8_boundary_witness :
    (200 : ℕ) < 1500 ∧
    (∀ v, v ≤ 200 → affineTransformUint8 v 200 1500 = 0) ∧
    (∀ v, 1500 ≤ v → affineTransformUint8 v 200 1500 = 255) ∧
    affineTransformUint8 200 200 1500 = 0 ∧ affineTransformUint8 1500 200 1500 = 255 :=
  ⟨by decide, affineTransformUint8_boundary 200 1500 (by decide)⟩

/-! ## The compositor -/

/-- Claim C7: `combineChannelsToRGB` fails (with the invalid-argument error) exactly
when the number of sample values differs from the number of channel descriptors;
for lists of equal length, both empty included, it returns a colour. -/
theorem combineChannelsToRGB_error_iff (values : List ℕ) (channels : List Channel) :
    ((∃ e, combineChannelsToRGB values channels = Except.error e) ↔
      values.length ≠ channels.length) ∧
    (values.length ≠ channels.length → combineChannelsToRGB values channels =
      Except.error "The length of values and channels vectors must be equal.") ∧
    (values.length = channels.length →
      ∃ rgb, combineChannelsToRGB values channels = Except.ok rgb) ∧
    (∃ rgb, combineChannelsToRGB [] [] = Except.ok rgb) := by
  refine ⟨⟨?_, ?_⟩, ?_, ?_, ?_⟩
  · rintro ⟨e, he⟩ heq
    simp [combineChannelsToRGB, heq] at he
  · intro hne
    exact ⟨_, by unfold combineChannelsToRGB; rw [if_pos hne]⟩
  · intro hne
    unfold combineChannelsToRGB
    rw [if_pos hne]
  · intro heq
    exact ⟨_, by unfold combineChannelsToRGB; rw [if_neg (not_not.mpr heq)]⟩
  · exact ⟨_, by unfold combineChannelsToRGB; rw [if_neg (by simp)]⟩

/-! ## The quantile filter -/

theorem arrCopy_eq {arrSize : ℕ} {itile : List ℕ} (h : itile.length = arrSize) :
    arrCopy arrSize itile = itile.insertionSort (· ≤ ·) := by
  unfold arrCopy
  rw [List.take_of_length_le h.le]

theorem sum_take_succ (l : List ℕ) (n : ℕ) :
    (l.take (n + 1)).sum = (l.take n).sum + l.getD n 0 := by
  rw [List.take_succ, List.sum_append, List.getD_eq_getElem?_getD]
  cases l[n]? <;> simp

theorem foldl_range_sum_mod (l : List ℕ) (n : ℕ) :
    (List.range n).foldl (fun sum i => (sum + l.getD i 0) % 2 ^ 64) 0
      = (l.take n).sum % 2 ^ 64 := by
  induction n with
  | zero => simp
  | succ k ih =>
    rw [List.range_succ, List.foldl_append, ih, sum_take_succ]
    simp only [List.foldl_cons, List.foldl_nil]
    omega

theorem sum_le_of_bound (l : List ℕ) (c : ℕ) (h : ∀ v ∈ l, v ≤ c) : l.sum ≤ l.length * c := by
  induction l with
  | nil => simp
  | cons a t ih =>
    have ha := h a (List.mem_cons_self a t)
    have ht := ih fun v hv => h v (List.mem_cons_of_mem a hv)
    simp only [List.sum_cons, List.length_cons]
    nlinarith

theorem tileSum_eq {arrSize : ℕ} {itile : List ℕ} (h : itile.length = arrSize)
    (hsz : arrSize < 2 ^ 31) (h16 : ∀ v ∈ itile, v < 2 ^ 16) :
    tileSum arrSize itile = itile.sum := by
  unfold tileSum
  rw [foldl_range_sum_mod, List.take_of_length_le h.le]
  apply Nat.mod_eq_of_lt
  have hb := sum_le_of_bound itile (2 ^ 16) fun v hv => (h16 v hv).le
  have : itile.length * 2 ^ 16 < 2 ^ 31 * 2 ^ 16 := by
    rw [h]; exact Nat.mul_lt_mul_of_pos_right hsz (by norm_num)
  calc itile.sum ≤ itile.length * 2 ^ 16 := hb
    _ < 2 ^ 31 * 2 ^ 16 := this
    _ < 2 ^ 64 := by norm_num

theorem sorted_getD_le (l : List ℕ) {i j : ℕ} (hij : i ≤ j) (hj : j < l.length) :
    (l.insertionSort (· ≤ ·)).getD i 0 ≤ (l.insertionSort (· ≤ ·)).getD j 0 := by
  have hs : (l.insertionSort (· ≤ ·)).Sorted (· ≤ ·) := List.sorted_insertionSort _ l
  have hlen : (l.insertionSort (· ≤ ·)).length = l.length := List.length_insertionSort _ l
  have hj2 : j < (l.insertionSort (· ≤ ·)).length := by omega
  have hi2 : i < (l.insertionSort (· ≤ ·)).length := by omega
  rw [List.getD_eq_getElem _ _ hi2, List.getD_eq_getElem _ _ hj2]
  exact hs.rel_get_of_le (a := ⟨i, hi2⟩) (b := ⟨j, hj2⟩) hij

theorem sorted_getD_lt_of_bound (l : List ℕ) (c : ℕ) (h : ∀ v ∈ l, v < c) {i : ℕ}
    (hi : i < l.length) : (l.insertionSort (· ≤ ·)).getD i 0 < c := by
  have hlen : (l.insertionSort (· ≤ ·)).length = l.length := List.length_insertionSort _ l
  have hi2 : i < (l.insertionSort (· ≤ ·)).length := by omega
  rw [List.getD_eq_getElem _ _ hi2]
  exact h _ (((List.perm_insertionSort _ l).mem_iff).mp (List.getElem_mem hi2))

theorem diff_eq {arrSize : ℕ} {itile : List ℕ} (h : itile.length = arrSize)
    (hpos : 0 < arrSize) (hsz : arrSize < 2 ^ 31) (h16 : ∀ v ∈ itile, v < 2 ^ 16) :
    diff arrSize itile = (itile.insertionSort (· ≤ ·)).getD (9 * arrSize / 10) 0
      - (itile.insertionSort (· ≤ ·)).getD (arrSize / 10) 0 := by
  unfold diff percentile_90 percentile_10
  rw [arrCopy_eq h, percentileIndex90_eq hsz, percentileIndex10_eq hsz]
  have hle := sorted_getD_le itile (i := arrSize / 10) (j := 9 * arrSize / 10)
    (by omega) (by omega)
  have hlt := sorted_getD_lt_of_bound itile (2 ^ 16) h16 (i := 9 * arrSize / 10) (by omega)
  omega

theorem keepTile_iff {arrSize : ℕ} {itile : List ℕ} (h : itile.length = arrSize)
    (hpos : 0 < arrSize) (hsz : arrSize < 2 ^ 31) (h16 : ∀ v ∈ itile, v < 2 ^ 16) :
    keepTile arrSize itile = true ↔
      (itile.sum / arrSize ≥ 200 ∨
        (itile.insertionSort (· ≤ ·)).getD (9 * arrSize / 10) 0
          - (itile.insertionSort (· ≤ ·)).getD (arrSize / 10) 0 > 100) := by
  unfold keepTile MEAN_THRESHOLD DIFF_THRESHOLD
  rw [decide_eq_true_iff, tileSum_eq h hsz h16, diff_eq h hpos hsz h16]

theorem memcpySamples_full {dst src : List ℕ} {n : ℕ} (hs : src.length = n)
    (hd : dst.length = n) : memcpySamples dst src n = src := by
  unfold memcpySamples
  rw [List.take_of_length_le hs.le, List.drop_of_length_le hd.le, List.append_nil]

theorem compressBody_dropped (readTile : ℕ → ℕ → Option (List ℕ))
    (writeTile : ℕ → ℕ → List ℕ → Bool) (ts x y : ℕ) (st : CompressState) (itile : List ℕ)
    (hread : readTile x y = some itile) (hwrite : writeTile x y st.otile = true)
    (hk : keepTile (ts / 2) itile = false) :
    compressBody readTile writeTile ts x y st
      = Except.ok ⟨st.otile, toFloat (st.drop + 1), st.num_tiles + 1,
          st.written ++ [((x, y), st.otile)]⟩ := by
  simp only [compressBody, hread, compressTile, hk, Bool.false_eq_true, if_false, hwrite,
    if_true]

theorem compressBody_kept (readTile : ℕ → ℕ → Option (List ℕ))
    (writeTile : ℕ → ℕ → List ℕ → Bool) (ts x y : ℕ) (st : CompressState) (itile : List ℕ)
    (hread : readTile x y = some itile) (hwrite : writeTile x y itile = true)
    (hk : keepTile (ts / 2) itile = true) (hlen : itile.length = ts / 2)
    (hbuf : st.otile.length = ts / 2) :
    compressBody readTile writeTile ts x y st
      = Except.ok ⟨itile, st.drop, st.num_tiles + 1, st.written ++ [((x, y), itile)]⟩ := by
  have hcpy : memcpySamples st.otile itile (ts / 2) = itile := memcpySamples_full hlen hbuf
  simp only [compressBody, hread, compressTile, hk, if_true, hcpy, hwrite]

/-- Claim C1, as the code has it: for a non-empty tile of `N` 16-bit samples, line
358 takes the copy branch, after which the buffer handed to `TIFFWriteTile` equals
the input tile sample for sample, if and only if `floor(sum / N) >= 200` or
`sorted[floor(0.9 N)] - sorted[floor(0.1 N)] > 100`, where `sorted` is the
ascending sort of the tile; a tile whose integer mean is exactly 200 is copied
whatever its spread.  Otherwise the output buffer is left as it was, so the tile
written equals the input tile if and only if the condition holds or the output
buffer already held exactly the input tile. -/
theorem compress_keep_iff (ts : ℕ) (itile : List ℕ) (st : CompressState)
    (hlen : itile.length = ts / 2) (hpos : 0 < itile.length) (hsz : ts / 2 < 2 ^ 31)
    (h16 : ∀ v ∈ itile, v < 2 ^ 16) (hbuf : st.otile.length = ts / 2) :
    (itile.insertionSort (· ≤ ·)).Sorted (· ≤ ·) ∧
    (itile.insertionSort (· ≤ ·)).Perm itile ∧
    (keepTile (ts / 2) itile = true ↔
      (itile.sum / itile.length ≥ 200 ∨
        (itile.insertionSort (· ≤ ·)).getD (9 * itile.length / 10) 0
          - (itile.insertionSort (· ≤ ·)).getD (itile.length / 10) 0 > 100)) ∧
    (keepTile (ts / 2) itile = true → (compressTile ts itile st).otile = itile) ∧
    (keepTile (ts / 2) itile = false → (compressTile ts itile st).otile = st.otile) ∧
    (itile.sum / itile.length = 200 → (compressTile ts itile st).otile = itile) ∧
    (∀ (readTile : ℕ → ℕ → Option (List ℕ)) (writeTile : ℕ → ℕ → List ℕ → Bool) (x y : ℕ),
      readTile x y = some itile → writeTile x y itile = true →
      keepTile (ts / 2) itile = true →
      ∃ st1, compressBody readTile writeTile ts x y st = Except.ok st1 ∧
        st1.written = st.written ++ [((x, y), itile)]) ∧
    (∀ (readTile : ℕ → ℕ → Option (List ℕ)) (writeTile : ℕ → ℕ → List ℕ → Bool) (x y : ℕ),
      readTile x y = some itile → (∀ buf, writeTile x y buf = true) →
      ∃ st1 buf, compressBody readTile writeTile ts x y st = Except.ok st1 ∧
        st1.written = st.written ++ [((x, y), buf)] ∧
        (buf = itile ↔
          ((itile.sum / itile.length ≥ 200 ∨
            (itile.insertionSort (· ≤ ·)).getD (9 * itile.length / 10) 0
              - (itile.insertionSort (· ≤ ·)).getD (itile.length / 10) 0 > 100) ∨
            st.otile = itile))) := by
  have hiff : keepTile (ts / 2) itile = true ↔
      (itile.sum / itile.length ≥ 200 ∨
        (itile.insertionSort (· ≤ ·)).getD (9 * itile.length / 10) 0
          - (itile.insertionSort (· ≤ ·)).getD (itile.length / 10) 0 > 100) := by
    rw [hlen]
    exact keepTile_iff hlen (by omega) hsz h16
  have hcpy : memcpySamples st.otile itile (ts / 2) = itile := memcpySamples_full hlen hbuf
  have hkeep : keepTile (ts / 2) itile = true → (compressTile ts itile st).otile = itile := by
    intro hk
    unfold compressTile
    simp only [hk, if_true]
    exact hcpy
  refine ⟨List.sorted_insertionSort _ itile, List.perm_insertionSort _ itile, hiff, hkeep, ?_,
    ?_, ?_, ?_⟩
  · intro hk
    unfold compressTile
    simp only [hk]
    rfl
  · intro hm
    apply hkeep
    rw [hiff]
    left
    rw [hm]
  · intro readTile writeTile x y hread hwrite hk
    exact ⟨_, compressBody_kept readTile writeTile ts x y st itile hread hwrite hk hlen hbuf,
      rfl⟩
  · intro readTile writeTile x y hread hwrite
    cases hk : keepTile (ts / 2) itile
    · refine ⟨_, st.otile,
        compressBody_dropped readTile writeTile ts x y st itile hread (hwrite _) hk, rfl, ?_⟩
      rw [← hiff, hk]
      simp
    · refine ⟨_, itile,
        compressBody_kept readTile writeTile ts x y st itile hread (hwrite _) hk hlen hbuf,
        rfl, ?_⟩
      rw [← hiff, hk]
      simp

theorem compress_keep_iff_witness :
    boundaryTile.length = 8 / 2 ∧ 0 < boundaryTile.length ∧ 8 / 2 < 2 ^ 31 ∧
    (∀ v ∈ boundaryTile, v < 2 ^ 16) ∧ (compressInit 8).otile.length = 8 / 2 ∧
    boundaryTile.sum / boundaryTile.length = 200 ∧
    (compressTile 8 boundaryTile (compressInit 8)).otile = boundaryTile ∧
    (∃ st1 buf, compressBody (fun _ _ => some boundaryTile) (fun _ _ _ => true) 8 0 0
        (compressInit 8) = Except.ok st1 ∧
      st1.written = (compressInit 8).written ++ [((0, 0), buf)] ∧
      (buf = boundaryTile ↔
        ((boundaryTile.sum / boundaryTile.length ≥ 200 ∨
          (boundaryTile.insertionSort (· ≤ ·)).getD (9 * boundaryTile.length / 10) 0
            - (boundaryTile.insertionSort (· ≤ ·)).getD (boundaryTile.length / 10) 0 > 100) ∨
          (compressInit 8).otile = boundaryTile))) :=
  ⟨by decide, by decide, by norm_num, by decide, by decide, by decide,
    (compress_keep_iff 8 boundaryTile (compressInit 8) (by decide) (by decide)
      (by norm_num) (by decide) (by decide)).2.2.2.2.2.1 (by decide),
    (compress_keep_iff 8 boundaryTile (compressInit 8) (by decide) (by decide)
      (by norm_num) (by decide) (by decide)).2.2.2.2.2.2.2 (fun _ _ => some boundaryTile)
      (fun _ _ _ => true) 0 0 rfl (fun _ => rfl)⟩

/-! ## The tile traversal -/

theorem lt_ceilDiv_iff {a b i : ℕ} (hb : 0 < b) : i < ceilDiv a b ↔ i * b < a := by
  unfold ceilDiv
  rw [Nat.lt_iff_add_one_le, Nat.le_div_iff_mul_le hb]
  constructor
  · intro h
    have : (i + 1) * b = i * b + b := by ring
    omega
  · intro h
    have : (i + 1) * b = i * b + b := by ring
    omega

theorem xLoop_eq_foldlM {σ ε : Type} (body : ℕ → ℕ → σ → Except ε σ) (m_width tilewidth y : ℕ)
    (htw : 0 < tilewidth) (hw : m_width + tilewidth ≤ 2 ^ 64) :
    ∀ (k i fuel : ℕ) (s : σ), ceilDiv m_width tilewidth - i = k → k ≤ fuel →
      xLoop body m_width tilewidth y fuel (i * tilewidth) s
        = some (List.foldlM (fun s c => body c.1 c.2 s) s
            ((List.range' i k).map fun i => (i * tilewidth, y))) := by
  intro k
  induction k with
  | zero =>
    intro i fuel s hk _
    have hge : ¬ i * tilewidth < m_width := by
      rw [← lt_ceilDiv_iff htw]; omega
    cases fuel <;> simp [xLoop, hge, pure, Except.pure]
  | succ k ih =>
    intro i fuel s hk hfuel
    have hlt : i * tilewidth < m_width := by
      rw [← lt_ceilDiv_iff htw]; omega
    obtain ⟨f, rfl⟩ : ∃ f, fuel = f + 1 := ⟨fuel - 1, by omega⟩
    have hstep : (i * tilewidth + tilewidth) % 2 ^ 64 = (i + 1) * tilewidth := by
      rw [Nat.mod_eq_of_lt (by omega)]; ring
    rw [List.range'_succ, List.map_cons, List.foldlM_cons]
    simp only [xLoop, hlt, if_true, hstep]
    cases hb : body (i * tilewidth) y s with
    | error e => simp [bind, Except.bind]
    | ok s1 =>
      simp only [bind, Except.bind]
      exact ih (i + 1) f s1 (by omega) (by omega)

theorem ceilDiv_le_self (a b : ℕ) (hb : 0 < b) : ceilDiv a b ≤ a := by
  by_contra hcon
  have h := (lt_ceilDiv_iff (a := a) (i := a) hb).mp (by omega)
  have : a * 1 ≤ a * b := Nat.mul_le_mul_left a hb
  omega

theorem yLoop_eq_foldlM {σ ε : Type} (body : ℕ → ℕ → σ → Except ε σ)
    (m_width m_height tilewidth tileheight : ℕ) (htw : 0 < tilewidth) (hth : 0 < tileheight)
    (hw : m_width + tilewidth ≤ 2 ^ 64) (hh : m_height + tileheight ≤ 2 ^ 64) :
    ∀ (k j fuel : ℕ) (s : σ), ceilDiv m_height tileheight - j = k → k ≤ fuel →
      yLoop body m_width m_height tilewidth tileheight fuel (j * tileheight) s
        = some (List.foldlM (fun s c => body c.1 c.2 s) s
            ((List.range' j k).flatMap fun j =>
              (List.range (ceilDiv m_width tilewidth)).map fun i =>
                (i * tilewidth, j * tileheight))) := by
  intro k
  induction k with
  | zero =>
    intro j fuel s hk _
    have hge : ¬ j * tileheight < m_height := by
      rw [← lt_ceilDiv_iff hth]; omega
    cases fuel <;> simp [yLoop, hge, pure, Except.pure]
  | succ k ih =>
    intro j fuel s hk hfuel
    have hlt : j * tileheight < m_height := by
      rw [← lt_ceilDiv_iff hth]; omega
    obtain ⟨f, rfl⟩ : ∃ f, fuel = f + 1 := ⟨fuel - 1, by omega⟩
    have hstep : (j * tileheight + tileheight) % 2 ^ 64 = (j + 1) * tileheight := by
      rw [Nat.mod_eq_of_lt (by omega)]; ring
    have hrow := xLoop_eq_foldlM body m_width tilewidth (j * tileheight) htw hw
      (ceilDiv m_width tilewidth) 0 m_width s (by omega) (ceilDiv_le_self _ _ htw)
    rw [Nat.zero_mul, ← List.range_eq_range'] at hrow
    rw [List.range'_succ, List.flatMap_cons, List.foldlM_append]
    simp only [yLoop, hlt, if_true, hstep, hrow]
    cases hb : List.foldlM (fun s c => body c.1 c.2 s) s
        ((List.range (ceilDiv m_width tilewidth)).map fun i =>
          (i * tilewidth, j * tileheight)) with
    | error e => simp [bind, Except.bind]
    | ok s1 =>
      simp only [bind, Except.bind]
      exact ih (j + 1) f s1 (by omega) (by omega)

/-- The two loops run the body once per coordinate of the row-major list, in that
order, and stop at the first early return. -/
theorem tileLoop_eq_foldlM {σ ε : Type} (body : ℕ → ℕ → σ → Except ε σ)
    (m_width m_height tilewidth tileheight : ℕ) (htw : 0 < tilewidth) (hth : 0 < tileheight)
    (hw : m_width + tilewidth ≤ 2 ^ 64) (hh : m_height + tileheight ≤ 2 ^ 64) (s : σ) :
    tileLoop body m_width m_height tilewidth tileheight s
      = some (List.foldlM (fun s c => body c.1 c.2 s) s
          (rowMajorCoords m_width m_height tilewidth tileheight)) := by
  have h := yLoop_eq_foldlM body m_width m_height tilewidth tileheight htw hth hw hh
    (ceilDiv m_height tileheight) 0 m_height s (by omega) (ceilDiv_le_self _ _ hth)
  rw [Nat.zero_mul, ← List.range_eq_range'] at h
  exact h

theorem foldlM_record (l : List (ℕ × ℕ)) (acc : List (ℕ × ℕ)) :
    List.foldlM (fun (acc : List (ℕ × ℕ)) c => (Except.ok (acc ++ [(c.1, c.2)]) : Except Unit _))
      acc l = Except.ok (acc ++ l) := by
  induction l generalizing acc with
  | nil => simp [pure, Except.pure]
  | cons a t ih =>
    rw [List.foldlM_cons]
    simp only [bind, Except.bind]
    rw [ih]
    simp

theorem visitedCoords_eq (m_width m_height tilewidth tileheight : ℕ) (htw : 0 < tilewidth)
    (hth : 0 < tileheight) (hw : m_width + tilewidth ≤ 2 ^ 64)
    (hh : m_height + tileheight ≤ 2 ^ 64) :
    visitedCoords m_width m_height tilewidth tileheight
      = some (Except.ok (rowMajorCoords m_width m_height tilewidth tileheight)) := by
  unfold visitedCoords
  rw [tileLoop_eq_foldlM _ _ _ _ _ htw hth hw hh, foldlM_record]
  simp

theorem mem_rowMajorCoords {width height tileWidth tileHeight : ℕ} {c : ℕ × ℕ} :
    c ∈ rowMajorCoords width height tileWidth tileHeight ↔
      ∃ j, j < ceilDiv height tileHeight ∧ ∃ i, i < ceilDiv width tileWidth ∧
        c = (i * tileWidth, j * tileHeight) := by
  unfold rowMajorCoords
  simp only [List.mem_flatMap, List.mem_map, List.mem_range]
  constructor
  · rintro ⟨j, hj, i, hi, rfl⟩
    exact ⟨j, hj, i, hi, rfl⟩
  · rintro ⟨j, hj, i, hi, rfl⟩
    exact ⟨j, hj, i, hi, rfl⟩

theorem length_grid (m n tileWidth tileHeight : ℕ) :
    ((List.range m).flatMap fun j =>
        (List.range n).map fun i => (i * tileWidth, j * tileHeight)).length = m * n := by
  induction m with
  | zero => simp
  | succ m ih =>
    rw [List.range_succ, List.flatMap_append, List.length_append, ih]
    simp
    ring

theorem length_rowMajorCoords (width height tileWidth tileHeight : ℕ) :
    (rowMajorCoords width height tileWidth tileHeight).length
      = ceilDiv height tileHeight * ceilDiv width tileWidth :=
  length_grid _ _ _ _

theorem nodup_rowMajorCoords (width height tileWidth tileHeight : ℕ) (htw : 0 < tileWidth)
    (hth : 0 < tileHeight) : (rowMajorCoords width height tileWidth tileHeight).Nodup := by
  unfold rowMajorCoords
  rw [List.nodup_flatMap]
  constructor
  · intro j _
    apply List.Nodup.map _ (List.nodup_range _)
    intro a b hab
    simp only [Prod.mk.injEq, and_true] at hab
    exact Nat.eq_of_mul_eq_mul_right htw hab
  · apply List.Pairwise.imp _ (List.nodup_range _)
    intro a b hab
    simp only [Function.onFun]
    intro c hca hcb
    simp only [List.mem_map, List.mem_range] at hca hcb
    obtain ⟨i, _, rfl⟩ := hca
    obtain ⟨k, _, hk⟩ := hcb
    simp only [Prod.mk.injEq] at hk
    exact hab (Nat.eq_of_mul_eq_mul_right hth hk.2).symm

theorem getD_grid (n tileWidth tileHeight : ℕ) (m k : ℕ)
    (hk : k < m * n) :
    ((List.range m).flatMap fun j =>
        (List.range n).map fun i => (i * tileWidth, j * tileHeight)).getD k (0, 0)
      = (k % n * tileWidth, k / n * tileHeight) := by
  induction m with
  | zero => rw [Nat.zero_mul] at hk; omega
  | succ m ih =>
    rw [List.range_succ, List.flatMap_append]
    have hlen := length_grid m n tileWidth tileHeight
    rcases Nat.lt_or_ge k (m * n) with h | h
    · rw [List.getD_append _ _ _ _ (by rw [hlen]; exact h)]
      exact ih h
    · rw [List.getD_append_right _ _ _ _ (by rw [hlen]; exact h), hlen]
      have hk2 : k - m * n < n := by
        have : (m + 1) * n = m * n + n := by ring
        omega
      have hdiv : k / n = m := by
        apply Nat.div_eq_of_lt_le
        · exact h
        · show k < (m + 1) * n
          exact hk
      have hmod : k % n = k - m * n := by
        have := Nat.div_add_mod k n
        rw [hdiv] at this
        have h2 : n * m = m * n := Nat.mul_comm n m
        omega
      simp [List.getD_eq_getElem?_getD, hk2, hdiv, hmod]

theorem ceilDiv_of_dvd {a b : ℕ} (hb : 0 < b) (h : b ∣ a) : ceilDiv a b = a / b := by
  obtain ⟨q, rfl⟩ := h
  unfold ceilDiv
  rw [Nat.mul_div_cancel_left q hb]
  apply Nat.div_eq_of_lt_le
  · have : q * b = b * q := Nat.mul_comm q b
    omega
  · have : (q + 1) * b = b * q + b := by ring
    omega

theorem tiles_per_image_eq {m_width m_height tilewidth tileheight : ℕ} (htw : 0 < tilewidth)
    (hth : 0 < tileheight) (hw : m_width + tilewidth ≤ 2 ^ 32)
    (hh : m_height + tileheight ≤ 2 ^ 32)
    (hc : ceilDiv m_height tileheight * ceilDiv m_width tilewidth < 2 ^ 32) :
    tiles_per_image m_width m_height tilewidth tileheight
      = ceilDiv m_height tileheight * ceilDiv m_width tilewidth := by
  have h1 := ceilDiv_le_self m_width tilewidth htw
  have h2 := ceilDiv_le_self m_height tileheight hth
  unfold tiles_per_image tiles_across tiles_down
  rw [Nat.mod_eq_of_lt (by omega : m_width + tilewidth - 1 < 2 ^ 64),
    Nat.mod_eq_of_lt (by omega : m_height + tileheight - 1 < 2 ^ 64)]
  change (ceilDiv m_width tilewidth % 2 ^ 32 * (ceilDiv m_height tileheight % 2 ^ 32)) % 2 ^ 32 = _
  rw [Nat.mod_eq_of_lt (by omega : ceilDiv m_width tilewidth < 2 ^ 32),
    Nat.mod_eq_of_lt (by omega : ceilDiv m_height tileheight < 2 ^ 32), Nat.mul_comm,
    Nat.mod_eq_of_lt hc]

theorem num_tiles_eq {m_width m_height tilewidth tileheight : ℕ}
    (hw : m_width + tilewidth ≤ 2 ^ 32) (hh : m_height + tileheight ≤ 2 ^ 32)
    (hc : ceilDiv m_height tileheight * ceilDiv m_width tilewidth < 2 ^ 31) :
    num_tiles m_width m_height tilewidth tileheight
      = ((ceilDiv m_height tileheight * ceilDiv m_width tilewidth : ℕ) : ℤ) := by
  unfold num_tiles toInt32
  rw [Nat.mod_eq_of_lt (by omega : m_width + tilewidth - 1 < 2 ^ 32),
    Nat.mod_eq_of_lt (by omega : m_height + tileheight - 1 < 2 ^ 32)]
  change (if (ceilDiv m_height tileheight * ceilDiv m_width tilewidth) % 2 ^ 32 < 2 ^ 31 then
      (((ceilDiv m_height tileheight * ceilDiv m_width tilewidth) % 2 ^ 32 : ℕ) : ℤ)
    else (((ceilDiv m_height tileheight * ceilDiv m_width tilewidth) % 2 ^ 32 : ℕ) : ℤ) - 2 ^ 32)
      = _
  have hm : (ceilDiv m_height tileheight * ceilDiv m_width tilewidth) % 2 ^ 32
      = ceilDiv m_height tileheight * ceilDiv m_width tilewidth := Nat.mod_eq_of_lt (by omega)
  simp only [hm, if_pos hc]

/-- Claim C9, as the code has it: for positive tile dimensions with
`width + tileWidth <= 2^32` and `height + tileHeight <= 2^32`, the tile loops run
`ceil(height / tileHeight) * ceil(width / tileWidth)` times, which is
`(width / tileWidth) * (height / tileHeight)` for exact multiples; the count the
code computes by the rounding-up formula equals that number whenever it is below
`2^32` (the `uint32_t tiles_per_image` of `Compress`), respectively below `2^31`
(the `int num_tiles` of `Colorize`). -/
theorem tile_count_matches (m_width m_height tilewidth tileheight : ℕ)
    (htw : 0 < tilewidth) (hth : 0 < tileheight) (hw : m_width + tilewidth ≤ 2 ^ 32)
    (hh : m_height + tileheight ≤ 2 ^ 32) :
    ∃ l, visitedCoords m_width m_height tilewidth tileheight = some (Except.ok l) ∧
      l.length = ceilDiv m_height tileheight * ceilDiv m_width tilewidth ∧
      (tilewidth ∣ m_width → tileheight ∣ m_height →
        l.length = m_width / tilewidth * (m_height / tileheight)) ∧
      (ceilDiv m_height tileheight * ceilDiv m_width tilewidth < 2 ^ 32 →
        tiles_per_image m_width m_height tilewidth tileheight = l.length) ∧
      (ceilDiv m_height tileheight * ceilDiv m_width tilewidth < 2 ^ 31 →
        num_tiles m_width m_height tilewidth tileheight = (l.length : ℤ)) := by
  refine ⟨_, visitedCoords_eq _ _ _ _ htw hth (by omega) (by omega),
    length_rowMajorCoords _ _ _ _, ?_, ?_, ?_⟩
  · intro h1 h2
    rw [length_rowMajorCoords, ceilDiv_of_dvd htw h1, ceilDiv_of_dvd hth h2, Nat.mul_comm]
  · intro hc
    rw [length_rowMajorCoords, tiles_per_image_eq htw hth hw hh hc]
  · intro hc
    rw [length_rowMajorCoords, num_tiles_eq hw hh hc]

theorem tile_count_matches_witness :
    (0 : ℕ) < 16 ∧ (40 : ℕ) + 16 ≤ 2 ^ 32 ∧ (20 : ℕ) + 16 ≤ 2 ^ 32 ∧
    ∃ l, visitedCoords 40 20 16 16 = some (Except.ok l) ∧
      l.length = ceilDiv 20 16 * ceilDiv 40 16 ∧
      (16 ∣ 40 → 16 ∣ 20 → l.length = 40 / 16 * (20 / 16)) ∧
      (ceilDiv 20 16 * ceilDiv 40 16 < 2 ^ 32 → tiles_per_image 40 20 16 16 = l.length) ∧
      (ceilDiv 20 16 * ceilDiv 40 16 < 2 ^ 31 → num_tiles 40 20 16 16 = (l.length : ℤ)) :=
  ⟨by decide, by norm_num, by norm_num,
    tile_count_matches 40 20 16 16 (by decide) (by decide) (by norm_num) (by norm_num)⟩

/-- Claim C9 fails as stated: a 1048576 x 1048576 image with 16 x 16 tiles is
traversed in 4294967296 iterations, while the count the code computes by the
rounding-up formula is 0, both in `Compress` and in `Colorize`. -/
theorem tile_count_overflow_counterexample :
    (∃ l, visitedCoords 1048576 1048576 16 16 = some (Except.ok l) ∧ l.length = 4294967296) ∧
    tiles_per_image 1048576 1048576 16 16 = 0 ∧ num_tiles 1048576 1048576 16 16 = 0 := by
  refine ⟨⟨_, visitedCoords_eq _ _ _ _ (by decide) (by decide) (by norm_num) (by norm_num), ?_⟩,
    ?_, ?_⟩
  · rw [length_rowMajorCoords]
    norm_num [ceilDiv]
  · norm_num [tiles_per_image, tiles_across, tiles_down]
  · norm_num [num_tiles, toInt32]

/-! ## The output buffer of `Compress` across tiles -/

theorem sorted_replicate_getD (n c i : ℕ) (hi : i < n) :
    ((List.replicate n c).insertionSort (· ≤ ·)).getD i 0 = c := by
  have hlen : ((List.replicate n c).insertionSort (· ≤ ·)).length = n := by
    rw [List.length_insertionSort, List.length_replicate]
  have hi2 : i < ((List.replicate n c).insertionSort (· ≤ ·)).length := by omega
  rw [List.getD_eq_getElem _ _ hi2]
  have hmem := ((List.perm_insertionSort (· ≤ ·) (List.replicate n c)).mem_iff).mp
    (List.getElem_mem hi2)
  exact (List.mem_replicate.mp hmem).2

theorem keepTile_replicate {n c : ℕ} (hpos : 0 < n) (hsz : n < 2 ^ 31) (hc : c < 2 ^ 16) :
    keepTile n (List.replicate n c) = decide (c ≥ 200) := by
  have hiff := @keepTile_iff n (List.replicate n c) (List.length_replicate n c) hpos hsz
    (fun v hv => by rw [(List.mem_replicate.mp hv).2]; exact hc)
  rw [sorted_replicate_getD n c _ (by omega), sorted_replicate_getD n c _ (by omega),
    List.sum_replicate, smul_eq_mul, Nat.mul_div_cancel_left c hpos] at hiff
  rw [Bool.eq_iff_iff, hiff, decide_eq_true_iff]
  simp

theorem toFloat_one : toFloat 1 = 1 := by
  unfold toFloat roundHalfEven
  norm_num

/-- Claim C1 fails as stated: the all-zero tile read first in a directory has
integer mean 0 and spread 0, so neither condition holds and the drop branch runs;
yet the tile written is the still zero output buffer, equal to the input tile
sample for sample. -/
theorem compress_zero_tile_counterexample :
    0 < (List.replicate 256 0).length ∧ (∀ v ∈ List.replicate 256 0, v < 2 ^ 16) ∧
    zeroImageReadTile 16 16 0 0 = some (List.replicate 256 0) ∧
    ¬ ((List.replicate 256 0).sum / 256 ≥ 200 ∨
      ((List.replicate 256 0).insertionSort (· ≤ ·)).getD (9 * 256 / 10) 0
        - ((List.replicate 256 0).insertionSort (· ≤ ·)).getD (256 / 10) 0 > 100) ∧
    compressBody (zeroImageReadTile 16 16) (fun _ _ _ => true) 512 0 0 (compressInit 512)
      = Except.ok ⟨List.replicate 256 0, 1, 1, [((0, 0), List.replicate 256 0)]⟩ := by
  have hk : keepTile (512 / 2) (List.replicate 256 0) = false := by
    rw [show 512 / 2 = 256 from rfl,
      keepTile_replicate (by norm_num) (by norm_num) (by norm_num)]
    decide
  have hiff := @keepTile_iff 256 (List.replicate 256 0) (List.length_replicate _ _)
    (by norm_num) (by norm_num) (fun v hv => by rw [(List.mem_replicate.mp hv).2]; norm_num)
  have hinit : compressInit 512 = ⟨List.replicate 256 0, 0, 0, []⟩ := rfl
  refine ⟨by rw [List.length_replicate]; norm_num,
    fun v hv => by rw [(List.mem_replicate.mp hv).2]; norm_num, rfl, ?_, ?_⟩
  · rw [← hiff, show (256 : ℕ) = 512 / 2 from rfl, hk]
    simp
  · have h := compressBody_dropped (zeroImageReadTile 16 16) (fun _ _ _ => true) 512 0 0
      (compressInit 512) (List.replicate 256 0) rfl rfl hk
    have hd : toFloat ((compressInit 512).drop + 1) = 1 := by
      rw [hinit, zero_add, toFloat_one]
    rw [h, hd]
    rfl

theorem compressDirectory_two_tiles (ts : ℕ) (t1 t0 : List ℕ)
    (readTile : ℕ → ℕ → Option (List ℕ)) (h1 : readTile 0 0 = some t1)
    (h0 : readTile 16 0 = some t0) (hk1 : keepTile (ts / 2) t1 = true)
    (hk0 : keepTile (ts / 2) t0 = false) (hlen : t1.length = ts / 2) :
    compressDirectory readTile (fun _ _ _ => true) 32 16 16 16 ts
      = some (Except.ok
          { otile := t1, drop := 1, num_tiles := 2, written := [((0, 0), t1), ((16, 0), t1)] }) := by
  have hcoords : rowMajorCoords 32 16 16 16 = [(0, 0), (16, 0)] := by decide
  have hcpy : memcpySamples (List.replicate (ts / 2) 0) t1 (ts / 2) = t1 :=
    memcpySamples_full hlen (List.length_replicate _ _)
  unfold compressDirectory
  rw [tileLoop_eq_foldlM _ _ _ _ _ (by decide) (by decide) (by norm_num) (by norm_num), hcoords]
  simp [compressBody, compressTile, compressInit, h1, h0, hk0, hk1, hcpy,
    toFloat_one, bind, Except.bind, pure, Except.pure]

/-- Claim C2, the code at a failing input: on the 32 x 16 image whose first tile is
300 everywhere (kept) and whose second tile is 0 everywhere (integer mean 0 < 200,
spread 0 <= 100, dropped and counted), the tile written at `(16, 0)` is the stale
copy of the first tile, not a zero-filled tile. -/
theorem compressDirectory_stale_tile :
    keepTile (512 / 2) (List.replicate 256 0) = false ∧
    compressDirectory staleReadTile (fun _ _ _ => true) 32 16 16 16 512
      = some (Except.ok
          { otile := List.replicate 256 300
            drop := 1
            num_tiles := 2
            written := [((0, 0), List.replicate 256 300), ((16, 0), List.replicate 256 300)] }) ∧
    List.replicate 256 300 ≠ List.replicate 256 0 := by
  have hk0 : keepTile (512 / 2) (List.replicate 256 0) = false := by
    rw [show 512 / 2 = 256 from rfl,
      keepTile_replicate (by norm_num) (by norm_num) (by norm_num)]
    decide
  have hk1 : keepTile (512 / 2) (List.replicate 256 300) = true := by
    rw [show 512 / 2 = 256 from rfl,
      keepTile_replicate (by norm_num) (by norm_num) (by norm_num)]
    decide
  have hne : List.replicate 256 300 ≠ List.replicate 256 0 := by
    intro h
    have := (List.replicate_right_inj (by norm_num)).mp h
    omega
  exact ⟨hk0, compressDirectory_two_tiles 512 _ _ staleReadTile rfl rfl hk1 hk0
    (List.length_replicate _ _), hne⟩

/-! ## The accumulators of the compositor -/

theorem foldl_accumulateChannel (ps : List (ℕ × Channel)) (acc : ℕ × ℕ × ℕ)
    (h1 : acc.1 < 2 ^ 32) (h2 : acc.2.1 < 2 ^ 32) (h3 : acc.2.2 < 2 ^ 32) :
    ps.foldl accumulateChannel acc =
      ((acc.1 + (ps.map fun p =>
          p.2.color.r * affineTransformUint8 p.1 p.2.lowerBound p.2.upperBound).sum) % 2 ^ 32,
       (acc.2.1 + (ps.map fun p =>
          p.2.color.g * affineTransformUint8 p.1 p.2.lowerBound p.2.upperBound).sum) % 2 ^ 32,
       (acc.2.2 + (ps.map fun p =>
          p.2.color.b * affineTransformUint8 p.1 p.2.lowerBound p.2.upperBound).sum) % 2 ^ 32) := by
  induction ps generalizing acc with
  | nil =>
    simp only [List.foldl_nil, List.map_nil, List.sum_nil, Nat.add_zero]
    rw [Nat.mod_eq_of_lt h1, Nat.mod_eq_of_lt h2, Nat.mod_eq_of_lt h3]
  | cons p t ih =>
    rw [List.foldl_cons, ih _ (Nat.mod_lt _ (by norm_num)) (Nat.mod_lt _ (by norm_num))
      (Nat.mod_lt _ (by norm_num))]
    simp only [accumulateChannel, List.map_cons, List.sum_cons]
    refine Prod.ext ?_ (Prod.ext ?_ ?_) <;> simp only [] <;> omega

theorem accumulateChannels_eq (values : List ℕ) (channels : List Channel) :
    accumulateChannels values channels =
      (exactSum (fun ch => ch.color.r) values channels % 2 ^ 32,
       exactSum (fun ch => ch.color.g) values channels % 2 ^ 32,
       exactSum (fun ch => ch.color.b) values channels % 2 ^ 32) := by
  unfold accumulateChannels exactSum
  rw [foldl_accumulateChannel _ _ (by norm_num) (by norm_num) (by norm_num)]
  simp

theorem normalizeSum_eq (s : ℕ) : normalizeSum s = min s (255 * 255) / 255 := by
  unfold normalizeSum
  split_ifs with h
  · rw [min_eq_right (by omega)]
  · rw [min_eq_left (by omega)]
    omega

theorem exactSum_le (weight : Channel → ℕ) (values : List ℕ) (channels : List Channel)
    (hw : ∀ ch ∈ channels, weight ch ≤ 255) :
    exactSum weight values channels ≤ channels.length * (255 * 255) := by
  unfold exactSum
  have hlen : (values.zip channels).length ≤ channels.length := by
    rw [List.length_zip]; exact Nat.min_le_right _ _
  have hb := sum_le_of_bound
    ((values.zip channels).map fun p =>
      weight p.2 * affineTransformUint8 p.1 p.2.lowerBound p.2.upperBound) (255 * 255) (by
      intro v hv
      obtain ⟨p, hp, rfl⟩ := List.mem_map.mp hv
      exact Nat.mul_le_mul (hw _ (List.of_mem_zip hp).2) (affineTransformUint8_le _ _ _))
  rw [List.length_map] at hb
  exact le_trans hb (Nat.mul_le_mul_right _ hlen)

theorem clamped_of_lt {S : ℕ} (h : S < 2 ^ 32) :
    min (S % 2 ^ 32) (255 * 255) / 255 = min S (255 * 255) / 255 := by
  rw [Nat.mod_eq_of_lt h]

theorem clamped_of_gt {S : ℕ} (h1 : 255 * 255 < S) (h2 : S < 2 ^ 32) :
    min (S % 2 ^ 32) (255 * 255) / 255 = 255 := by
  rw [Nat.mod_eq_of_lt h2, min_eq_right h1.le]

theorem exactSum_lt (weight : Channel → ℕ) (values : List ℕ) (channels : List Channel)
    (hw : ∀ ch ∈ channels, weight ch ≤ 255) (hn : channels.length ≤ 66051) :
    exactSum weight values channels < 2 ^ 32 := by
  have := exactSum_le weight values channels hw
  have h3 : channels.length * (255 * 255) ≤ 66051 * (255 * 255) := Nat.mul_le_mul_right _ hn
  omega

/-- Claim C3, as the code has it: for sample values and channel descriptors of equal
length with R, G, B weights in `[0, 255]`, each output component equals
`floor(min(S mod 2^32, 255 * 255) / 255)`, `S` being the exact sum of weight times
windowed value, because the sums are kept in `uint32_t`; so whenever `S < 2^32`,
which holds for up to 66051 channels, the component is
`floor(min(S, 255 * 255) / 255)`, and it is 255 whenever `255 * 255 < S < 2^32`. -/
theorem combineChannelsToRGB_clamped (values : List ℕ) (channels : List Channel)
    (hlen : values.length = channels.length)
    (hw : ∀ ch ∈ channels, ch.color.r ≤ 255 ∧ ch.color.g ≤ 255 ∧ ch.color.b ≤ 255) :
    ∃ rgb, combineChannelsToRGB values channels = Except.ok rgb ∧
      rgb.r = min (exactSum (fun ch => ch.color.r) values channels % 2 ^ 32) (255 * 255) / 255 ∧
      rgb.g = min (exactSum (fun ch => ch.color.g) values channels % 2 ^ 32) (255 * 255) / 255 ∧
      rgb.b = min (exactSum (fun ch => ch.color.b) values channels % 2 ^ 32) (255 * 255) / 255 ∧
      (exactSum (fun ch => ch.color.r) values channels < 2 ^ 32 →
        rgb.r = min (exactSum (fun ch => ch.color.r) values channels) (255 * 255) / 255) ∧
      (exactSum (fun ch => ch.color.g) values channels < 2 ^ 32 →
        rgb.g = min (exactSum (fun ch => ch.color.g) values channels) (255 * 255) / 255) ∧
      (exactSum (fun ch => ch.color.b) values channels < 2 ^ 32 →
        rgb.b = min (exactSum (fun ch => ch.color.b) values channels) (255 * 255) / 255) ∧
      (255 * 255 < exactSum (fun ch => ch.color.r) values channels →
        exactSum (fun ch => ch.color.r) values channels < 2 ^ 32 → rgb.r = 255) ∧
      (255 * 255 < exactSum (fun ch => ch.color.g) values channels →
        exactSum (fun ch => ch.color.g) values channels < 2 ^ 32 → rgb.g = 255) ∧
      (255 * 255 < exactSum (fun ch => ch.color.b) values channels →
        exactSum (fun ch => ch.color.b) values channels < 2 ^ 32 → rgb.b = 255) ∧
      (channels.length ≤ 66051 →
        exactSum (fun ch => ch.color.r) values channels < 2 ^ 32 ∧
        exactSum (fun ch => ch.color.g) values channels < 2 ^ 32 ∧
        exactSum (fun ch => ch.color.b) values channels < 2 ^ 32) := by
  refine ⟨⟨min (exactSum (fun ch => ch.color.r) values channels % 2 ^ 32) (255 * 255) / 255,
      min (exactSum (fun ch => ch.color.g) values channels % 2 ^ 32) (255 * 255) / 255,
      min (exactSum (fun ch => ch.color.b) values channels % 2 ^ 32) (255 * 255) / 255⟩,
    ?_, rfl, rfl, rfl, clamped_of_lt, clamped_of_lt, clamped_of_lt, clamped_of_gt,
    clamped_of_gt, clamped_of_gt, fun hn => ⟨?_, ?_, ?_⟩⟩
  · unfold combineChannelsToRGB
    rw [if_neg (not_not.mpr hlen)]
    simp only [accumulateChannels_eq, normalizeSum_eq]
  · exact exactSum_lt _ values channels (fun ch hch => (hw ch hch).1) hn
  · exact exactSum_lt _ values channels (fun ch hch => (hw ch hch).2.1) hn
  · exact exactSum_lt _ values channels (fun ch hch => (hw ch hch).2.2) hn

theorem combineChannelsToRGB_clamped_witness :
    ([1, 1] : List ℕ).length = [whiteChannel, whiteChannel].length ∧
    (∀ ch ∈ [whiteChannel, whiteChannel],
      ch.color.r ≤ 255 ∧ ch.color.g ≤ 255 ∧ ch.color.b ≤ 255) ∧
    ∃ rgb, combineChannelsToRGB [1, 1] [whiteChannel, whiteChannel] = Except.ok rgb ∧
      rgb.r = min (exactSum (fun ch => ch.color.r) [1, 1] [whiteChannel, whiteChannel] % 2 ^ 32)
        (255 * 255) / 255 :=
  ⟨by decide, by decide,
    (combineChannelsToRGB_clamped [1, 1] [whiteChannel, whiteChannel] (by decide)
      (by decide)).imp fun _ h => ⟨h.1, h.2.1⟩⟩

theorem exactSum_white (n : ℕ) (weight : Channel → ℕ) (hw : weight whiteChannel = 255) :
    exactSum weight (List.replicate n 1) (List.replicate n whiteChannel) = n * (255 * 255) := by
  unfold exactSum
  rw [List.zip_replicate, min_self, List.map_replicate, List.sum_replicate, smul_eq_mul, hw]
  have h : affineTransformUint8 1 whiteChannel.lowerBound whiteChannel.upperBound = 255 :=
    affineTransformUint8_of_ge (by decide) (by decide)
  rw [h]

/-- Claim C3 fails as stated: with 66052 channels of weight 255 whose windowed value
is 255, the exact sum of each component is 4295031300, above `255 * 255`, so the
claim gives 255, but the `uint32_t` sum wraps to 64004 and the output byte is 250. -/
theorem combineChannelsToRGB_wrap_counterexample :
    (List.replicate 66052 1).length = (List.replicate 66052 whiteChannel).length ∧
    (∀ ch ∈ List.replicate 66052 whiteChannel,
      ch.color.r ≤ 255 ∧ ch.color.g ≤ 255 ∧ ch.color.b ≤ 255) ∧
    exactSum (fun ch => ch.color.r) (List.replicate 66052 1) (List.replicate 66052 whiteChannel)
      = 4295031300 ∧
    min 4295031300 (255 * 255) / 255 = 255 ∧
    combineChannelsToRGB (List.replicate 66052 1) (List.replicate 66052 whiteChannel)
      = Except.ok ⟨250, 250, 250⟩ := by
  have hS : ∀ weight : Channel → ℕ, weight whiteChannel = 255 →
      exactSum weight (List.replicate 66052 1) (List.replicate 66052 whiteChannel)
        = 4295031300 := fun weight hw => by rw [exactSum_white _ _ hw]
  have hlen : (List.replicate 66052 1).length = (List.replicate 66052 whiteChannel).length := by
    rw [List.length_replicate, List.length_replicate]
  refine ⟨hlen, ?_, hS _ rfl, by decide, ?_⟩
  · intro ch hch
    rw [(List.mem_replicate.mp hch).2]
    decide
  · unfold combineChannelsToRGB
    rw [if_neg (not_not.mpr hlen), accumulateChannels_eq, hS _ rfl, hS _ rfl, hS _ rfl]
    simp only [normalizeSum_eq]
    have h : min (4295031300 % 2 ^ 32) (255 * 255) / 255 = 250 := by decide
    rw [h]

/-! ## The interleave of `MergeGrayToRGB` -/

theorem getD_set_ne (l : List ℕ) {i j : ℕ} (a : ℕ) (h : i ≠ j) :
    (l.set i a).getD j 0 = l.getD j 0 := by
  simp [List.getD_eq_getElem?_getD, List.getElem?_set, h]

theorem getD_set_eq (l : List ℕ) {i : ℕ} (a : ℕ) (h : i < l.length) :
    (l.set i a).getD i 0 = a := by
  simp [List.getD_eq_getElem?_getD, List.getElem?_set, h]

theorem length_interleaveStep (r g b o : List ℕ) (i : ℕ) :
    (interleaveStep r g b o i).length = o.length := by
  simp [interleaveStep]

theorem getD_interleaveStep_other (r g b o : List ℕ) (i j : ℕ) (h : j / 3 ≠ i) :
    (interleaveStep r g b o i).getD j 0 = o.getD j 0 := by
  unfold interleaveStep
  rw [getD_set_ne _ _ (by omega), getD_set_ne _ _ (by omega), getD_set_ne _ _ (by omega)]

theorem getD_interleaveStep_same (r g b o : List ℕ) (i : ℕ) (h : i * 3 + 2 < o.length) :
    (interleaveStep r g b o i).getD (3 * i) 0 = r.getD i 0 ∧
    (interleaveStep r g b o i).getD (3 * i + 1) 0 = g.getD i 0 ∧
    (interleaveStep r g b o i).getD (3 * i + 2) 0 = b.getD i 0 := by
  unfold interleaveStep
  refine ⟨?_, ?_, ?_⟩
  · rw [getD_set_ne _ _ (by omega), getD_set_ne _ _ (by omega),
      show 3 * i = i * 3 from Nat.mul_comm 3 i, getD_set_eq _ _ (by omega)]
  · rw [getD_set_ne _ _ (by omega), show 3 * i + 1 = i * 3 + 1 by omega,
      getD_set_eq _ _ (by simp; omega)]
  · rw [show 3 * i + 2 = i * 3 + 2 by omega, getD_set_eq _ _ (by simp; omega)]

theorem mergeTile_invariant (r g b o : List ℕ) (k : ℕ) (hk : 3 * k ≤ o.length) :
    (mergeTile k r g b o).length = o.length ∧
    (∀ i, i < k →
      (mergeTile k r g b o).getD (3 * i) 0 = r.getD i 0 ∧
      (mergeTile k r g b o).getD (3 * i + 1) 0 = g.getD i 0 ∧
      (mergeTile k r g b o).getD (3 * i + 2) 0 = b.getD i 0) := by
  induction k with
  | zero => simp [mergeTile]
  | succ k ih =>
    obtain ⟨hl, hi⟩ := ih (by omega)
    have hstep : mergeTile (k + 1) r g b o = interleaveStep r g b (mergeTile k r g b o) k := by
      unfold mergeTile
      rw [List.range_succ, List.foldl_append]
      rfl
    rw [hstep]
    refine ⟨by rw [length_interleaveStep, hl], ?_⟩
    intro i hik
    rcases Nat.lt_or_ge i k with h | h
    · obtain ⟨h0, h1, h2⟩ := hi i h
      rw [getD_interleaveStep_other _ _ _ _ _ _ (by omega),
        getD_interleaveStep_other _ _ _ _ _ _ (by omega),
        getD_interleaveStep_other _ _ _ _ _ _ (by omega)]
      exact ⟨h0, h1, h2⟩
    · have hik2 : i = k := by omega
      subst hik2
      exact getD_interleaveStep_same _ _ _ _ _ (by omega)

theorem deinterleave_eq (n c : ℕ) (out src : List ℕ) (hlen : src.length = n)
    (h : ∀ i, i < n → out.getD (3 * i + c) 0 = src.getD i 0) : deinterleave n c out = src := by
  unfold deinterleave
  apply List.ext_getElem
  · simp [hlen]
  · intro i h1 h2
    simp only [List.getElem_map, List.getElem_range]
    rw [h i (by omega), List.getD_eq_getElem _ _ h2]

theorem mergeScanline_eq_mergeTile (n : ℕ) (r g b o : List ℕ) :
    mergeScanline n r g b o = mergeTile n r g b o := rfl

theorem interleaved_spec (n : ℕ) (r g b : List ℕ) (hr : r.length = n) (hg : g.length = n)
    (hb : b.length = n) :
    (interleaved r g b).length = 3 * n ∧
    ∀ i, i < n → (interleaved r g b).getD (3 * i) 0 = r.getD i 0 ∧
      (interleaved r g b).getD (3 * i + 1) 0 = g.getD i 0 ∧
      (interleaved r g b).getD (3 * i + 2) 0 = b.getD i 0 := by
  induction n generalizing r g b with
  | zero =>
    rw [List.length_eq_zero.mp hr]
    exact ⟨by simp [interleaved], fun i hi => absurd hi (Nat.not_lt_zero i)⟩
  | succ n ih =>
    obtain ⟨x, r, rfl⟩ := List.exists_cons_of_length_eq_add_one hr
    obtain ⟨y, g, rfl⟩ := List.exists_cons_of_length_eq_add_one hg
    obtain ⟨z, b, rfl⟩ := List.exists_cons_of_length_eq_add_one hb
    obtain ⟨hl, hi⟩ := ih r g b (by simpa using hr) (by simpa using hg) (by simpa using hb)
    refine ⟨by simp only [interleaved, List.length_cons, hl]; omega, ?_⟩
    intro i hin
    cases i with
    | zero => simp [interleaved]
    | succ i =>
      obtain ⟨h0, h1, h2⟩ := hi i (by omega)
      have e0 : 3 * (i + 1) = 3 * i + 1 + 1 + 1 := by omega
      have e1 : 3 * (i + 1) + 1 = 3 * i + 1 + 1 + 1 + 1 := by omega
      have e2 : 3 * (i + 1) + 2 = 3 * i + 2 + 1 + 1 + 1 := by omega
      refine ⟨?_, ?_, ?_⟩
      · rw [e0]; simpa [interleaved] using h0
      · rw [e1]; simpa [interleaved] using h1
      · rw [e2]; simpa [interleaved] using h2

theorem ext_getD {l1 l2 : List ℕ} (hl : l1.length = l2.length)
    (h : ∀ j, j < l1.length → l1.getD j 0 = l2.getD j 0) : l1 = l2 := by
  apply List.ext_getElem hl
  intro j h1 h2
  have := h j h1
  rwa [List.getD_eq_getElem _ _ h1, List.getD_eq_getElem _ _ h2] at this

theorem mergeTile_eq_interleaved (n : ℕ) (r g b o : List ℕ) (hr : r.length = n)
    (hg : g.length = n) (hb : b.length = n) (ho : o.length = n * 3) :
    mergeTile n r g b o = interleaved r g b := by
  obtain ⟨hl, hi⟩ := mergeTile_invariant r g b o n (by omega)
  obtain ⟨hl2, hi2⟩ := interleaved_spec n r g b hr hg hb
  apply ext_getD (by rw [hl, hl2, ho]; omega)
  intro j hj
  rw [hl, ho] at hj
  have hjn : j / 3 < n := by omega
  obtain ⟨a0, a1, a2⟩ := hi (j / 3) hjn
  obtain ⟨b0, b1, b2⟩ := hi2 (j / 3) hjn
  have hcase : j = 3 * (j / 3) ∨ j = 3 * (j / 3) + 1 ∨ j = 3 * (j / 3) + 2 := by omega
  rcases hcase with h | h | h
  · rw [h, a0, b0]
  · rw [h, a1, b1]
  · rw [h, a2, b2]

/-! ## The window transform inside the window -/

/-- The `double` product `(value - A) * scale` of the last branch, for
`k = value - A` and `d = B - A`. -/
theorem affineTransformUint8_in_window {value A B : ℕ} (h1 : A < value) (h2 : value < B) :
    affineTransformUint8 value A B
      = truncDouble (toDouble (toDouble ((value - A : ℕ) : ℚ)
          * toDouble (255 / toDouble ((B - A : ℕ) : ℚ)))) % 256 := by
  have h255 : toDouble (((255 - 0 : ℕ) : ℕ) : ℚ) = 255 := by
    have := toDouble_natCast (n := 255) (by norm_num)
    simpa using this
  simp only [affineTransformUint8, not_le.mpr h1, if_false, ge_iff_le, not_le.mpr h2,
    gt_iff_lt, lt_trans h1 h2, if_true, h255]

theorem truncDouble_mono {x y : ℚ} (h : x ≤ y) : truncDouble x ≤ truncDouble y := by
  unfold truncDouble
  exact Int.toNat_le_toNat (Int.floor_mono h)

theorem truncDouble_le_of_lt {x : ℚ} {m : ℕ} (h : x < (m : ℚ) + 1) : truncDouble x ≤ m := by
  unfold truncDouble
  have : ⌊x⌋ < (m : ℤ) + 1 := by
    rw [Int.floor_lt]; push_cast; exact h
  omega

theorem le_truncDouble_of_le {x : ℚ} {m : ℕ} (h : (m : ℚ) ≤ x) : m ≤ truncDouble x := by
  unfold truncDouble
  have : (m : ℤ) ≤ ⌊x⌋ := by
    rw [Int.le_floor]; push_cast; exact h
  omega

/-- The scaled product of an in-window sample stays below 255.5. -/
theorem scaled_le (k d : ℕ) (hk : 0 < k) (hkd : k ≤ d) :
    toDouble (toDouble (k : ℚ) * toDouble (255 / toDouble (d : ℚ))) ≤ 511 / 2 := by
  have hkq : (0 : ℚ) < k := by exact_mod_cast hk
  have hdq : (0 : ℚ) < d := by exact_mod_cast (lt_of_lt_of_le hk hkd)
  have hK := toDouble_pos hkq
  have hD := toDouble_pos hdq
  have hKD : toDouble (k : ℚ) ≤ toDouble (d : ℚ) := toDouble_mono (by exact_mod_cast hkd)
  have hq : (0 : ℚ) < 255 / toDouble (d : ℚ) := by positivity
  have hS := toDouble_pos hq
  have hSle := toDouble_le_rel hq
  have hp : 0 < toDouble (k : ℚ) * toDouble (255 / toDouble (d : ℚ)) := by positivity
  have hple : toDouble (k : ℚ) * toDouble (255 / toDouble (d : ℚ)) ≤ 255 + 255 / 2 ^ 52 := by
    calc toDouble (k : ℚ) * toDouble (255 / toDouble (d : ℚ))
        ≤ toDouble (d : ℚ) * toDouble (255 / toDouble (d : ℚ)) :=
          mul_le_mul_of_nonneg_right hKD hS.le
      _ ≤ toDouble (d : ℚ) * (255 / toDouble (d : ℚ) + 255 / toDouble (d : ℚ) / 2 ^ 52) :=
          mul_le_mul_of_nonneg_left hSle hD.le
      _ = 255 + 255 / 2 ^ 52 := by field_simp; ring
  have hgrid := toDouble_le_grid hp 511 (-1)
    (by rw [ulpExp_le_iff hp]; norm_num; linarith [hple])
    (by norm_num; linarith [hple])
  norm_num at hgrid
  linarith

theorem scaled_trunc_le (k d : ℕ) (hk : 0 < k) (hkd : k ≤ d) :
    truncDouble (toDouble (toDouble (k : ℚ) * toDouble (255 / toDouble (d : ℚ)))) ≤ 255 := by
  apply truncDouble_le_of_lt
  have := scaled_le k d hk hkd
  norm_num
  linarith

theorem scaled_mono (k1 k2 d : ℕ) (h : k1 ≤ k2) :
    toDouble (toDouble (k1 : ℚ) * toDouble (255 / toDouble (d : ℚ)))
      ≤ toDouble (toDouble (k2 : ℚ) * toDouble (255 / toDouble (d : ℚ))) := by
  apply toDouble_mono
  apply mul_le_mul_of_nonneg_right (toDouble_mono (by exact_mod_cast h)) (toDouble_nonneg _)

theorem affineTransformUint8_mono (A B : ℕ) {v1 v2 : ℕ} (h : v1 ≤ v2) :
    affineTransformUint8 v1 A B ≤ affineTransformUint8 v2 A B := by
  rcases Nat.lt_or_ge A v1 with h1 | h1
  · rcases Nat.lt_or_ge v2 B with h2 | h2
    · rw [affineTransformUint8_in_window h1 (by omega),
        affineTransformUint8_in_window (by omega) h2,
        Nat.mod_eq_of_lt (by have := scaled_trunc_le (v1 - A) (B - A) (by omega) (by omega); omega),
        Nat.mod_eq_of_lt (by have := scaled_trunc_le (v2 - A) (B - A) (by omega) (by omega); omega)]
      exact truncDouble_mono (scaled_mono _ _ _ (by omega))
    · rw [affineTransformUint8_of_ge (by omega) h2]
      exact affineTransformUint8_le _ _ _
  · rw [affineTransformUint8_of_le B h1]
    exact Nat.zero_le _

/-- Error analysis of the scaled product for a window no wider than `2^32`: with
`m = floor(k * 255 / d)` the product lies in `[m - 1, m + 1 - 2^-33]`, and in
`[m, m + 1 - 2^-33]` when `d` does not divide `k * 255`. -/
theorem scaled_bounds_aux (k d m : ℕ) (hk : 0 < k) (hkd : k < d) (hd : d ≤ 2 ^ 32)
    (hm1 : m * d ≤ k * 255) (hm2 : k * 255 < (m + 1) * d) :
    (m : ℚ) - 1 ≤ toDouble (toDouble (k : ℚ) * toDouble (255 / toDouble (d : ℚ))) ∧
    toDouble (toDouble (k : ℚ) * toDouble (255 / toDouble (d : ℚ)))
      ≤ (m : ℚ) + 1 - 1 / 2 ^ 33 ∧
    (m * d + 1 ≤ k * 255 →
      (m : ℚ) ≤ toDouble (toDouble (k : ℚ) * toDouble (255 / toDouble (d : ℚ)))) := by
  have hkq : (0 : ℚ) < k := by exact_mod_cast hk
  have hdpos : 0 < d := by omega
  have hdq : (0 : ℚ) < d := by exact_mod_cast hdpos
  have hdle : (d : ℚ) ≤ 4294967296 := by exact_mod_cast hd
  rw [toDouble_natCast (n := k) (by omega),
    toDouble_natCast (n := d) (lt_of_le_of_lt hd (by norm_num))]
  have hq : (0 : ℚ) < 255 / d := by positivity
  have hSle := toDouble_le_rel hq
  have hSge := rel_le_toDouble hq
  have hS := toDouble_pos hq
  have hp : 0 < (k : ℚ) * toDouble (255 / (d : ℚ)) := by positivity
  -- the exact quotient `E = 255 k / d`
  obtain ⟨E, hE⟩ : ∃ E : ℚ, E = (k : ℚ) * 255 / d := ⟨_, rfl⟩
  have hEd : E * d = (k : ℚ) * 255 := by rw [hE]; field_simp
  have hElt : E < 255 := by
    have : (k : ℚ) < d := by exact_mod_cast hkd
    have h1 : E * d < 255 * d := by rw [hEd]; linarith
    exact lt_of_mul_lt_mul_right h1 hdq.le
  have hEpos : 0 < E := by rw [hE]; positivity
  have hm1q : (m : ℚ) * d ≤ (k : ℚ) * 255 := by exact_mod_cast hm1
  have hm2q : (k : ℚ) * 255 + 1 ≤ ((m : ℚ) + 1) * d := by exact_mod_cast hm2
  have hmE : (m : ℚ) ≤ E := by
    have h1 : (m : ℚ) * d ≤ E * d := by rw [hEd]; exact hm1q
    exact le_of_mul_le_mul_right h1 hdq
  have hEm : E ≤ (m : ℚ) + 1 - 1 / 4294967296 := by
    have h1 : (E + 1 / 4294967296 - (m + 1)) * d ≤ 0 := by
      have h2 : (1 : ℚ) / 4294967296 * d ≤ 1 := by
        rw [div_mul_eq_mul_div, one_mul]
        exact (div_le_one (by norm_num)).mpr hdle
      nlinarith
    have h3 : E + 1 / 4294967296 - (m + 1) ≤ 0 := by
      by_contra hcon
      have := mul_pos (not_le.mp hcon) hdq
      linarith
    linarith
  -- bounds on the product before the last rounding
  have hkS : (k : ℚ) * (255 / d) = E := by rw [hE]; ring
  have hple : (k : ℚ) * toDouble (255 / (d : ℚ)) ≤ E + 255 / 4503599627370496 := by
    have h1 : (k : ℚ) * toDouble (255 / (d : ℚ)) ≤ (k : ℚ) * (255 / d + 255 / d / 2 ^ 52) :=
      mul_le_mul_of_nonneg_left hSle hkq.le
    have h2 : (k : ℚ) * (255 / d + 255 / d / 2 ^ 52) = E + E / 4503599627370496 := by
      rw [← hkS]; ring
    rw [h2] at h1
    linarith
  have hpge : E - 255 / 4503599627370496 ≤ (k : ℚ) * toDouble (255 / (d : ℚ)) := by
    have h1 : (k : ℚ) * (255 / d - 255 / d / 2 ^ 52) ≤ (k : ℚ) * toDouble (255 / (d : ℚ)) :=
      mul_le_mul_of_nonneg_left hSge hkq.le
    have h2 : (k : ℚ) * (255 / d - 255 / d / 2 ^ 52) = E - E / 4503599627370496 := by
      rw [← hkS]; ring
    rw [h2] at h1
    linarith
  have hj : ulpExp ((k : ℚ) * toDouble (255 / (d : ℚ))) ≤ -33 := by
    rw [ulpExp_le_iff hp]
    norm_num
    linarith
  refine ⟨?_, ?_, ?_⟩
  · have hg := grid_le_toDouble hp ((m : ℤ) - 1) 0 (by omega) (by
      simp only [Int.cast_sub, Int.cast_natCast, Int.cast_one, zpow_zero, mul_one]
      linarith)
    simp only [Int.cast_sub, Int.cast_natCast, Int.cast_one, zpow_zero, mul_one] at hg
    exact hg
  · have hg := toDouble_le_grid hp (((m : ℤ) + 1) * 2 ^ 33 - 1) (-33) hj (by
      simp only [Int.cast_sub, Int.cast_mul, Int.cast_add, Int.cast_natCast, Int.cast_one,
        Int.cast_pow, Int.cast_ofNat, zpow_neg]
      norm_num
      linarith)
    simp only [Int.cast_sub, Int.cast_mul, Int.cast_add, Int.cast_natCast, Int.cast_one,
      Int.cast_pow, Int.cast_ofNat, zpow_neg] at hg
    norm_num at hg ⊢
    linarith
  · intro hrem
    have hremq : (m : ℚ) * d + 1 ≤ (k : ℚ) * 255 := by exact_mod_cast hrem
    have hEm2 : (m : ℚ) + 1 / 4294967296 ≤ E := by
      have h2 : (1 : ℚ) / 4294967296 * d ≤ 1 := by
        rw [div_mul_eq_mul_div, one_mul]
        exact (div_le_one (by norm_num)).mpr hdle
      have h3 : ((m : ℚ) + 1 / 4294967296) * d ≤ E * d := by rw [hEd]; nlinarith
      exact le_of_mul_le_mul_right h3 hdq
    have hg := grid_le_toDouble hp (m : ℤ) 0 (by omega) (by
      simp only [Int.cast_natCast, zpow_zero, mul_one]
      linarith)
    simp only [Int.cast_natCast, zpow_zero, mul_one] at hg
    exact hg

/-- A 16-bit sample in a window wider than `2^32` is scaled to less than 1. -/
theorem scaled_wide (k d : ℕ) (hk : 0 < k) (hk16 : k < 2 ^ 16) (hd : 2 ^ 32 < d) :
    toDouble (toDouble (k : ℚ) * toDouble (255 / toDouble (d : ℚ))) ≤ 1 / 2 := by
  have hkq : (0 : ℚ) < k := by exact_mod_cast hk
  have hk16q : (k : ℚ) < 65536 := by exact_mod_cast hk16
  have hdq : (0 : ℚ) < d := by exact_mod_cast (lt_trans (by norm_num) hd)
  rw [toDouble_natCast (n := k) (by omega)]
  have hD : (2 : ℚ) ^ 32 ≤ toDouble (d : ℚ) := by
    have h1 : toDouble ((2 ^ 32 : ℕ) : ℚ) ≤ toDouble (d : ℚ) :=
      toDouble_mono (by exact_mod_cast hd.le)
    rw [toDouble_natCast (by norm_num)] at h1
    exact_mod_cast h1
  have hDpos : (0 : ℚ) < toDouble (d : ℚ) := lt_of_lt_of_le (by positivity) hD
  have hq : (0 : ℚ) < 255 / toDouble (d : ℚ) := by positivity
  have hqle : 255 / toDouble (d : ℚ) ≤ 255 / 2 ^ 32 :=
    div_le_div_of_nonneg_left (by norm_num) (by positivity) hD
  have hS : toDouble (255 / toDouble (d : ℚ)) ≤ 255 / 2 ^ 32 := by
    have hg := toDouble_le_grid hq 255 (-32)
      (by rw [ulpExp_le_iff hq]; norm_num at hqle ⊢; linarith)
      (by rw [zpow_neg]; norm_num at hqle ⊢; linarith)
    rw [zpow_neg] at hg
    norm_num at hg ⊢
    linarith
  have hSpos := toDouble_pos hq
  have hp : 0 < (k : ℚ) * toDouble (255 / toDouble (d : ℚ)) := by positivity
  have hple : (k : ℚ) * toDouble (255 / toDouble (d : ℚ)) ≤ 65536 * (255 / 2 ^ 32) :=
    mul_le_mul hk16q.le hS hSpos.le (by norm_num)
  have hg := toDouble_le_grid hp 1 (-1)
    (by rw [ulpExp_le_iff hp]; norm_num at hple ⊢; linarith)
    (by norm_num at hple ⊢; linarith)
  norm_num at hg ⊢
  linarith

theorem affineTransformUint8_in_window_bounds {v A B : ℕ} (h1 : A < v) (h2 : v < B)
    (hr : v < 2 ^ 16 ∨ B - A ≤ 2 ^ 32) :
    (v - A) * 255 / (B - A) - 1 ≤ affineTransformUint8 v A B ∧
    affineTransformUint8 v A B ≤ (v - A) * 255 / (B - A) ∧
    (¬ (B - A) ∣ (v - A) * 255 → affineTransformUint8 v A B = (v - A) * 255 / (B - A)) ∧
    affineTransformUint8 v A B ≤ 254 := by
  have hk : 0 < v - A := by omega
  have hkd : v - A < B - A := by omega
  have hdpos : 0 < B - A := by omega
  have hm254 : (v - A) * 255 / (B - A) ≤ 254 := by
    have : (v - A) * 255 / (B - A) < 255 := by
      rw [Nat.div_lt_iff_lt_mul hdpos]
      nlinarith
    omega
  rw [affineTransformUint8_in_window h1 h2,
    Nat.mod_eq_of_lt (by have := scaled_trunc_le (v - A) (B - A) hk hkd.le; omega)]
  rcases Nat.lt_or_ge (2 ^ 32) (B - A) with hwide | hnarrow
  · -- a window wider than `2^32`: only 16-bit samples are covered, and they map to 0
    have hv16 : v < 2 ^ 16 := by
      rcases hr with h | h
      · exact h
      · omega
    have hX := scaled_wide (v - A) (B - A) hk (by omega) hwide
    have h0 : truncDouble (toDouble (toDouble ((v - A : ℕ) : ℚ)
        * toDouble (255 / toDouble ((B - A : ℕ) : ℚ)))) = 0 := by
      have := truncDouble_le_of_lt (m := 0) (lt_of_le_of_lt hX (by norm_num))
      omega
    have hm0 : (v - A) * 255 / (B - A) = 0 := by
      apply Nat.div_eq_of_lt
      have : (v - A) * 255 < 2 ^ 16 * 255 := Nat.mul_lt_mul_of_pos_right (by omega) (by norm_num)
      have h24 : 2 ^ 16 * 255 < 2 ^ 32 := by norm_num
      omega
    rw [h0, hm0]
    simp
  · obtain ⟨hlo, hhi, hex⟩ := scaled_bounds_aux (v - A) (B - A) ((v - A) * 255 / (B - A)) hk hkd
      hnarrow (Nat.div_mul_le_self _ _)
      ((Nat.div_lt_iff_lt_mul hdpos).mp (Nat.lt_succ_self _))
    have hupper := truncDouble_le_of_lt (m := (v - A) * 255 / (B - A))
      (lt_of_le_of_lt hhi (sub_lt_self _ (by positivity)))
    have hlower : (v - A) * 255 / (B - A) - 1 ≤ truncDouble (toDouble (toDouble ((v - A : ℕ) : ℚ)
        * toDouble (255 / toDouble ((B - A : ℕ) : ℚ)))) := by
      apply le_truncDouble_of_le
      rcases Nat.eq_zero_or_pos ((v - A) * 255 / (B - A)) with h0 | hpos
      · rw [h0]
        simp only [Nat.zero_sub, Nat.cast_zero]
        exact toDouble_nonneg _
      · rw [Nat.cast_sub hpos, Nat.cast_one]
        exact hlo
    refine ⟨hlower, hupper, ?_, le_trans hupper hm254⟩
    intro hndvd
    have hrem : (v - A) * 255 / (B - A) * (B - A) + 1 ≤ (v - A) * 255 := by
      have hmod : (v - A) * 255 % (B - A) ≠ 0 := fun h0 => hndvd (Nat.dvd_of_mod_eq_zero h0)
      have := Nat.div_add_mod ((v - A) * 255) (B - A)
      have hc : (B - A) * ((v - A) * 255 / (B - A)) = (v - A) * 255 / (B - A) * (B - A) :=
        Nat.mul_comm _ _
      omega
    exact le_antisymm hupper (le_truncDouble_of_le (hex hrem))

/-- Claim C6, as the code has it: for a window with `lowerBound < upperBound`,
`affineTransformUint8` is non-decreasing in the sample value; an in-window value
`lowerBound < v < upperBound` that is a 16-bit sample, or lies in a window no wider
than `2^32`, is scaled in `double` arithmetic to `floor((v - lowerBound) * 255 /
(upperBound - lowerBound))` or to one less, the latter only when the quotient is
an integer, and never exceeds 254, so the narrowing to a byte loses nothing. -/
theorem affineTransformUint8_monotone_scaled (A B : ℕ) (h : A < B) :
    (∀ v1 v2, v1 ≤ v2 → affineTransformUint8 v1 A B ≤ affineTransformUint8 v2 A B) ∧
    (∀ v, A < v → v < B → (v < 2 ^ 16 ∨ B - A ≤ 2 ^ 32) →
      (v - A) * 255 / (B - A) - 1 ≤ affineTransformUint8 v A B ∧
      affineTransformUint8 v A B ≤ (v - A) * 255 / (B - A) ∧
      (¬ (B - A) ∣ (v - A) * 255 → affineTransformUint8 v A B = (v - A) * 255 / (B - A)) ∧
      affineTransformUint8 v A B ≤ 254) ∧
    affineTransformUint8 A A B = 0 ∧ affineTransformUint8 B A B = 255 :=
  ⟨fun _ _ hv => affineTransformUint8_mono A B hv,
   fun _ h1 h2 hr => affineTransformUint8_in_window_bounds h1 h2 hr,
   affineTransformUint8_of_le B le_rfl, affineTransformUint8_of_ge h le_rfl⟩

theorem affineTransformUint8_monotone_scaled_witness :
    (200 : ℕ) < 1500 ∧
    (∀ v1 v2, v1 ≤ v2 → affineTransformUint8 v1 200 1500 ≤ affineTransformUint8 v2 200 1500) ∧
    (∀ v, 200 < v → v < 1500 → (v < 2 ^ 16 ∨ 1500 - 200 ≤ 2 ^ 32) →
      (v - 200) * 255 / (1500 - 200) - 1 ≤ affineTransformUint8 v 200 1500 ∧
      affineTransformUint8 v 200 1500 ≤ (v - 200) * 255 / (1500 - 200) ∧
      (¬ (1500 - 200) ∣ (v - 200) * 255 →
        affineTransformUint8 v 200 1500 = (v - 200) * 255 / (1500 - 200)) ∧
      affineTransformUint8 v 200 1500 ≤ 254) ∧
    affineTransformUint8 200 200 1500 = 0 ∧ affineTransformUint8 1500 200 1500 = 255 :=
  ⟨by decide, affineTransformUint8_monotone_scaled 200 1500 (by decide)⟩

theorem toDouble_scale_105 : toDouble (255 / 105) = 5468656690378459 / 2 ^ 51 := by
  have h := toDouble_eq_of_near (q := 255 / 105) 1 5468656690378459
    (by norm_num) (by norm_num) (by norm_num) (by norm_num)
  rw [h]; norm_num

theorem toDouble_product_105 :
    toDouble (21 * (5468656690378459 / 2 ^ 51)) = 7177611906121727 / 2 ^ 47 := by
  have h := toDouble_eq_of_near (q := 21 * (5468656690378459 / 2 ^ 51)) 5 7177611906121727
    (by norm_num) (by norm_num) (by norm_num) (by norm_num)
  rw [h]; norm_num

/-- Claim C6 fails as stated: in the window `[0, 105]` the sample 21 has the exact
quotient `21 * 255 / 105 = 51`, but the `double` product is `51 - 2^-47` and the
function returns 50. -/
theorem affineTransformUint8_floor_counterexample :
    (0 : ℕ) < 21 ∧ (21 : ℕ) < 105 ∧ (21 - 0) * 255 / (105 - 0) = 51 ∧
    affineTransformUint8 21 0 105 = 50 := by
  refine ⟨by decide, by decide, by decide, ?_⟩
  rw [affineTransformUint8_in_window (by decide) (by decide)]
  have h21 : toDouble (((21 - 0 : ℕ) : ℕ) : ℚ) = 21 := by
    have := toDouble_natCast (n := 21) (by norm_num)
    simpa using this
  have h105 : toDouble (((105 - 0 : ℕ) : ℕ) : ℚ) = 105 := by
    have := toDouble_natCast (n := 105) (by norm_num)
    simpa using this
  rw [h21, h105, toDouble_scale_105, toDouble_product_105]
  have hfl : ⌊((7177611906121727 : ℚ) / 2 ^ 47)⌋ = 50 := by
    rw [Int.floor_eq_iff]
    constructor <;> norm_num
  unfold truncDouble
  rw [hfl]
  decide

/-! ## The percentile lookups and the uniform tile -/

theorem percentile_le {arrSize : ℕ} {itile : List ℕ} (h : itile.length = arrSize)
    (hpos : 0 < arrSize) (hsz : arrSize < 2 ^ 31) :
    percentile_10 arrSize itile ≤ percentile_90 arrSize itile := by
  unfold percentile_90 percentile_10
  rw [arrCopy_eq h, percentileIndex90_eq hsz, percentileIndex10_eq hsz]
  exact sorted_getD_le itile (by omega) (by omega)

theorem percentile_90_lt {arrSize : ℕ} {itile : List ℕ} (h : itile.length = arrSize)
    (hpos : 0 < arrSize) (hsz : arrSize < 2 ^ 31) (h16 : ∀ v ∈ itile, v < 2 ^ 16) :
    percentile_90 arrSize itile < 2 ^ 16 := by
  unfold percentile_90
  rw [arrCopy_eq h, percentileIndex90_eq hsz]
  exact sorted_getD_lt_of_bound itile (2 ^ 16) h16 (by omega)

/-- Claim C16: for every non-empty tile of `N` 16-bit samples (`0 < N`, `N` an `int`),
the two indices `static_cast<int>(0.1 * N)` and `static_cast<int>(0.9 * N)` are
`floor(N / 10)` and `floor(9 N / 10)`, both below `N`, the first not above the
second; so the 10th-percentile sample is at most the 90th-percentile sample and the
`uint16_t` difference `diff` is the exact difference `p90 - p10`, without
wraparound. -/
theorem percentile_lookup_in_bounds (arrSize : ℕ) (itile : List ℕ)
    (hlen : itile.length = arrSize) (hpos : 0 < arrSize) (hsz : arrSize < 2 ^ 31)
    (h16 : ∀ v ∈ itile, v < 2 ^ 16) :
    percentileIndex10 arrSize = arrSize / 10 ∧
    percentileIndex90 arrSize = 9 * arrSize / 10 ∧
    percentileIndex10 arrSize < (arrCopy arrSize itile).length ∧
    percentileIndex90 arrSize < (arrCopy arrSize itile).length ∧
    (arrCopy arrSize itile).length = arrSize ∧
    percentileIndex10 arrSize ≤ percentileIndex90 arrSize ∧
    percentile_10 arrSize itile ≤ percentile_90 arrSize itile ∧
    ((diff arrSize itile : ℕ) : ℤ)
      = (percentile_90 arrSize itile : ℤ) - (percentile_10 arrSize itile : ℤ) := by
  have h10 := percentileIndex10_eq hsz
  have h90 := percentileIndex90_eq hsz
  have hcopy : (arrCopy arrSize itile).length = arrSize := by
    rw [arrCopy_eq hlen, List.length_insertionSort, hlen]
  have hle := percentile_le hlen hpos hsz
  have hlt := percentile_90_lt hlen hpos hsz h16
  refine ⟨h10, h90, by omega, by omega, hcopy, by omega, hle, ?_⟩
  unfold diff
  omega

theorem percentile_lookup_in_bounds_witness :
    boundaryTile.length = 4 ∧ 0 < 4 ∧ 4 < 2 ^ 31 ∧ (∀ v ∈ boundaryTile, v < 2 ^ 16) ∧
    percentileIndex10 4 = 4 / 10 ∧ percentileIndex90 4 = 9 * 4 / 10 ∧
    percentileIndex10 4 < (arrCopy 4 boundaryTile).length ∧
    percentileIndex90 4 < (arrCopy 4 boundaryTile).length ∧
    (arrCopy 4 boundaryTile).length = 4 ∧
    percentileIndex10 4 ≤ percentileIndex90 4 ∧
    percentile_10 4 boundaryTile ≤ percentile_90 4 boundaryTile ∧
    ((diff 4 boundaryTile : ℕ) : ℤ)
      = (percentile_90 4 boundaryTile : ℤ) - (percentile_10 4 boundaryTile : ℤ) :=
  ⟨by decide, by decide, by norm_num, by decide,
    percentile_lookup_in_bounds 4 boundaryTile (by decide) (by decide) (by norm_num)
      (by decide)⟩

theorem diff_replicate {n c : ℕ} (hpos : 0 < n) (hsz : n < 2 ^ 31) (hc : c < 2 ^ 16) :
    diff n (List.replicate n c) = 0 := by
  rw [diff_eq (List.length_replicate n c) hpos hsz
    (fun v hv => by rw [(List.mem_replicate.mp hv).2]; exact hc),
    sorted_replicate_getD n c _ (by omega), sorted_replicate_getD n c _ (by omega)]
  omega

theorem tileSum_replicate {n c : ℕ} (hsz : n < 2 ^ 31) (hc : c < 2 ^ 16) :
    tileSum n (List.replicate n c) = n * c := by
  rw [tileSum_eq (List.length_replicate n c) hsz
    (fun v hv => by rw [(List.mem_replicate.mp hv).2]; exact hc),
    List.sum_replicate, smul_eq_mul]

/-- Claim C13: for a non-empty uniform tile (all `N` samples equal to the 16-bit
value `c`) the quantile filter computes spread 0 and integer mean exactly `c`, so
the tile is kept (copied to the output buffer) if and only if `c >= 200`, and
otherwise dropped: the drop counter is incremented and nothing is copied. -/
theorem uniform_tile_kept_iff (ts c : ℕ) (st : CompressState) (hpos : 0 < ts / 2)
    (hsz : ts / 2 < 2 ^ 31) (hc : c < 2 ^ 16) (hbuf : st.otile.length = ts / 2) :
    diff (ts / 2) (List.replicate (ts / 2) c) = 0 ∧
    tileSum (ts / 2) (List.replicate (ts / 2) c) / (ts / 2) = c ∧
    (keepTile (ts / 2) (List.replicate (ts / 2) c) = true ↔ c ≥ MEAN_THRESHOLD) ∧
    (c ≥ 200 →
      compressTile ts (List.replicate (ts / 2) c) st
        = { st with otile := List.replicate (ts / 2) c }) ∧
    (c < 200 →
      compressTile ts (List.replicate (ts / 2) c) st
        = { st with drop := toFloat (st.drop + 1) }) := by
  have hk := keepTile_replicate (c := c) hpos hsz hc
  refine ⟨diff_replicate hpos hsz hc, ?_, ?_, ?_, ?_⟩
  · rw [tileSum_replicate hsz hc, Nat.mul_div_cancel_left c hpos]
  · rw [hk, decide_eq_true_iff]; rfl
  · intro h
    have hk1 : keepTile (ts / 2) (List.replicate (ts / 2) c) = true := by
      rw [hk, decide_eq_true_iff]; exact h
    unfold compressTile
    simp only [hk1, if_true]
    rw [memcpySamples_full (List.length_replicate _ _) hbuf]
  · intro h
    have hk0 : keepTile (ts / 2) (List.replicate (ts / 2) c) = false := by
      rw [hk, decide_eq_false_iff_not]; omega
    unfold compressTile
    simp only [hk0]
    rfl

theorem uniform_tile_kept_iff_witness :
    0 < 512 / 2 ∧ 512 / 2 < 2 ^ 31 ∧ 200 < 2 ^ 16 ∧ (compressInit 512).otile.length = 512 / 2 ∧
    (keepTile (512 / 2) (List.replicate (512 / 2) 200) = true ↔ 200 ≥ MEAN_THRESHOLD) :=
  ⟨by norm_num, by norm_num, by norm_num, List.length_replicate _ _,
    (uniform_tile_kept_iff 512 200 (compressInit 512) (by norm_num) (by norm_num)
      (by norm_num) (List.length_replicate _ _)).2.2.1⟩

/-! ## The counters of `Compress` -/

theorem log_eq_of_bounds {q : ℚ} (e : ℤ) (hlo : (2 : ℚ) ^ e ≤ q) (hhi : q < 2 ^ (e + 1)) :
    Int.log 2 q = e := by
  have hq : 0 < q := lt_of_lt_of_le (by positivity) hlo
  apply le_antisymm
  · have := (Int.lt_zpow_iff_log_lt (b := 2) (by norm_num) (x := e + 1) hq).mp
      (by rw [Nat.cast_ofNat]; exact hhi)
    omega
  · exact (Int.zpow_le_iff_le_log (b := 2) (by norm_num) hq).mp
      (by rw [Nat.cast_ofNat]; exact hlo)

theorem toFloat_of_pos {q : ℚ} (hq : 0 < q) :
    toFloat q = roundHalfEven (q / 2 ^ (Int.log 2 q - 23)) * 2 ^ (Int.log 2 q - 23) := by
  unfold toFloat
  rw [if_neg (not_le.mpr hq)]

theorem toFloat_natCast {n : ℕ} (hn : n < 2 ^ 24) : toFloat (n : ℚ) = n := by
  rcases Nat.eq_zero_or_pos n with h0 | hpos
  · subst h0; simp [toFloat]
  · have hq : (0 : ℚ) < n := by exact_mod_cast hpos
    have hlog : Int.log 2 (n : ℚ) < 24 := by
      have h := (Int.lt_zpow_iff_log_lt (b := 2) (by norm_num) (x := 24) hq).mp (by
        rw [Nat.cast_ofNat]
        have : (n : ℚ) < 2 ^ 24 := by exact_mod_cast hn
        norm_num at this ⊢
        exact this)
      exact h
    obtain ⟨k, hk⟩ : ∃ k : ℕ, Int.log 2 (n : ℚ) - 23 = -(k : ℤ) :=
      ⟨(23 - Int.log 2 (n : ℚ)).toNat, by omega⟩
    rw [toFloat_of_pos hq, hk, zpow_neg, zpow_natCast]
    have hpow : (0 : ℚ) < 2 ^ k := by positivity
    have hint : (n : ℚ) / (2 ^ k)⁻¹ = ((n * 2 ^ k : ℤ) : ℚ) := by
      push_cast
      field_simp
    rw [hint, roundHalfEven_intCast]
    push_cast
    field_simp

theorem toFloat_two_pow : toFloat 16777216 = 16777216 := by
  have hlog : Int.log 2 (16777216 : ℚ) = 24 := log_eq_of_bounds 24 (by norm_num) (by norm_num)
  rw [toFloat_of_pos (by norm_num), hlog]
  have h : (16777216 : ℚ) / 2 ^ ((24 : ℤ) - 23) = ((8388608 : ℤ) : ℚ) := by norm_num
  rw [h, roundHalfEven_intCast]
  norm_num

theorem toFloat_two_pow_succ : toFloat (16777216 + 1) = 16777216 := by
  have hlog : Int.log 2 ((16777216 : ℚ) + 1) = 24 :=
    log_eq_of_bounds 24 (by norm_num) (by norm_num)
  rw [toFloat_of_pos (by norm_num), hlog]
  have h : ((16777216 : ℚ) + 1) / 2 ^ ((24 : ℤ) - 23) = 8388608 + 1 / 2 := by norm_num
  have hfl : ⌊(8388608 : ℚ) + 1 / 2⌋ = 8388608 := by
    rw [Int.floor_eq_iff]
    constructor <;> norm_num
  have hr : roundHalfEven ((8388608 : ℚ) + 1 / 2) = 8388608 := by
    unfold roundHalfEven
    rw [hfl]
    norm_num
  rw [h, hr]
  norm_num

/-- The `float` counter after `k` increments `drop++` from 0: it follows `k` up to
`2^24 = 16777216` and stays there. -/
theorem iterate_drop (k : ℕ) :
    (fun d : ℚ => toFloat (d + 1))^[k] 0 = ((min k (2 ^ 24) : ℕ) : ℚ) := by
  induction k with
  | zero => simp
  | succ k ih =>
    rw [Function.iterate_succ_apply', ih]
    rcases Nat.lt_or_ge k (2 ^ 24) with h | h
    · rw [min_eq_left h.le, min_eq_left (by omega)]
      rcases Nat.lt_or_ge (k + 1) (2 ^ 24) with h2 | h2
      · have := toFloat_natCast (n := k + 1) h2
        push_cast at this ⊢
        exact this
      · have hk : k + 1 = 16777216 := by omega
        have hkq : (k : ℚ) + 1 = 16777216 := by exact_mod_cast hk
        rw [hkq, toFloat_two_pow]
        exact_mod_cast hk.symm
    · rw [min_eq_right h, min_eq_right (by omega)]
      have : (((2 ^ 24 : ℕ) : ℕ) : ℚ) = 16777216 := by norm_num
      rw [this]
      exact toFloat_two_pow_succ

theorem compressBody_ok (readTile : ℕ → ℕ → Option (List ℕ)) (writeTile : ℕ → ℕ → List ℕ → Bool)
    (ts x y : ℕ) (st : CompressState) (t : List ℕ) (hrd : readTile x y = some t)
    (hwr : ∀ b, writeTile x y b = true) :
    ∃ st1, compressBody readTile writeTile ts x y st = Except.ok st1 ∧
      st1.num_tiles = st.num_tiles + 1 ∧
      st1.drop = (if keepTile (ts / 2) t then st.drop else toFloat (st.drop + 1)) ∧
      st1.written.map Prod.fst = st.written.map Prod.fst ++ [(x, y)] := by
  cases hk : keepTile (ts / 2) t
  · exact ⟨_, by simp only [compressBody, compressTile, hrd, hwr, hk, if_true]; rfl, rfl,
      by simp, by simp⟩
  · exact ⟨_, by simp only [compressBody, compressTile, hrd, hwr, hk, if_true]; rfl, rfl,
      by simp, by simp⟩

theorem foldlM_compressBody (readTile : ℕ → ℕ → Option (List ℕ))
    (writeTile : ℕ → ℕ → List ℕ → Bool) (ts : ℕ) (coords : List (ℕ × ℕ))
    (hrd : ∀ c ∈ coords, ∃ t, readTile c.1 c.2 = some t)
    (hwr : ∀ c ∈ coords, ∀ b, writeTile c.1 c.2 b = true) (st : CompressState) :
    ∃ st1, List.foldlM (fun s c => compressBody readTile writeTile ts c.1 c.2 s) st coords
        = Except.ok st1 ∧
      st1.num_tiles = st.num_tiles + coords.length ∧
      st1.drop = (fun d : ℚ => toFloat (d + 1))^[(coords.filter fun c =>
        !keepTile (ts / 2) (tileAt readTile c)).length] st.drop ∧
      st1.written.map Prod.fst = st.written.map Prod.fst ++ coords := by
  induction coords generalizing st with
  | nil => exact ⟨st, rfl, by simp, by simp, by simp⟩
  | cons c rest ih =>
    obtain ⟨t, ht⟩ := hrd c (List.mem_cons_self _ _)
    obtain ⟨s1, hs1, hn1, hd1, hw1⟩ := compressBody_ok readTile writeTile ts c.1 c.2 st t ht
      (hwr c (List.mem_cons_self _ _))
    obtain ⟨s2, hs2, hn2, hd2, hw2⟩ := ih (fun c2 hc2 => hrd c2 (List.mem_cons_of_mem _ hc2))
      (fun c2 hc2 => hwr c2 (List.mem_cons_of_mem _ hc2)) s1
    refine ⟨s2, ?_, ?_, ?_, ?_⟩
    · rw [List.foldlM_cons, hs1]
      exact hs2
    · rw [hn2, hn1, List.length_cons]; omega
    · have htile : tileAt readTile c = t := by unfold tileAt; rw [ht]; rfl
      rw [hd2, hd1, List.filter_cons, htile]
      cases hk : keepTile (ts / 2) t
      · simp only [Bool.not_false, if_true, List.length_cons, Function.iterate_succ_apply]
        simp
      · simp
    · rw [hw2, hw1]; simp

theorem failsBoth_eq {arrSize : ℕ} {itile : List ℕ} (h : itile.length = arrSize)
    (hpos : 0 < arrSize) (hsz : arrSize < 2 ^ 31) (h16 : ∀ v ∈ itile, v < 2 ^ 16) :
    failsBoth itile = !keepTile arrSize itile := by
  have hiff := keepTile_iff h hpos hsz h16
  rw [Bool.eq_iff_iff]
  unfold failsBoth
  rw [decide_eq_true_iff, h, Bool.not_eq_true', ← Bool.not_eq_true, hiff]
  constructor
  · rintro ⟨h1, h2⟩ hor
    rcases hor with h3 | h3 <;> omega
  · intro hnot
    constructor
    · by_contra hc; exact hnot (Or.inl (by omega))
    · by_contra hc; exact hnot (Or.inr (by omega))

theorem failingTiles_eq (readTile : ℕ → ℕ → Option (List ℕ)) (ts : ℕ) (hpos : 0 < ts / 2)
    (hsz : ts / 2 < 2 ^ 31) (coords : List (ℕ × ℕ))
    (hrd : ∀ c ∈ coords,
      ∃ t, readTile c.1 c.2 = some t ∧ t.length = ts / 2 ∧ ∀ v ∈ t, v < 2 ^ 16) :
    failingTiles readTile coords
      = (coords.filter fun c => !keepTile (ts / 2) (tileAt readTile c)).length := by
  unfold failingTiles
  congr 1
  apply List.filter_congr
  intro c hc
  obtain ⟨t, ht, hl, h16⟩ := hrd c hc
  have htile : tileAt readTile c = t := by unfold tileAt; rw [ht]; rfl
  rw [htile]
  exact failsBoth_eq hl hpos hsz h16

/-- The state in which the tile loop of a directory ends when no read and no write
at a traversed coordinate fails. -/
theorem compressDirectory_counters (readTile : ℕ → ℕ → Option (List ℕ))
    (writeTile : ℕ → ℕ → List ℕ → Bool) (m_width m_height tilewidth tileheight ts : ℕ)
    (htw : 0 < tilewidth) (hth : 0 < tileheight) (hw : m_width + tilewidth ≤ 2 ^ 64)
    (hh : m_height + tileheight ≤ 2 ^ 64) (hpos : 0 < ts / 2) (hsz : ts / 2 < 2 ^ 31)
    (hrd : ∀ c ∈ rowMajorCoords m_width m_height tilewidth tileheight,
      ∃ t, readTile c.1 c.2 = some t ∧ t.length = ts / 2 ∧ ∀ v ∈ t, v < 2 ^ 16)
    (hwr : ∀ c ∈ rowMajorCoords m_width m_height tilewidth tileheight,
      ∀ b, writeTile c.1 c.2 b = true) :
    ∃ st, compressDirectory readTile writeTile m_width m_height tilewidth tileheight ts
        = some (Except.ok st) ∧
      st.num_tiles = (rowMajorCoords m_width m_height tilewidth tileheight).length ∧
      st.drop = ((min (failingTiles readTile
        (rowMajorCoords m_width m_height tilewidth tileheight)) (2 ^ 24) : ℕ) : ℚ) ∧
      st.written.map Prod.fst = rowMajorCoords m_width m_height tilewidth tileheight := by
  obtain ⟨st, hst, hn, hd, hwc⟩ := foldlM_compressBody readTile writeTile ts
    (rowMajorCoords m_width m_height tilewidth tileheight)
    (fun c hc => (hrd c hc).imp fun _ h => h.1) hwr (compressInit ts)
  refine ⟨st, ?_, ?_, ?_, ?_⟩
  · unfold compressDirectory
    rw [tileLoop_eq_foldlM _ _ _ _ _ htw hth hw hh, hst]
  · rw [hn]; simp [compressInit]
  · rw [hd, failingTiles_eq readTile ts hpos hsz _ hrd]
    exact iterate_drop _
  · rw [hwc]; simp [compressInit]

theorem failingTiles_le (readTile : ℕ → ℕ → Option (List ℕ)) (coords : List (ℕ × ℕ)) :
    failingTiles readTile coords ≤ coords.length :=
  List.length_filter_le _ _

/-- Claim C14, as the code has it: in a directory that `Compress` processes without
an I/O failure at the traversed coordinates, the drop counter and the tile counter
start at 0; at the end the tile counter equals the number of coordinates traversed
and the drop counter, a `float`, equals the number of tiles failing both conditions
(integer mean < 200 and spread <= 100) capped at `2^24 = 16777216`, hence that
number itself whenever at most `2^24` tiles fail; the drop counter is at most the
tile counter, and the reported drop rate is the `float` quotient of the two
counters of that directory, which is not a number when the directory has no
tile. -/
theorem compress_drop_statistics (readTile : ℕ → ℕ → Option (List ℕ))
    (writeTile : ℕ → ℕ → List ℕ → Bool) (m_width m_height tilewidth tileheight ts : ℕ)
    (htw : 0 < tilewidth) (hth : 0 < tileheight) (hw : m_width + tilewidth ≤ 2 ^ 64)
    (hh : m_height + tileheight ≤ 2 ^ 64) (hpos : 0 < ts / 2) (hsz : ts / 2 < 2 ^ 31)
    (hrd : ∀ c ∈ rowMajorCoords m_width m_height tilewidth tileheight,
      ∃ t, readTile c.1 c.2 = some t ∧ t.length = ts / 2 ∧ ∀ v ∈ t, v < 2 ^ 16)
    (hwr : ∀ c ∈ rowMajorCoords m_width m_height tilewidth tileheight,
      ∀ b, writeTile c.1 c.2 b = true) :
    (compressInit ts).drop = 0 ∧ (compressInit ts).num_tiles = 0 ∧
    ∃ st, compressDirectory readTile writeTile m_width m_height tilewidth tileheight ts
        = some (Except.ok st) ∧
      st.num_tiles = (rowMajorCoords m_width m_height tilewidth tileheight).length ∧
      st.num_tiles = ceilDiv m_height tileheight * ceilDiv m_width tilewidth ∧
      st.drop = ((min (failingTiles readTile
        (rowMajorCoords m_width m_height tilewidth tileheight)) (2 ^ 24) : ℕ) : ℚ) ∧
      (failingTiles readTile (rowMajorCoords m_width m_height tilewidth tileheight) ≤ 2 ^ 24 →
        st.drop = (failingTiles readTile
          (rowMajorCoords m_width m_height tilewidth tileheight) : ℚ)) ∧
      st.drop ≤ (st.num_tiles : ℚ) ∧
      (0 < m_width → 0 < m_height →
        dropRate st = some (toFloat (((min (failingTiles readTile
            (rowMajorCoords m_width m_height tilewidth tileheight)) (2 ^ 24) : ℕ) : ℚ)
          / toFloat ((rowMajorCoords m_width m_height tilewidth tileheight).length : ℚ)))) ∧
      (m_width = 0 ∨ m_height = 0 → st.num_tiles = 0 ∧ st.drop = 0 ∧ dropRate st = none) := by
  obtain ⟨st, hst, hn, hd, _⟩ := compressDirectory_counters readTile writeTile m_width m_height
    tilewidth tileheight ts htw hth hw hh hpos hsz hrd hwr
  have hlen := length_rowMajorCoords m_width m_height tilewidth tileheight
  have hF := failingTiles_le readTile (rowMajorCoords m_width m_height tilewidth tileheight)
  refine ⟨rfl, rfl, st, hst, hn, by rw [hn, hlen], hd, ?_, ?_, ?_, ?_⟩
  · intro hle
    rw [hd, min_eq_left hle]
  · rw [hd, hn]
    have h2 : min (failingTiles readTile (rowMajorCoords m_width m_height tilewidth tileheight))
        (2 ^ 24) ≤ (rowMajorCoords m_width m_height tilewidth tileheight).length :=
      le_trans (min_le_left _ _) hF
    exact_mod_cast h2
  · intro hwpos hhpos
    have h1 : 0 < ceilDiv m_width tilewidth := (lt_ceilDiv_iff htw).mpr (by simpa using hwpos)
    have h2 : 0 < ceilDiv m_height tileheight := (lt_ceilDiv_iff hth).mpr (by simpa using hhpos)
    have hne : st.num_tiles ≠ 0 := by
      rw [hn, hlen]
      exact Nat.mul_ne_zero (by omega) (by omega)
    unfold dropRate
    rw [if_neg hne, hd, hn]
  · intro hz
    have hzero : (rowMajorCoords m_width m_height tilewidth tileheight).length = 0 := by
      rw [hlen]
      rcases hz with h | h
      · have : ceilDiv m_width tilewidth = 0 := by
          by_contra hc
          have := (lt_ceilDiv_iff (a := m_width) (i := 0) htw).mp (by omega)
          omega
        rw [this, Nat.mul_zero]
      · have : ceilDiv m_height tileheight = 0 := by
          by_contra hc
          have := (lt_ceilDiv_iff (a := m_height) (i := 0) hth).mp (by omega)
          omega
        rw [this, Nat.zero_mul]
    have hn0 : st.num_tiles = 0 := by rw [hn, hzero]
    refine ⟨hn0, ?_, ?_⟩
    · rw [hd]
      have : failingTiles readTile (rowMajorCoords m_width m_height tilewidth tileheight) = 0 := by
        omega
      rw [this]
      simp
    · unfold dropRate
      rw [if_pos hn0]

theorem mem_rowMajorCoords_lt {width height tileWidth tileHeight : ℕ} (htw : 0 < tileWidth)
    (hth : 0 < tileHeight) {c : ℕ × ℕ}
    (hc : c ∈ rowMajorCoords width height tileWidth tileHeight) : c.1 < width ∧ c.2 < height := by
  obtain ⟨j, hj, i, hi, rfl⟩ := mem_rowMajorCoords.mp hc
  exact ⟨(lt_ceilDiv_iff htw).mp hi, (lt_ceilDiv_iff hth).mp hj⟩

theorem zeroImageReadTile_inside {m_width m_height x y : ℕ} (hx : x < m_width)
    (hy : y < m_height) : zeroImageReadTile m_width m_height x y = some (List.replicate 256 0) := by
  unfold zeroImageReadTile
  rw [if_pos ⟨hx, hy⟩]

theorem zeroImageReadTile_spec (m_width m_height tilewidth tileheight : ℕ) (htw : 0 < tilewidth)
    (hth : 0 < tileheight) :
    ∀ c ∈ rowMajorCoords m_width m_height tilewidth tileheight,
      ∃ t, zeroImageReadTile m_width m_height c.1 c.2 = some t ∧ t.length = 512 / 2 ∧
        ∀ v ∈ t, v < 2 ^ 16 := by
  intro c hc
  obtain ⟨hx, hy⟩ := mem_rowMajorCoords_lt htw hth hc
  exact ⟨List.replicate 256 0, zeroImageReadTile_inside hx hy, List.length_replicate _ _,
    fun v hv => by rw [(List.mem_replicate.mp hv).2]; norm_num⟩

theorem compress_drop_statistics_witness :
    (0 : ℕ) < 16 ∧ (32 : ℕ) + 16 ≤ 2 ^ 64 ∧ (16 : ℕ) + 16 ≤ 2 ^ 64 ∧ 0 < 512 / 2 ∧
    512 / 2 < 2 ^ 31 ∧
    (∀ c ∈ rowMajorCoords 32 16 16 16,
      ∃ t, zeroImageReadTile 32 16 c.1 c.2 = some t ∧ t.length = 512 / 2 ∧
        ∀ v ∈ t, v < 2 ^ 16) ∧
    zeroImageReadTile 32 16 32 0 = none ∧
    (∃ st, compressDirectory (zeroImageReadTile 32 16) (fun _ _ _ => true) 32 16 16 16 512
        = some (Except.ok st) ∧
      st.num_tiles = (rowMajorCoords 32 16 16 16).length ∧
      st.drop ≤ (st.num_tiles : ℚ) ∧
      dropRate st = some (toFloat (((min (failingTiles (zeroImageReadTile 32 16)
          (rowMajorCoords 32 16 16 16)) (2 ^ 24) : ℕ) : ℚ)
        / toFloat ((rowMajorCoords 32 16 16 16).length : ℚ)))) ∧
    (∃ st, compressDirectory (zeroImageReadTile 0 16) (fun _ _ _ => true) 0 16 16 16 512
        = some (Except.ok st) ∧
      st.num_tiles = 0 ∧ st.drop = 0 ∧ dropRate st = none) :=
  ⟨by decide, by norm_num, by norm_num, by norm_num, by norm_num,
    zeroImageReadTile_spec 32 16 16 16 (by decide) (by decide), by decide,
    (compress_drop_statistics (zeroImageReadTile 32 16) (fun _ _ _ => true) 32 16 16 16 512
      (by decide) (by decide) (by norm_num) (by norm_num) (by norm_num) (by norm_num)
      (zeroImageReadTile_spec 32 16 16 16 (by decide) (by decide))
      (fun _ _ _ => rfl)).2.2.imp fun _ h =>
        ⟨h.1, h.2.1, h.2.2.2.2.2.1, h.2.2.2.2.2.2.1 (by decide) (by decide)⟩,
    (compress_drop_statistics (zeroImageReadTile 0 16) (fun _ _ _ => true) 0 16 16 16 512
      (by decide) (by decide) (by norm_num) (by norm_num) (by norm_num) (by norm_num)
      (zeroImageReadTile_spec 0 16 16 16 (by decide) (by decide))
      (fun _ _ _ => rfl)).2.2.imp fun _ h => ⟨h.1, h.2.2.2.2.2.2.2 (Or.inl rfl)⟩⟩

theorem failsBoth_zero_tile : failsBoth (List.replicate 256 0) = true := by
  rw [failsBoth_eq (List.length_replicate 256 0) (by norm_num) (by norm_num)
    (fun v hv => by rw [(List.mem_replicate.mp hv).2]; norm_num),
    keepTile_replicate (by norm_num) (by norm_num) (by norm_num)]
  decide

theorem failingTiles_zero (m_width m_height tilewidth tileheight : ℕ) (htw : 0 < tilewidth)
    (hth : 0 < tileheight) :
    failingTiles (zeroImageReadTile m_width m_height)
        (rowMajorCoords m_width m_height tilewidth tileheight)
      = (rowMajorCoords m_width m_height tilewidth tileheight).length := by
  unfold failingTiles
  congr 1
  rw [List.filter_eq_self]
  intro c hc
  obtain ⟨hx, hy⟩ := mem_rowMajorCoords_lt htw hth hc
  unfold tileAt
  rw [zeroImageReadTile_inside hx hy]
  exact failsBoth_zero_tile

/-- Claim C14 fails as stated: in a 65552 x 65536 directory of 16 x 16 tiles that
are all zero, every one of the 16781312 tiles fails both conditions and the tile
counter ends at 16781312, but the `float` drop counter ends at 16777216. -/
theorem compress_drop_counter_counterexample :
    failingTiles (zeroImageReadTile 65552 65536) (rowMajorCoords 65552 65536 16 16)
      = 16781312 ∧
    ∃ st, compressDirectory (zeroImageReadTile 65552 65536) (fun _ _ _ => true)
        65552 65536 16 16 512 = some (Except.ok st) ∧
      st.num_tiles = 16781312 ∧ st.drop = 16777216 := by
  have hlen : (rowMajorCoords 65552 65536 16 16).length = 16781312 := by
    rw [length_rowMajorCoords]
    norm_num [ceilDiv]
  have hF : failingTiles (zeroImageReadTile 65552 65536) (rowMajorCoords 65552 65536 16 16)
      = 16781312 := by
    rw [failingTiles_zero _ _ _ _ (by decide) (by decide), hlen]
  obtain ⟨st, hst, hn, hd, _⟩ := compressDirectory_counters (zeroImageReadTile 65552 65536)
    (fun _ _ _ => true) 65552 65536 16 16 512 (by decide) (by decide) (by norm_num)
    (by norm_num) (by norm_num) (by norm_num)
    (zeroImageReadTile_spec 65552 65536 16 16 (by decide) (by decide)) (fun _ _ _ => rfl)
  refine ⟨hF, st, hst, by rw [hn, hlen], ?_⟩
  rw [hd, hF]
  norm_num

/-! ## The directories of `MergeGrayToRGB` -/

theorem dir_take (tif : TiffIn) (n i : ℕ) (h : i < n) :
    (TiffIn.mk (tif.dirs.take n) tif.current).dir i = tif.dir i := by
  unfold TiffIn.dir
  simp only [List.getD_eq_getElem?_getD, List.getElem?_take, h, if_true]

theorem mergeTileBody_congr (tif1 tif2 : TiffIn) (h0 : tif1.dir 0 = tif2.dir 0)
    (h1 : tif1.dir 1 = tif2.dir 1) (h2 : tif1.dir 2 = tif2.dir 2) :
    mergeTileBody tif1 = mergeTileBody tif2 := by
  funext writeTile x y st
  simp only [mergeTileBody, h0, h1, h2]

theorem mergeLineBody_congr (tif1 tif2 : TiffIn) (h0 : tif1.dir 0 = tif2.dir 0)
    (h1 : tif1.dir 1 = tif2.dir 1) (h2 : tif1.dir 2 = tif2.dir 2) :
    mergeLineBody tif1 = mergeLineBody tif2 := by
  funext writeScanline st y
  simp only [mergeLineBody, h0, h1, h2]

theorem readInto_full {buf data : List ℕ} (h : data.length = buf.length) :
    readInto buf data = data := by
  unfold readInto
  rw [List.take_of_length_le h.le, List.drop_of_length_le h.ge, List.append_nil]

theorem mergeTileBody_ok (tif : TiffIn) (writeTile : ℕ → ℕ → List ℕ → Bool) (x y : ℕ)
    (st : MergeState) (rdata gdata bdata : List ℕ)
    (h0 : (tif.dir 0).readTile x y = some rdata) (h1 : (tif.dir 1).readTile x y = some gdata)
    (h2 : (tif.dir 2).readTile x y = some bdata) (hwr : ∀ buf, writeTile x y buf = true) :
    mergeTileBody tif writeTile x y st
      = Except.ok ⟨readInto st.r_tile rdata, readInto st.g_tile gdata, readInto st.b_tile bdata,
          mergeTile (tif.dir 2).tileSize (readInto st.r_tile rdata) (readInto st.g_tile gdata)
            (readInto st.b_tile bdata) st.o_tile,
          st.reads ++ [(0, x, y), (1, x, y), (2, x, y)],
          st.written ++ [((x, y), mergeTile (tif.dir 2).tileSize (readInto st.r_tile rdata)
            (readInto st.g_tile gdata) (readInto st.b_tile bdata) st.o_tile)]⟩ := by
  simp only [mergeTileBody, h0, h1, h2, hwr, if_true, List.append_assoc, List.singleton_append,
    List.cons_append, List.nil_append]

theorem mergeLineBody_ok (tif : TiffIn) (writeScanline : ℕ → List ℕ → Bool) (y : ℕ)
    (st : MergeState) (rdata gdata bdata : List ℕ)
    (h0 : (tif.dir 0).readScanline y = some rdata) (h1 : (tif.dir 1).readScanline y = some gdata)
    (h2 : (tif.dir 2).readScanline y = some bdata) (hwr : ∀ buf, writeScanline y buf = true) :
    mergeLineBody tif writeScanline st y
      = Except.ok ⟨readInto st.r_tile rdata, readInto st.g_tile gdata, readInto st.b_tile bdata,
          mergeScanline (tif.dir 2).scanlineSize (readInto st.r_tile rdata)
            (readInto st.g_tile gdata) (readInto st.b_tile bdata) st.o_tile,
          st.reads ++ [(0, 0, y), (1, 0, y), (2, 0, y)],
          st.written ++ [((0, y), mergeScanline (tif.dir 2).scanlineSize
            (readInto st.r_tile rdata) (readInto st.g_tile gdata) (readInto st.b_tile bdata)
            st.o_tile)]⟩ := by
  simp only [mergeLineBody, h0, h1, h2, hwr, if_true, List.append_assoc, List.singleton_append,
    List.cons_append, List.nil_append]

theorem isSome_of_length {o : Option (List ℕ)} {n : ℕ} (h : o.map List.length = some n) :
    ∃ t, o = some t ∧ t.length = n := by
  cases o with
  | none => simp at h
  | some t => exact ⟨t, rfl, by simpa using h⟩

theorem foldlM_mergeTileBody_coords (tif : TiffIn) (writeTile : ℕ → ℕ → List ℕ → Bool)
    (coords : List (ℕ × ℕ))
    (hrd : ∀ c ∈ coords, ∀ d, d < 3 → ((tif.dir d).readTile c.1 c.2).isSome = true)
    (hwr : ∀ c ∈ coords, ∀ buf, writeTile c.1 c.2 buf = true) (st : MergeState) :
    ∃ st1, List.foldlM (fun s c => mergeTileBody tif writeTile c.1 c.2 s) st coords
        = Except.ok st1 ∧
      st1.reads = st.reads ++ coords.flatMap
        (fun c => [(0, c.1, c.2), (1, c.1, c.2), (2, c.1, c.2)]) ∧
      st1.written.map Prod.fst = st.written.map Prod.fst ++ coords := by
  induction coords generalizing st with
  | nil => exact ⟨st, rfl, by simp, by simp⟩
  | cons c rest ih =>
    obtain ⟨rdata, h0⟩ := Option.isSome_iff_exists.mp (hrd c (List.mem_cons_self _ _) 0 (by omega))
    obtain ⟨gdata, h1⟩ := Option.isSome_iff_exists.mp (hrd c (List.mem_cons_self _ _) 1 (by omega))
    obtain ⟨bdata, h2⟩ := Option.isSome_iff_exists.mp (hrd c (List.mem_cons_self _ _) 2 (by omega))
    have hb := mergeTileBody_ok tif writeTile c.1 c.2 st rdata gdata bdata h0 h1 h2
      (hwr c (List.mem_cons_self _ _))
    obtain ⟨st2, hs2, hr2, hw2⟩ := ih (fun c2 hc2 => hrd c2 (List.mem_cons_of_mem _ hc2))
      (fun c2 hc2 => hwr c2 (List.mem_cons_of_mem _ hc2)) _
    refine ⟨st2, ?_, ?_, ?_⟩
    · rw [List.foldlM_cons, hb]
      exact hs2
    · rw [hr2]; simp
    · rw [hw2]; simp

theorem foldlM_mergeTileBody_content (tif : TiffIn) (writeTile : ℕ → ℕ → List ℕ → Bool)
    (n : ℕ) (coords : List (ℕ × ℕ)) (hts : (tif.dir 2).tileSize = n)
    (hrd : ∀ c ∈ coords, ∀ d, d < 3 →
      ((tif.dir d).readTile c.1 c.2).map List.length = some n)
    (hwr : ∀ c ∈ coords, ∀ buf, writeTile c.1 c.2 buf = true) (st : MergeState)
    (hr : st.r_tile.length = n) (hg : st.g_tile.length = n) (hb : st.b_tile.length = n)
    (ho : st.o_tile.length = n * 3) :
    ∃ st1, List.foldlM (fun s c => mergeTileBody tif writeTile c.1 c.2 s) st coords
        = Except.ok st1 ∧
      st1.reads = st.reads ++ coords.flatMap
        (fun c => [(0, c.1, c.2), (1, c.1, c.2), (2, c.1, c.2)]) ∧
      st1.written = st.written ++ coords.map (fun c =>
        (c, interleaved (tileAt (tif.dir 0).readTile c) (tileAt (tif.dir 1).readTile c)
          (tileAt (tif.dir 2).readTile c))) := by
  induction coords generalizing st with
  | nil => exact ⟨st, rfl, by simp, by simp⟩
  | cons c rest ih =>
    obtain ⟨rdata, h0, l0⟩ := isSome_of_length (hrd c (List.mem_cons_self _ _) 0 (by omega))
    obtain ⟨gdata, h1, l1⟩ := isSome_of_length (hrd c (List.mem_cons_self _ _) 1 (by omega))
    obtain ⟨bdata, h2, l2⟩ := isSome_of_length (hrd c (List.mem_cons_self _ _) 2 (by omega))
    have hbody := mergeTileBody_ok tif writeTile c.1 c.2 st rdata gdata bdata h0 h1 h2
      (hwr c (List.mem_cons_self _ _))
    rw [readInto_full (l0.trans hr.symm), readInto_full (l1.trans hg.symm),
      readInto_full (l2.trans hb.symm), hts,
      mergeTile_eq_interleaved n rdata gdata bdata st.o_tile l0 l1 l2 ho] at hbody
    obtain ⟨st2, hs2, hr2, hw2⟩ := ih (fun c2 hc2 => hrd c2 (List.mem_cons_of_mem _ hc2))
      (fun c2 hc2 => hwr c2 (List.mem_cons_of_mem _ hc2))
      ⟨rdata, gdata, bdata, interleaved rdata gdata bdata,
        st.reads ++ [(0, c.1, c.2), (1, c.1, c.2), (2, c.1, c.2)],
        st.written ++ [((c.1, c.2), interleaved rdata gdata bdata)]⟩ l0 l1 l2
      (by rw [(interleaved_spec n rdata gdata bdata l0 l1 l2).1]; omega)
    refine ⟨st2, ?_, ?_, ?_⟩
    · rw [List.foldlM_cons, hbody]
      exact hs2
    · rw [hr2]; simp
    · rw [hw2]
      simp [tileAt, h0, h1, h2]

theorem foldlM_mergeLineBody_content (tif : TiffIn) (writeScanline : ℕ → List ℕ → Bool)
    (n : ℕ) (rows : List ℕ) (hts : (tif.dir 2).scanlineSize = n)
    (hrd : ∀ y ∈ rows, ∀ d, d < 3 → ((tif.dir d).readScanline y).map List.length = some n)
    (hwr : ∀ y ∈ rows, ∀ buf, writeScanline y buf = true) (st : MergeState)
    (hr : st.r_tile.length = n) (hg : st.g_tile.length = n) (hb : st.b_tile.length = n)
    (ho : st.o_tile.length = n * 3) :
    ∃ st1, List.foldlM (mergeLineBody tif writeScanline) st rows = Except.ok st1 ∧
      st1.reads = st.reads ++ rows.flatMap (fun y => [(0, 0, y), (1, 0, y), (2, 0, y)]) ∧
      st1.written = st.written ++ rows.map (fun y =>
        ((0, y), interleaved (((tif.dir 0).readScanline y).getD [])
          (((tif.dir 1).readScanline y).getD []) (((tif.dir 2).readScanline y).getD []))) := by
  induction rows generalizing st with
  | nil => exact ⟨st, rfl, by simp, by simp⟩
  | cons y rest ih =>
    obtain ⟨rdata, h0, l0⟩ := isSome_of_length (hrd y (List.mem_cons_self _ _) 0 (by omega))
    obtain ⟨gdata, h1, l1⟩ := isSome_of_length (hrd y (List.mem_cons_self _ _) 1 (by omega))
    obtain ⟨bdata, h2, l2⟩ := isSome_of_length (hrd y (List.mem_cons_self _ _) 2 (by omega))
    have hbody := mergeLineBody_ok tif writeScanline y st rdata gdata bdata h0 h1 h2
      (hwr y (List.mem_cons_self _ _))
    rw [readInto_full (l0.trans hr.symm), readInto_full (l1.trans hg.symm),
      readInto_full (l2.trans hb.symm), hts, mergeScanline_eq_mergeTile,
      mergeTile_eq_interleaved n rdata gdata bdata st.o_tile l0 l1 l2 ho] at hbody
    obtain ⟨st2, hs2, hr2, hw2⟩ := ih (fun c2 hc2 => hrd c2 (List.mem_cons_of_mem _ hc2))
      (fun c2 hc2 => hwr c2 (List.mem_cons_of_mem _ hc2))
      ⟨rdata, gdata, bdata, interleaved rdata gdata bdata,
        st.reads ++ [(0, 0, y), (1, 0, y), (2, 0, y)],
        st.written ++ [((0, y), interleaved rdata gdata bdata)]⟩ l0 l1 l2
      (by rw [(interleaved_spec n rdata gdata bdata l0 l1 l2).1]; omega)
    refine ⟨st2, ?_, ?_, ?_⟩
    · rw [List.foldlM_cons, hbody]
      exact hs2
    · rw [hr2]; simp
    · rw [hw2]
      simp [h0, h1, h2]

theorem mergeGray_tiled_coords (tif : TiffIn) (writeTile : ℕ → ℕ → List ℕ → Bool)
    (writeScanline : ℕ → List ℕ → Bool) (m_width m_height tilewidth tileheight : ℕ)
    (hlen : 3 ≤ tif.dirs.length)
    (hgray : gray8 (tif.dir 0) = true ∧ gray8 (tif.dir 1) = true ∧ gray8 (tif.dir 2) = true)
    (hw : (tif.dir 2).imageWidth = some m_width) (hh : (tif.dir 2).imageLength = some m_height)
    (htiled : (tif.dir 0).isTiled = true) (htw : (tif.dir 0).tileWidth = some tilewidth)
    (hth : (tif.dir 0).tileLength = some tileheight)
    (hts : (tif.dir 1).tileSize = (tif.dir 0).tileSize)
    (hpw : 0 < tilewidth) (hph : 0 < tileheight) (hbw : m_width + tilewidth ≤ 2 ^ 64)
    (hbh : m_height + tileheight ≤ 2 ^ 64)
    (hrd : ∀ c ∈ rowMajorCoords m_width m_height tilewidth tileheight, ∀ d, d < 3 →
      ((tif.dir d).readTile c.1 c.2).isSome = true)
    (hwr : ∀ c ∈ rowMajorCoords m_width m_height tilewidth tileheight,
      ∀ buf, writeTile c.1 c.2 buf = true) :
    ∃ res, MergeGrayToRGB tif writeTile writeScanline = some res ∧
      res.outcome = Outcome.returned 0 ∧
      res.reads = (rowMajorCoords m_width m_height tilewidth tileheight).flatMap
        (fun c => [(0, c.1, c.2), (1, c.1, c.2), (2, c.1, c.2)]) ∧
      res.written.map Prod.fst = rowMajorCoords m_width m_height tilewidth tileheight := by
  obtain ⟨st1, hs1, hr1, hw1⟩ := foldlM_mergeTileBody_coords tif writeTile _ hrd hwr
    ⟨List.replicate (tif.dir 0).tileSize 0, List.replicate (tif.dir 0).tileSize 0,
      List.replicate (tif.dir 0).tileSize 0, List.replicate ((tif.dir 0).tileSize * 3) 0, [], []⟩
  refine ⟨⟨Outcome.returned 0, st1.reads, st1.written⟩, ?_, rfl, by rw [hr1]; rfl,
    by rw [hw1]; rfl⟩
  unfold MergeGrayToRGB
  simp only [not_lt.mpr hlen, if_false, hgray, and_self, not_true_eq_false, hw, hh, htiled,
    if_true, htw, hth, hts]
  rw [tileLoop_eq_foldlM _ _ _ _ _ hpw hph hbw hbh, hs1]
  rfl

theorem mergeGray_tiled_run (tif : TiffIn) (writeTile : ℕ → ℕ → List ℕ → Bool)
    (writeScanline : ℕ → List ℕ → Bool) (m_width m_height tilewidth tileheight n : ℕ)
    (hlen : 3 ≤ tif.dirs.length)
    (hgray : gray8 (tif.dir 0) = true ∧ gray8 (tif.dir 1) = true ∧ gray8 (tif.dir 2) = true)
    (hw : (tif.dir 2).imageWidth = some m_width) (hh : (tif.dir 2).imageLength = some m_height)
    (htiled : (tif.dir 0).isTiled = true) (htw : (tif.dir 0).tileWidth = some tilewidth)
    (hth : (tif.dir 0).tileLength = some tileheight)
    (hts : ∀ d, d < 3 → (tif.dir d).tileSize = n)
    (hpw : 0 < tilewidth) (hph : 0 < tileheight) (hbw : m_width + tilewidth ≤ 2 ^ 64)
    (hbh : m_height + tileheight ≤ 2 ^ 64)
    (hrd : ∀ c ∈ rowMajorCoords m_width m_height tilewidth tileheight, ∀ d, d < 3 →
      ((tif.dir d).readTile c.1 c.2).map List.length = some n)
    (hwr : ∀ c ∈ rowMajorCoords m_width m_height tilewidth tileheight,
      ∀ buf, writeTile c.1 c.2 buf = true) :
    MergeGrayToRGB tif writeTile writeScanline
      = some ⟨Outcome.returned 0,
          (rowMajorCoords m_width m_height tilewidth tileheight).flatMap
            (fun c => [(0, c.1, c.2), (1, c.1, c.2), (2, c.1, c.2)]),
          (rowMajorCoords m_width m_height tilewidth tileheight).map (fun c =>
            (c, interleaved (tileAt (tif.dir 0).readTile c) (tileAt (tif.dir 1).readTile c)
              (tileAt (tif.dir 2).readTile c)))⟩ := by
  have h0 := hts 0 (by omega)
  have h1 := hts 1 (by omega)
  obtain ⟨st1, hs1, hr1, hw1⟩ := foldlM_mergeTileBody_content tif writeTile n _ (hts 2 (by omega))
    hrd hwr ⟨List.replicate n 0, List.replicate n 0, List.replicate n 0,
      List.replicate (n * 3) 0, [], []⟩ (List.length_replicate _ _) (List.length_replicate _ _)
    (List.length_replicate _ _) (List.length_replicate _ _)
  unfold MergeGrayToRGB
  simp only [not_lt.mpr hlen, if_false, hgray, and_self, not_true_eq_false, hw, hh, htiled,
    if_true, htw, hth, h0, h1]
  rw [tileLoop_eq_foldlM _ _ _ _ _ hpw hph hbw hbh, hs1]
  simp only [Option.map_some', finishRun, hr1, hw1, List.nil_append]

theorem mergeGray_scanline_run (tif : TiffIn) (writeTile : ℕ → ℕ → List ℕ → Bool)
    (writeScanline : ℕ → List ℕ → Bool) (m_width m_height n : ℕ)
    (hlen : 3 ≤ tif.dirs.length)
    (hgray : gray8 (tif.dir 0) = true ∧ gray8 (tif.dir 1) = true ∧ gray8 (tif.dir 2) = true)
    (hw : (tif.dir 2).imageWidth = some m_width) (hh : (tif.dir 2).imageLength = some m_height)
    (htiled : (tif.dir 0).isTiled = false)
    (hts : ∀ d, d < 3 → (tif.dir d).scanlineSize = n)
    (hrd : ∀ y ∈ List.range m_height, ∀ d, d < 3 →
      ((tif.dir d).readScanline y).map List.length = some n)
    (hwr : ∀ y ∈ List.range m_height, ∀ buf, writeScanline y buf = true) :
    MergeGrayToRGB tif writeTile writeScanline
      = some ⟨Outcome.returned 0,
          (List.range m_height).flatMap (fun y => [(0, 0, y), (1, 0, y), (2, 0, y)]),
          (List.range m_height).map (fun y =>
            ((0, y), interleaved (((tif.dir 0).readScanline y).getD [])
              (((tif.dir 1).readScanline y).getD []) (((tif.dir 2).readScanline y).getD [])))⟩ := by
  have h0 := hts 0 (by omega)
  have h1 := hts 1 (by omega)
  have h2 := hts 2 (by omega)
  obtain ⟨st1, hs1, hr1, hw1⟩ := foldlM_mergeLineBody_content tif writeScanline n _ h2
    hrd hwr ⟨List.replicate n 0, List.replicate n 0, List.replicate n 0,
      List.replicate (n * 3) 0, [], []⟩ (List.length_replicate _ _) (List.length_replicate _ _)
    (List.length_replicate _ _) (List.length_replicate _ _)
  unfold MergeGrayToRGB
  simp only [not_lt.mpr hlen, if_false, hgray, and_self, not_true_eq_false, hw, hh, htiled,
    Bool.false_eq_true, h0, h1, h2, hs1, finishRun, hr1, hw1, List.nil_append]

theorem tileAt_length {readTile : ℕ → ℕ → Option (List ℕ)} {c : ℕ × ℕ} {n : ℕ}
    (h : (readTile c.1 c.2).map List.length = some n) : (tileAt readTile c).length = n := by
  obtain ⟨t, ht, hl⟩ := isSome_of_length h
  unfold tileAt
  rw [ht]
  exact hl

theorem deinterleave_interleaved (n : ℕ) (r g b : List ℕ) (hr : r.length = n)
    (hg : g.length = n) (hb : b.length = n) :
    (interleaved r g b).length = 3 * n ∧
    deinterleave n 0 (interleaved r g b) = r ∧
    deinterleave n 1 (interleaved r g b) = g ∧
    deinterleave n 2 (interleaved r g b) = b := by
  obtain ⟨hl, hi⟩ := interleaved_spec n r g b hr hg hb
  exact ⟨hl, deinterleave_eq n 0 _ r hr fun i h => (hi i h).1,
    deinterleave_eq n 1 _ g hg fun i h => (hi i h).2.1,
    deinterleave_eq n 2 _ b hb fun i h => (hi i h).2.2⟩

/-- Claim C10: in a run of `MergeGrayToRGB` on three 8-bit grayscale directories in
which each read delivers a buffer of `n` bytes, `n` the tile size (tiled path) or
the scanline size (scanline path) of the three directories, and no read or write
fails, the buffer written for a tile coordinate, respectively for a row, is the
interleave of the three buffers read there from directories 0, 1 and 2: it has
length `3 n`, and de-interleaving it returns the three buffers read.  The
interleave of `r`, `g`, `b` of length `n` has length `3 n` with `out[3i] = r[i]`,
`out[3i+1] = g[i]`, `out[3i+2] = b[i]` for every `i < n`, so de-interleaving it
returns `r`, `g` and `b`; the tiled and the scanline path write the same
interleave. -/
theorem mergeGray_writes_interleave (tif : TiffIn) (writeTile : ℕ → ℕ → List ℕ → Bool)
    (writeScanline : ℕ → List ℕ → Bool) (m_width m_height n : ℕ)
    (hlen : 3 ≤ tif.dirs.length)
    (hgray : gray8 (tif.dir 0) = true ∧ gray8 (tif.dir 1) = true ∧ gray8 (tif.dir 2) = true)
    (hw : (tif.dir 2).imageWidth = some m_width) (hh : (tif.dir 2).imageLength = some m_height) :
    (∀ tilewidth tileheight : ℕ, (tif.dir 0).isTiled = true →
      (tif.dir 0).tileWidth = some tilewidth → (tif.dir 0).tileLength = some tileheight →
      0 < tilewidth → 0 < tileheight → m_width + tilewidth ≤ 2 ^ 64 →
      m_height + tileheight ≤ 2 ^ 64 → (∀ d, d < 3 → (tif.dir d).tileSize = n) →
      (∀ c ∈ rowMajorCoords m_width m_height tilewidth tileheight, ∀ d, d < 3 →
        ((tif.dir d).readTile c.1 c.2).map List.length = some n) →
      (∀ c ∈ rowMajorCoords m_width m_height tilewidth tileheight,
        ∀ buf, writeTile c.1 c.2 buf = true) →
      ∃ res, MergeGrayToRGB tif writeTile writeScanline = some res ∧
        res.outcome = Outcome.returned 0 ∧
        res.written = (rowMajorCoords m_width m_height tilewidth tileheight).map (fun c =>
          (c, interleaved (tileAt (tif.dir 0).readTile c) (tileAt (tif.dir 1).readTile c)
            (tileAt (tif.dir 2).readTile c))) ∧
        ∀ p ∈ res.written, p.2.length = 3 * n ∧
          deinterleave n 0 p.2 = tileAt (tif.dir 0).readTile p.1 ∧
          deinterleave n 1 p.2 = tileAt (tif.dir 1).readTile p.1 ∧
          deinterleave n 2 p.2 = tileAt (tif.dir 2).readTile p.1) ∧
    ((tif.dir 0).isTiled = false → (∀ d, d < 3 → (tif.dir d).scanlineSize = n) →
      (∀ y ∈ List.range m_height, ∀ d, d < 3 →
        ((tif.dir d).readScanline y).map List.length = some n) →
      (∀ y ∈ List.range m_height, ∀ buf, writeScanline y buf = true) →
      ∃ res, MergeGrayToRGB tif writeTile writeScanline = some res ∧
        res.outcome = Outcome.returned 0 ∧
        res.written = (List.range m_height).map (fun y =>
          ((0, y), interleaved (((tif.dir 0).readScanline y).getD [])
            (((tif.dir 1).readScanline y).getD []) (((tif.dir 2).readScanline y).getD []))) ∧
        ∀ p ∈ res.written, p.2.length = 3 * n ∧
          deinterleave n 0 p.2 = ((tif.dir 0).readScanline p.1.2).getD [] ∧
          deinterleave n 1 p.2 = ((tif.dir 1).readScanline p.1.2).getD [] ∧
          deinterleave n 2 p.2 = ((tif.dir 2).readScanline p.1.2).getD []) ∧
    (∀ r g b : List ℕ, r.length = n → g.length = n → b.length = n →
      (interleaved r g b).length = 3 * n ∧
      (∀ i, i < n →
        (interleaved r g b).getD (3 * i) 0 = r.getD i 0 ∧
        (interleaved r g b).getD (3 * i + 1) 0 = g.getD i 0 ∧
        (interleaved r g b).getD (3 * i + 2) 0 = b.getD i 0) ∧
      deinterleave n 0 (interleaved r g b) = r ∧
      deinterleave n 1 (interleaved r g b) = g ∧
      deinterleave n 2 (interleaved r g b) = b) := by
  refine ⟨?_, ?_, ?_⟩
  · intro tilewidth tileheight htiled htw hth hpw hph hbw hbh hts hrd hwr
    refine ⟨_, mergeGray_tiled_run tif writeTile writeScanline m_width m_height tilewidth
      tileheight n hlen hgray hw hh htiled htw hth hts hpw hph hbw hbh hrd hwr, rfl, rfl, ?_⟩
    intro p hp
    obtain ⟨c, hc, rfl⟩ := List.mem_map.mp hp
    exact deinterleave_interleaved n _ _ _ (tileAt_length (hrd c hc 0 (by omega)))
      (tileAt_length (hrd c hc 1 (by omega))) (tileAt_length (hrd c hc 2 (by omega)))
  · intro htiled hts hrd hwr
    refine ⟨_, mergeGray_scanline_run tif writeTile writeScanline m_width m_height n hlen hgray
      hw hh htiled hts hrd hwr, rfl, rfl, ?_⟩
    intro p hp
    obtain ⟨y, hy, rfl⟩ := List.mem_map.mp hp
    have hl : ∀ d, d < 3 → (((tif.dir d).readScanline y).getD []).length = n := by
      intro d hd
      obtain ⟨t, ht, hlt⟩ := isSome_of_length (hrd y hy d hd)
      rw [ht]
      exact hlt
    exact deinterleave_interleaved n _ _ _ (hl 0 (by omega)) (hl 1 (by omega)) (hl 2 (by omega))
  · intro r g b hr hg hb
    obtain ⟨hl, hi⟩ := interleaved_spec n r g b hr hg hb
    exact ⟨hl, hi, deinterleave_eq n 0 _ r hr fun i h => (hi i h).1,
      deinterleave_eq n 1 _ g hg fun i h => (hi i h).2.1,
      deinterleave_eq n 2 _ b hb fun i h => (hi i h).2.2⟩

theorem mergeGray_writes_interleave_witness :
    3 ≤ threeTiledImage.dirs.length ∧ 3 ≤ threeLineImage.dirs.length ∧
    (∀ d, d < 3 → (threeTiledImage.dir d).tileSize = 4) ∧
    (∀ c ∈ rowMajorCoords 5 3 2 2, ∀ d, d < 3 →
      ((threeTiledImage.dir d).readTile c.1 c.2).map List.length = some 4) ∧
    (threeLineImage.dir 0).isTiled = false ∧
    (∀ d, d < 3 → (threeLineImage.dir d).scanlineSize = 2) ∧
    (∀ y ∈ List.range 1, ∀ d, d < 3 →
      ((threeLineImage.dir d).readScanline y).map List.length = some 2) ∧
    (∃ res, MergeGrayToRGB threeTiledImage (fun _ _ _ => true) (fun _ _ => true) = some res ∧
      res.outcome = Outcome.returned 0 ∧
      res.written = (rowMajorCoords 5 3 2 2).map (fun c =>
        (c, interleaved (tileAt (threeTiledImage.dir 0).readTile c)
          (tileAt (threeTiledImage.dir 1).readTile c)
          (tileAt (threeTiledImage.dir 2).readTile c)))) ∧
    (∃ res, MergeGrayToRGB threeLineImage (fun _ _ _ => true) (fun _ _ => true) = some res ∧
      res.outcome = Outcome.returned 0 ∧
      res.written = (List.range 1).map (fun y =>
        ((0, y), interleaved (((threeLineImage.dir 0).readScanline y).getD [])
          (((threeLineImage.dir 1).readScanline y).getD [])
          (((threeLineImage.dir 2).readScanline y).getD [])))) ∧
    interleaved [10, 11] [20, 21] [30, 31] = [10, 20, 30, 11, 21, 31] ∧
    deinterleave 2 1 (interleaved [10, 11] [20, 21] [30, 31]) = [20, 21] :=
  ⟨by decide, by decide, by decide, by decide, rfl, by decide, by decide,
    ((mergeGray_writes_interleave threeTiledImage (fun _ _ _ => true) (fun _ _ => true) 5 3 4
      (by decide) (by decide) rfl rfl).1 2 2 rfl rfl rfl (by decide) (by decide) (by norm_num)
      (by norm_num) (by decide) (by decide) (fun _ _ _ => rfl)).imp
      fun _ h => ⟨h.1, h.2.1, h.2.2.1⟩,
    ((mergeGray_writes_interleave threeLineImage (fun _ _ _ => true) (fun _ _ => true) 2 1 2
      (by decide) (by decide) rfl rfl).2.1 rfl (by decide) (by decide) (fun _ _ _ => rfl)).imp
      fun _ h => ⟨h.1, h.2.1, h.2.2.1⟩,
    by decide,
    ((mergeGray_writes_interleave threeLineImage (fun _ _ _ => true) (fun _ _ => true) 2 1 2
      (by decide) (by decide) rfl rfl).2.2 [10, 11] [20, 21] [30, 31] rfl rfl rfl).2.2.2.1⟩

/-- Claim C11, as the code has it: `MergeGrayToRGB` refuses to run whenever the input
image has fewer than three directories: it returns 1 before any tile or scanline
is read or written.  With three or more directories the count check passes: the
run is the run on the first three directories, further directories being ignored;
directories that are not 8-bit grayscale fail the assertion that follows the count
check; and when the three directories agree in tile size, respectively scanline
size, and no read or write fails, the run returns 0 after reading directories 0, 1
and 2 at every tile coordinate, respectively every row, and writing their
interleave there. -/
theorem mergeGray_directory_count (tif : TiffIn) (writeTile : ℕ → ℕ → List ℕ → Bool)
    (writeScanline : ℕ → List ℕ → Bool) :
    (tif.dirs.length < 3 →
      MergeGrayToRGB tif writeTile writeScanline = some ⟨Outcome.returned 1, [], []⟩) ∧
    (3 ≤ tif.dirs.length →
      MergeGrayToRGB tif writeTile writeScanline
        = MergeGrayToRGB ⟨tif.dirs.take 3, tif.current⟩ writeTile writeScanline ∧
      (¬ (gray8 (tif.dir 0) = true ∧ gray8 (tif.dir 1) = true ∧ gray8 (tif.dir 2) = true) →
        MergeGrayToRGB tif writeTile writeScanline = some ⟨Outcome.assertion, [], []⟩) ∧
      (∀ m_width m_height tilewidth tileheight n : ℕ,
        (gray8 (tif.dir 0) = true ∧ gray8 (tif.dir 1) = true ∧ gray8 (tif.dir 2) = true) →
        (tif.dir 2).imageWidth = some m_width → (tif.dir 2).imageLength = some m_height →
        (tif.dir 0).isTiled = true →
        (tif.dir 0).tileWidth = some tilewidth → (tif.dir 0).tileLength = some tileheight →
        0 < tilewidth → 0 < tileheight → m_width + tilewidth ≤ 2 ^ 64 →
        m_height + tileheight ≤ 2 ^ 64 → (∀ d, d < 3 → (tif.dir d).tileSize = n) →
        (∀ c ∈ rowMajorCoords m_width m_height tilewidth tileheight, ∀ d, d < 3 →
          ((tif.dir d).readTile c.1 c.2).map List.length = some n) →
        (∀ c ∈ rowMajorCoords m_width m_height tilewidth tileheight,
          ∀ buf, writeTile c.1 c.2 buf = true) →
        MergeGrayToRGB tif writeTile writeScanline
          = some ⟨Outcome.returned 0,
              (rowMajorCoords m_width m_height tilewidth tileheight).flatMap
                (fun c => [(0, c.1, c.2), (1, c.1, c.2), (2, c.1, c.2)]),
              (rowMajorCoords m_width m_height tilewidth tileheight).map (fun c =>
                (c, interleaved (tileAt (tif.dir 0).readTile c)
                  (tileAt (tif.dir 1).readTile c) (tileAt (tif.dir 2).readTile c)))⟩) ∧
      (∀ m_width m_height n : ℕ,
        (gray8 (tif.dir 0) = true ∧ gray8 (tif.dir 1) = true ∧ gray8 (tif.dir 2) = true) →
        (tif.dir 2).imageWidth = some m_width → (tif.dir 2).imageLength = some m_height →
        (tif.dir 0).isTiled = false → (∀ d, d < 3 → (tif.dir d).scanlineSize = n) →
        (∀ y ∈ List.range m_height, ∀ d, d < 3 →
          ((tif.dir d).readScanline y).map List.length = some n) →
        (∀ y ∈ List.range m_height, ∀ buf, writeScanline y buf = true) →
        MergeGrayToRGB tif writeTile writeScanline
          = some ⟨Outcome.returned 0,
              (List.range m_height).flatMap (fun y => [(0, 0, y), (1, 0, y), (2, 0, y)]),
              (List.range m_height).map (fun y =>
                ((0, y), interleaved (((tif.dir 0).readScanline y).getD [])
                  (((tif.dir 1).readScanline y).getD [])
                  (((tif.dir 2).readScanline y).getD [])))⟩)) := by
  constructor
  · intro h
    unfold MergeGrayToRGB
    simp only [h, if_true]
  · intro h
    refine ⟨?_, ?_, ?_, ?_⟩
    · have h0 := dir_take tif 3 0 (by norm_num)
      have h1 := dir_take tif 3 1 (by norm_num)
      have h2 := dir_take tif 3 2 (by norm_num)
      have hlen : ¬ (tif.dirs.take 3).length < 3 := by
        rw [List.length_take]; omega
      unfold MergeGrayToRGB
      simp only [h0, h1, h2, hlen, not_lt.mpr h, if_false,
        mergeTileBody_congr _ tif h0 h1 h2, mergeLineBody_congr _ tif h0 h1 h2]
    · intro hng
      unfold MergeGrayToRGB
      simp only [not_lt.mpr h, if_false, hng, not_false_eq_true, if_true]
    · intro m_width m_height tilewidth tileheight n hgray hw hh htiled htw hth hpw hph hbw hbh
        hts hrd hwr
      exact mergeGray_tiled_run tif writeTile writeScanline m_width m_height tilewidth
        tileheight n h hgray hw hh htiled htw hth hts hpw hph hbw hbh hrd hwr
    · intro m_width m_height n hgray hw hh htiled hts hrd hwr
      exact mergeGray_scanline_run tif writeTile writeScanline m_width m_height n h hgray
        hw hh htiled hts hrd hwr

theorem mergeGray_directory_count_witness :
    (TiffIn.mk [grayLine [10, 11], grayLine [20, 21]] 0).dirs.length < 3 ∧
    MergeGrayToRGB ⟨[grayLine [10, 11], grayLine [20, 21]], 0⟩ (fun _ _ _ => true)
      (fun _ _ => true) = some ⟨Outcome.returned 1, [], []⟩ ∧
    3 ≤ fourDirImage.dirs.length ∧
    (∀ d, d < 3 → (fourDirImage.dir d).scanlineSize = 2) ∧
    (∀ y ∈ List.range 1, ∀ d, d < 3 →
      ((fourDirImage.dir d).readScanline y).map List.length = some 2) ∧
    MergeGrayToRGB fourDirImage (fun _ _ _ => true) (fun _ _ => true)
      = some ⟨Outcome.returned 0,
          (List.range 1).flatMap (fun y => [(0, 0, y), (1, 0, y), (2, 0, y)]),
          (List.range 1).map (fun y =>
            ((0, y), interleaved (((fourDirImage.dir 0).readScanline y).getD [])
              (((fourDirImage.dir 1).readScanline y).getD [])
              (((fourDirImage.dir 2).readScanline y).getD [])))⟩ ∧
    3 ≤ threeTiledImage.dirs.length ∧
    MergeGrayToRGB threeTiledImage (fun _ _ _ => true) (fun _ _ => true)
      = some ⟨Outcome.returned 0,
          (rowMajorCoords 5 3 2 2).flatMap
            (fun c => [(0, c.1, c.2), (1, c.1, c.2), (2, c.1, c.2)]),
          (rowMajorCoords 5 3 2 2).map (fun c =>
            (c, interleaved (tileAt (threeTiledImage.dir 0).readTile c)
              (tileAt (threeTiledImage.dir 1).readTile c)
              (tileAt (threeTiledImage.dir 2).readTile c)))⟩ ∧
    3 ≤ (TiffIn.mk [smallTiles 16 1, smallTiles 16 2, smallTiles 16 3] 0).dirs.length ∧
    MergeGrayToRGB ⟨[smallTiles 16 1, smallTiles 16 2, smallTiles 16 3], 0⟩ (fun _ _ _ => true)
      (fun _ _ => true) = some ⟨Outcome.assertion, [], []⟩ :=
  ⟨by decide,
    (mergeGray_directory_count ⟨[grayLine [10, 11], grayLine [20, 21]], 0⟩
      (fun _ _ _ => true) (fun _ _ => true)).1 (by decide),
    by decide, by decide, by decide,
    ((mergeGray_directory_count fourDirImage (fun _ _ _ => true) (fun _ _ => true)).2
      (by decide)).2.2.2 2 1 2 (by decide) rfl rfl rfl (by decide) (by decide)
      (fun _ _ _ => rfl),
    by decide,
    ((mergeGray_directory_count threeTiledImage (fun _ _ _ => true) (fun _ _ => true)).2
      (by decide)).2.2.1 5 3 2 2 4 (by decide) rfl rfl rfl rfl rfl (by decide) (by decide)
      (by norm_num) (by norm_num) (by decide) (by decide) (fun _ _ _ => rfl),
    by decide,
    ((mergeGray_directory_count ⟨[smallTiles 16 1, smallTiles 16 2, smallTiles 16 3], 0⟩
      (fun _ _ _ => true) (fun _ _ => true)).2 (by decide)).2.1 (by decide)⟩

/-- Claim C11 fails as stated: an image of four grayscale directories is not
refused; directories 0, 1 and 2 are read and the merged row is written. -/
theorem mergeGray_four_directories_counterexample :
    fourDirImage.dirs.length = 4 ∧
    MergeGrayToRGB fourDirImage (fun _ _ _ => true) (fun _ _ => true)
      = some ⟨Outcome.returned 0, [(0, 0, 0), (1, 0, 0), (2, 0, 0)],
          [((0, 0), [10, 20, 30, 11, 21, 31])]⟩ := by
  decide

theorem readInto_replicate (n m v : ℕ) (h : n ≤ m) :
    readInto (List.replicate n 0) (List.replicate m v) = List.replicate n v := by
  unfold readInto
  rw [List.length_replicate, List.length_replicate, List.take_replicate, List.drop_replicate,
    min_eq_left h, Nat.sub_eq_zero_of_le h]
  simp

/-- A run of the tiled path on a 16 x 16 image with 16 x 16 tiles in directory 0,
when directory 1 has the tile size of directory 0: whatever tile size directory 2
reports, no assertion fires and the copy loop runs with that size as bound. -/
theorem mergeGray_single_tile (tif : TiffIn) (writeTile : ℕ → ℕ → List ℕ → Bool)
    (writeScanline : ℕ → List ℕ → Bool) (rdata gdata bdata : List ℕ)
    (hlen : 3 ≤ tif.dirs.length)
    (hgray : gray8 (tif.dir 0) = true ∧ gray8 (tif.dir 1) = true ∧ gray8 (tif.dir 2) = true)
    (hw : (tif.dir 2).imageWidth = some 16) (hh : (tif.dir 2).imageLength = some 16)
    (htiled : (tif.dir 0).isTiled = true) (htw : (tif.dir 0).tileWidth = some 16)
    (hth : (tif.dir 0).tileLength = some 16)
    (hts : (tif.dir 1).tileSize = (tif.dir 0).tileSize)
    (hr : (tif.dir 0).readTile 0 0 = some rdata) (hg : (tif.dir 1).readTile 0 0 = some gdata)
    (hb : (tif.dir 2).readTile 0 0 = some bdata) (hwr : ∀ buf, writeTile 0 0 buf = true) :
    MergeGrayToRGB tif writeTile writeScanline
      = some ⟨Outcome.returned 0, [(0, 0, 0), (1, 0, 0), (2, 0, 0)],
          [((0, 0), mergeTile (tif.dir 2).tileSize
            (readInto (List.replicate (tif.dir 0).tileSize 0) rdata)
            (readInto (List.replicate (tif.dir 0).tileSize 0) gdata)
            (readInto (List.replicate (tif.dir 0).tileSize 0) bdata)
            (List.replicate ((tif.dir 0).tileSize * 3) 0))]⟩ := by
  have hcoords : rowMajorCoords 16 16 16 16 = [(0, 0)] := by decide
  unfold MergeGrayToRGB
  simp only [not_lt.mpr hlen, if_false, hgray, and_self, not_true_eq_false, hw, hh, htiled,
    if_true, htw, hth, hts]
  rw [tileLoop_eq_foldlM _ _ _ _ _ (by decide) (by decide) (by norm_num) (by norm_num), hcoords]
  simp only [List.foldlM_cons, List.foldlM_nil, mergeTileBody, hr, hg, hb, hwr, if_true,
    List.nil_append, List.cons_append, bind, Except.bind, pure, Except.pure, Option.map_some',
    finishRun]

/-- Claim C15, the code at a failing input: directories 0 and 1 report tiles of 256
bytes and directory 2 tiles of 1024 bytes.  The tile-size loop selects directory 1
twice, so no assertion fires; the three tiles are read and the copy loop runs with
the bound 1024 over input buffers of 256 bytes and an output buffer of 768 bytes.
A mismatch in directory 1 does fire the assertion before any read. -/
theorem mergeGray_unchecked_third_directory :
    (mismatchedImage.dir 0).tileSize = 256 ∧ (mismatchedImage.dir 1).tileSize = 256 ∧
    (mismatchedImage.dir 2).tileSize = 1024 ∧
    (List.replicate 256 1).length < 1024 ∧ (List.replicate 768 0).length < 3 * 1024 ∧
    MergeGrayToRGB mismatchedImage (fun _ _ _ => true) (fun _ _ => true)
      = some ⟨Outcome.returned 0, [(0, 0, 0), (1, 0, 0), (2, 0, 0)],
          [((0, 0), mergeTile 1024 (List.replicate 256 1) (List.replicate 256 2)
            (List.replicate 256 3) (List.replicate 768 0))]⟩ ∧
    (∀ (tif : TiffIn) (writeTile : ℕ → ℕ → List ℕ → Bool) (writeScanline : ℕ → List ℕ → Bool)
      (m_width m_height tilewidth tileheight : ℕ), 3 ≤ tif.dirs.length →
      (gray8 (tif.dir 0) = true ∧ gray8 (tif.dir 1) = true ∧ gray8 (tif.dir 2) = true) →
      (tif.dir 2).imageWidth = some m_width → (tif.dir 2).imageLength = some m_height →
      (tif.dir 0).isTiled = true → (tif.dir 0).tileWidth = some tilewidth →
      (tif.dir 0).tileLength = some tileheight →
      (tif.dir 1).tileSize ≠ (tif.dir 0).tileSize →
      MergeGrayToRGB tif writeTile writeScanline = some ⟨Outcome.assertion, [], []⟩) := by
  have h0 : (mismatchedImage.dir 0).tileSize = 256 := rfl
  have h2 : (mismatchedImage.dir 2).tileSize = 1024 := rfl
  refine ⟨h0, rfl, h2, by rw [List.length_replicate]; norm_num,
    by rw [List.length_replicate]; norm_num, ?_, ?_⟩
  · have h := mergeGray_single_tile mismatchedImage (fun _ _ _ => true) (fun _ _ => true)
      (List.replicate 256 1) (List.replicate 256 2) (List.replicate 1024 3) (by decide)
      (by decide) rfl rfl rfl rfl rfl rfl rfl rfl rfl (fun _ => rfl)
    rw [h0, h2, readInto_replicate 256 256 1 le_rfl, readInto_replicate 256 256 2 le_rfl,
      readInto_replicate 256 1024 3 (by norm_num)] at h
    exact h
  · intro tif writeTile writeScanline m_width m_height tilewidth tileheight hlen hgray hw hh
      htiled htw hth hne
    unfold MergeGrayToRGB
    simp only [not_lt.mpr hlen, if_false, hgray, and_self, not_true_eq_false, hw, hh, htiled,
      if_true, htw, hth, hne, not_false_eq_true]

/-! ## The configuration checks of `Colorize` -/

theorem foldlM_palette (parseChannel : String → Channel) (palette : List String)
    (h : ∀ line ∈ palette, line.isEmpty = false) (acc : List Channel) :
    palette.foldlM
      (fun channels line =>
        if ¬ line.isEmpty then some (channels ++ [parseChannel line]) else none) acc
      = some (acc ++ palette.map parseChannel) := by
  induction palette generalizing acc with
  | nil => simp
  | cons line rest ih =>
    have hl := h line (List.mem_cons_self _ _)
    rw [List.foldlM_cons]
    simp only [hl, Bool.false_eq_true, not_false_eq_true, if_true, Option.some_bind,
      Option.bind_eq_bind]
    rw [ih (fun l hl2 => h l (List.mem_cons_of_mem _ hl2))]
    simp

theorem readPalette_eq (parseChannel : String → Channel) (palette : List String)
    (h : ∀ line ∈ palette, line.isEmpty = false) :
    readPalette parseChannel palette = some (palette.map parseChannel) := by
  unfold readPalette
  rw [foldlM_palette parseChannel palette h []]
  simp

theorem channelAt_isSome {channels : List Channel} {n : ℤ} (h0 : 0 ≤ n)
    (h1 : n < channels.length) (h2 : n < 2 ^ 64) : ∃ ch, channelAt channels n = some ch := by
  unfold channelAt
  rw [Int.emod_eq_of_lt h0 h2]
  have : n.toNat < channels.length := by omega
  exact ⟨channels[n.toNat], List.getElem?_eq_getElem this⟩

theorem channelAt_none {channels : List Channel} {n : ℤ} (hlen : channels.length < 2 ^ 31)
    (hlo : -2 ^ 31 ≤ n) (hhi : n < 2 ^ 31) (h : n < 0 ∨ (channels.length : ℤ) ≤ n) :
    channelAt channels n = none := by
  unfold channelAt
  rw [List.getElem?_eq_none_iff]
  rcases h with h | h
  · have : n % 2 ^ 64 = n + 2 ^ 64 := by
      rw [← Int.add_emod_self, Int.emod_eq_of_lt (by omega) (by omega)]
    omega
  · rw [Int.emod_eq_of_lt (by omega) (by omega)]
    omega

theorem selectChannels_isSome (channels : List Channel) (sel : List ℤ)
    (h : ∀ n ∈ sel, 0 ≤ n ∧ n < channels.length ∧ n < 2 ^ 64) :
    ∃ chs, selectChannels channels sel = some chs := by
  induction sel with
  | nil => exact ⟨[], rfl⟩
  | cons n rest ih =>
    obtain ⟨h0, h1, h2⟩ := h n (List.mem_cons_self _ _)
    obtain ⟨ch, hch⟩ := channelAt_isSome h0 h1 h2
    obtain ⟨chs, hchs⟩ := ih fun m hm => h m (List.mem_cons_of_mem _ hm)
    exact ⟨ch :: chs, by simp only [selectChannels, hch, hchs, Option.map_some']⟩

theorem selectChannels_none (channels : List Channel) (sel : List ℤ)
    (h : ∃ n ∈ sel, channelAt channels n = none) : selectChannels channels sel = none := by
  induction sel with
  | nil => obtain ⟨n, hn, _⟩ := h; simp at hn
  | cons m rest ih =>
    cases hm : channelAt channels m with
    | none => simp only [selectChannels, hm]
    | some ch =>
      obtain ⟨n, hn, hnone⟩ := h
      rcases List.mem_cons.mp hn with rfl | hrest
      · rw [hm] at hnone; cases hnone
      · simp only [selectChannels, hm, ih ⟨n, hrest, hnone⟩, Option.map_none']

theorem foldl_max_mem (l : List ℤ) (a : ℤ) : l.foldl max a ∈ a :: l := by
  induction l generalizing a with
  | nil => simp
  | cons b t ih =>
    rw [List.foldl_cons]
    have := ih (max a b)
    rcases List.mem_cons.mp this with h | h
    · rcases max_choice a b with hm | hm
      · rw [h, hm]; exact List.mem_cons_self _ _
      · rw [h, hm]; exact List.mem_cons_of_mem _ (List.mem_cons_self _ _)
    · exact List.mem_cons_of_mem _ (List.mem_cons_of_mem _ h)

theorem maxElement_mem {sel : List ℤ} (h : sel ≠ []) : maxElement sel ∈ sel := by
  cases sel with
  | nil => exact absurd rfl h
  | cons a t => exact foldl_max_mem t a

/-- Claim C12, the code at a failing input: the palette has one line, the image one
directory, and the selection is `[1]`, so its largest index is at least the number
of directories.  `channels.at(1)` on line 463 throws `std::out_of_range` before the
checks of lines 467-477 are reached, so no error code is returned; the exception
leaves `Colorize`.  No tile is read or written.  The same exception leaves the
palette loop of lines 448-452 when the palette file has an empty line, even for an
empty selection.  What holds in general, for a palette without empty line: an empty
selection returns 0 without reading or writing; a non-empty selection of indices
that all lie inside the palette and whose largest index is at least the number of
directories returns -1 without reading or writing; a selection with an index
outside the palette throws, whatever the number of directories. -/
theorem colorize_index_outside_palette :
    Colorize oneDirImage (fun _ _ _ => true) whiteParse ["DAPI"] [1]
      = some ⟨Outcome.out_of_range, [], []⟩ ∧
    (oneDirImage.dirs.length : ℤ) ≤ maxElement [1] ∧
    Colorize oneDirImage (fun _ _ _ => true) whiteParse ["DAPI", ""] []
      = some ⟨Outcome.out_of_range, [], []⟩ ∧
    (∀ (tif : TiffIn) (writeTile : ℕ → ℕ → List ℕ → Bool) (parseChannel : String → Channel)
      (palette : List String), (∀ line ∈ palette, line.isEmpty = false) →
      Colorize tif writeTile parseChannel palette [] = some ⟨Outcome.returned 0, [], []⟩) ∧
    (∀ (tif : TiffIn) (writeTile : ℕ → ℕ → List ℕ → Bool) (parseChannel : String → Channel)
      (palette : List String) (channels_to_run : List ℤ),
      (∀ line ∈ palette, line.isEmpty = false) → channels_to_run ≠ [] →
      (∀ n ∈ channels_to_run, 0 ≤ n ∧ n < palette.length ∧ n < 2 ^ 31) →
      (tif.dirs.length : ℤ) ≤ maxElement channels_to_run →
      Colorize tif writeTile parseChannel palette channels_to_run
        = some ⟨Outcome.returned (-1), [], []⟩) ∧
    (∀ (tif : TiffIn) (writeTile : ℕ → ℕ → List ℕ → Bool) (parseChannel : String → Channel)
      (palette : List String) (channels_to_run : List ℤ),
      (∀ line ∈ palette, line.isEmpty = false) → palette.length < 2 ^ 31 →
      (∃ n ∈ channels_to_run, -2 ^ 31 ≤ n ∧ n < 2 ^ 31 ∧ (n < 0 ∨ (palette.length : ℤ) ≤ n)) →
      Colorize tif writeTile parseChannel palette channels_to_run
        = some ⟨Outcome.out_of_range, [], []⟩) := by
  refine ⟨by decide, by decide, by decide, ?_, ?_, ?_⟩
  · intro tif writeTile parseChannel palette hp
    unfold Colorize
    simp only [readPalette_eq parseChannel palette hp, List.length_nil, if_true]
  · intro tif writeTile parseChannel palette sel hp hne hvalid hmax
    have hlen : sel.length ≠ 0 := fun h => hne (List.length_eq_zero.mp h)
    obtain ⟨chs, hchs⟩ := selectChannels_isSome (palette.map parseChannel) sel (by
      intro n hn
      obtain ⟨h0, h1, h2⟩ := hvalid n hn
      rw [List.length_map]
      exact ⟨h0, h1, by omega⟩)
    obtain ⟨h0, h1, h2⟩ := hvalid _ (maxElement_mem hne)
    have hcheck : ¬ (maxElement sel % 2 ^ 64).toNat ≥ (palette.map parseChannel).length := by
      rw [Int.emod_eq_of_lt h0 (by omega), List.length_map]
      omega
    unfold Colorize
    simp only [readPalette_eq parseChannel palette hp, hlen, if_false, hchs, hcheck, hmax,
      if_true]
  · intro tif writeTile parseChannel palette sel hp hplen hbad
    obtain ⟨n, hn, hlo, hhi, hout⟩ := hbad
    have hne : sel.length ≠ 0 := by
      intro h
      rw [List.length_eq_zero.mp h] at hn
      simp at hn
    have hnone : selectChannels (palette.map parseChannel) sel = none :=
      selectChannels_none _ _ ⟨n, hn, channelAt_none (by rw [List.length_map]; exact hplen)
        hlo hhi (by rw [List.length_map]; exact hout)⟩
    unfold Colorize
    simp only [readPalette_eq parseChannel palette hp, hne, if_false, hnone]

/-! ## The run of `Colorize` -/

theorem length_selectChannels (channels : List Channel) (sel : List ℤ) (chs : List Channel)
    (h : selectChannels channels sel = some chs) : chs.length = sel.length := by
  induction sel generalizing chs with
  | nil =>
    simp only [selectChannels, Option.some.injEq] at h
    rw [← h]
    rfl
  | cons n rest ih =>
    cases hch : channelAt channels n with
    | none => simp [selectChannels, hch] at h
    | some ch =>
      cases hrest : selectChannels channels rest with
      | none => simp [selectChannels, hch, hrest] at h
      | some chs2 =>
        simp only [selectChannels, hch, hrest, Option.map_some', Option.some.injEq] at h
        rw [← h, List.length_cons, List.length_cons, ih chs2 hrest]

theorem readChannelTiles_ok (tif : TiffIn) (x y : ℕ) (sel : List ℤ)
    (hrd : ∀ m ∈ sel, ((tif.dir m.toNat).readTile x y).isSome = true) (k : ℕ)
    (bufs : List (List ℕ)) (reads : List (ℕ × ℕ × ℕ)) :
    ∃ bufs1, readChannelTiles tif x y sel k bufs reads
        = Except.ok (bufs1, reads ++ sel.map fun m => (m.toNat, x, y)) ∧
      bufs1.length = bufs.length := by
  induction sel generalizing k bufs reads with
  | nil => exact ⟨bufs, by simp [readChannelTiles], rfl⟩
  | cons m rest ih =>
    obtain ⟨data, hdata⟩ := Option.isSome_iff_exists.mp (hrd m (List.mem_cons_self _ _))
    obtain ⟨bufs1, h1, hl1⟩ := ih (fun m2 hm2 => hrd m2 (List.mem_cons_of_mem _ hm2)) (k + 1)
      (bufs.set k (readInto (bufs.getD k []) data)) (reads ++ [(m.toNat, x, y)])
    refine ⟨bufs1, ?_, by rw [hl1, List.length_set]⟩
    simp only [readChannelTiles, hdata, h1, List.map_cons, List.append_assoc,
      List.singleton_append]

theorem colorizePixels_ok (channels_to_run_map : List Channel) (bufs : List (List ℕ))
    (h : bufs.length = channels_to_run_map.length) (n : ℕ) (o_tile : List ℕ) :
    ∃ out, colorizePixels channels_to_run_map bufs n o_tile = Except.ok out := by
  unfold colorizePixels
  generalize List.range n = l
  induction l generalizing o_tile with
  | nil => exact ⟨o_tile, rfl⟩
  | cons i rest ih =>
    have hc : ¬ (bufs.map fun buf => buf.getD i 0).length ≠ channels_to_run_map.length := by
      rw [List.length_map]
      exact not_not.mpr h
    rw [List.foldlM_cons]
    simp only [combineChannelsToRGB, if_neg hc]
    exact ih _

theorem colorizeBody_ok (tif : TiffIn) (writeTile : ℕ → ℕ → List ℕ → Bool)
    (sel : List ℤ) (channels_to_run_map : List Channel) (ts x y : ℕ) (st : ColorizeState)
    (hrd : ∀ m ∈ sel, ((tif.dir m.toNat).readTile x y).isSome = true)
    (hwr : ∀ buf, writeTile x y buf = true)
    (hlen : st.channels.length = channels_to_run_map.length) :
    ∃ st1, colorizeBody tif writeTile sel channels_to_run_map ts x y st = Except.ok st1 ∧
      st1.channels.length = channels_to_run_map.length ∧
      st1.reads = st.reads ++ (sel.map fun m => (m.toNat, x, y)) ∧
      st1.written.map Prod.fst = st.written.map Prod.fst ++ [(x, y)] := by
  obtain ⟨bufs1, h1, hl1⟩ := readChannelTiles_ok tif x y sel hrd 0 st.channels st.reads
  obtain ⟨out, hout⟩ := colorizePixels_ok channels_to_run_map bufs1 (hl1.trans hlen) (ts / 2)
    st.o_tile
  refine ⟨⟨bufs1, out, st.reads ++ (sel.map fun m => (m.toNat, x, y)),
    st.written ++ [((x, y), out)]⟩, ?_, hl1.trans hlen, rfl, by simp⟩
  simp only [colorizeBody, h1, hout, hwr, if_true]

theorem foldlM_colorizeBody (tif : TiffIn) (writeTile : ℕ → ℕ → List ℕ → Bool)
    (sel : List ℤ) (channels_to_run_map : List Channel) (ts : ℕ) (coords : List (ℕ × ℕ))
    (hrd : ∀ c ∈ coords, ∀ m ∈ sel, ((tif.dir m.toNat).readTile c.1 c.2).isSome = true)
    (hwr : ∀ c ∈ coords, ∀ buf, writeTile c.1 c.2 buf = true) (st : ColorizeState)
    (hlen : st.channels.length = channels_to_run_map.length) :
    ∃ st1, List.foldlM
        (fun s c => colorizeBody tif writeTile sel channels_to_run_map ts c.1 c.2 s) st coords
        = Except.ok st1 ∧
      st1.reads = st.reads ++ coords.flatMap (fun c => sel.map fun m => (m.toNat, c.1, c.2)) ∧
      st1.written.map Prod.fst = st.written.map Prod.fst ++ coords := by
  induction coords generalizing st with
  | nil => exact ⟨st, rfl, by simp, by simp⟩
  | cons c rest ih =>
    obtain ⟨s1, hs1, hl1, hr1, hw1⟩ := colorizeBody_ok tif writeTile sel channels_to_run_map ts
      c.1 c.2 st (hrd c (List.mem_cons_self _ _)) (hwr c (List.mem_cons_self _ _)) hlen
    obtain ⟨s2, hs2, hr2, hw2⟩ := ih (fun c2 hc2 => hrd c2 (List.mem_cons_of_mem _ hc2))
      (fun c2 hc2 => hwr c2 (List.mem_cons_of_mem _ hc2)) s1 hl1
    refine ⟨s2, ?_, ?_, ?_⟩
    · rw [List.foldlM_cons, hs1]
      exact hs2
    · rw [hr2, hr1]; simp
    · rw [hw2, hw1]; simp

theorem colorize_tiled_coords (tif : TiffIn) (writeTile : ℕ → ℕ → List ℕ → Bool)
    (parseChannel : String → Channel) (palette : List String) (channels_to_run : List ℤ)
    (m_width m_height tilewidth tileheight : ℕ)
    (hp : ∀ line ∈ palette, line.isEmpty = false) (hne : channels_to_run ≠ [])
    (hvalid : ∀ n ∈ channels_to_run,
      0 ≤ n ∧ n < palette.length ∧ n < tif.dirs.length ∧ n < 2 ^ 31)
    (htiled : (tif.dir tif.current).isTiled = true)
    (hts : ∀ m ∈ channels_to_run.tail,
      (tif.dir m.toNat).tileSize = (tif.dir (channels_to_run.headD 0).toNat).tileSize)
    (hw : (tif.dir (channels_to_run.getLastD 0).toNat).imageWidth = some m_width)
    (hh : (tif.dir (channels_to_run.getLastD 0).toNat).imageLength = some m_height)
    (htw : (tif.dir (channels_to_run.getLastD 0).toNat).tileWidth = some tilewidth)
    (hth : (tif.dir (channels_to_run.getLastD 0).toNat).tileLength = some tileheight)
    (hpw : 0 < tilewidth) (hph : 0 < tileheight) (hbw : m_width + tilewidth ≤ 2 ^ 64)
    (hbh : m_height + tileheight ≤ 2 ^ 64)
    (hrd : ∀ c ∈ rowMajorCoords m_width m_height tilewidth tileheight, ∀ m ∈ channels_to_run,
      ((tif.dir m.toNat).readTile c.1 c.2).isSome = true)
    (hwr : ∀ c ∈ rowMajorCoords m_width m_height tilewidth tileheight,
      ∀ buf, writeTile c.1 c.2 buf = true) :
    ∃ res, Colorize tif writeTile parseChannel palette channels_to_run = some res ∧
      res.outcome = Outcome.returned 0 ∧
      res.reads = (rowMajorCoords m_width m_height tilewidth tileheight).flatMap
        (fun c => channels_to_run.map fun m => (m.toNat, c.1, c.2)) ∧
      res.written.map Prod.fst = rowMajorCoords m_width m_height tilewidth tileheight := by
  have hlen : channels_to_run.length ≠ 0 := fun h => hne (List.length_eq_zero.mp h)
  obtain ⟨chs, hchs⟩ := selectChannels_isSome (palette.map parseChannel) channels_to_run (by
    intro n hn
    obtain ⟨h0, h1, _, h2⟩ := hvalid n hn
    rw [List.length_map]
    exact ⟨h0, h1, by omega⟩)
  have hchl := length_selectChannels _ _ _ hchs
  obtain ⟨h0, h1, h2, h3⟩ := hvalid _ (maxElement_mem hne)
  have hcheck : ¬ (maxElement channels_to_run % 2 ^ 64).toNat
      ≥ (palette.map parseChannel).length := by
    rw [Int.emod_eq_of_lt h0 (by omega), List.length_map]
    omega
  have hdir : ¬ (tif.dirs.length : ℤ) ≤ maxElement channels_to_run := not_le.mpr h2
  obtain ⟨st1, hs1, hr1, hw1⟩ := foldlM_colorizeBody tif writeTile channels_to_run chs
    (tif.dir (channels_to_run.headD 0).toNat).tileSize _ hrd hwr
    ⟨List.replicate channels_to_run.length
        (List.replicate ((tif.dir (channels_to_run.headD 0).toNat).tileSize / 2) 0),
      List.replicate ((tif.dir (channels_to_run.headD 0).toNat).tileSize / 2 * 3) 0, [], []⟩
    (by rw [List.length_replicate, hchl])
  refine ⟨⟨Outcome.returned 0, st1.reads, st1.written⟩, ?_, rfl, by rw [hr1]; rfl,
    by rw [hw1]; rfl⟩
  unfold Colorize
  simp only [readPalette_eq parseChannel palette hp, hlen, if_false, hchs, hcheck, hdir, htiled,
    if_true, hw, hh, htw, hth]
  rw [if_neg (not_not.mpr hts), tileLoop_eq_foldlM _ _ _ _ _ hpw hph hbw hbh, hs1]
  rfl

/-! ## The traversal in the three functions -/

/-- Claim C8: for tile width and height that are positive (and dimensions for which
the `uint64_t` loop variables do not wrap, as for every 32-bit TIFF dimension), the
tile loops of `Compress`, `Colorize` and `MergeGrayToRGB` visit exactly the
coordinates of the row-major list `(i * tileWidth, j * tileHeight)`,
`j = 0 .. ceil(height / tileHeight) - 1` outer, `i = 0 .. ceil(width / tileWidth) - 1`
inner, in that order.  When no read and no write at a coordinate of that list
fails, a directory of `Compress` writes one tile at each coordinate of the list in
turn; `Colorize` reads, at each coordinate of the list in turn, one tile per
selected directory and writes one tile there; the tiled path of `MergeGrayToRGB`
reads directories 0, 1, 2 at each coordinate of the list in turn and writes one
tile there.  Whatever the body is, the loops are the fold of the body over the
list; its coordinates are pairwise distinct, multiples of the tile dimensions,
inside `[0, width) x [0, height)`, and the `k`-th one is
`((k mod n) * tileWidth, (k div n) * tileHeight)` with `n` the tiles per row, so
the list depends on the geometry alone. -/
theorem tile_traversal_row_major (m_width m_height tilewidth tileheight : ℕ)
    (htw : 0 < tilewidth) (hth : 0 < tileheight) (hw : m_width + tilewidth ≤ 2 ^ 64)
    (hh : m_height + tileheight ≤ 2 ^ 64) :
    (∀ (readTile : ℕ → ℕ → Option (List ℕ)) (writeTile : ℕ → ℕ → List ℕ → Bool) (ts : ℕ),
      (∀ c ∈ rowMajorCoords m_width m_height tilewidth tileheight,
        (readTile c.1 c.2).isSome = true) →
      (∀ c ∈ rowMajorCoords m_width m_height tilewidth tileheight,
        ∀ buf, writeTile c.1 c.2 buf = true) →
      ∃ st, compressDirectory readTile writeTile m_width m_height tilewidth tileheight ts
          = some (Except.ok st) ∧
        st.written.map Prod.fst = rowMajorCoords m_width m_height tilewidth tileheight) ∧
    (∀ (tif : TiffIn) (writeTile : ℕ → ℕ → List ℕ → Bool) (parseChannel : String → Channel)
      (palette : List String) (channels_to_run : List ℤ),
      (∀ line ∈ palette, line.isEmpty = false) → channels_to_run ≠ [] →
      (∀ n ∈ channels_to_run, 0 ≤ n ∧ n < palette.length ∧ n < tif.dirs.length ∧ n < 2 ^ 31) →
      (tif.dir tif.current).isTiled = true →
      (∀ m ∈ channels_to_run.tail,
        (tif.dir m.toNat).tileSize = (tif.dir (channels_to_run.headD 0).toNat).tileSize) →
      (tif.dir (channels_to_run.getLastD 0).toNat).imageWidth = some m_width →
      (tif.dir (channels_to_run.getLastD 0).toNat).imageLength = some m_height →
      (tif.dir (channels_to_run.getLastD 0).toNat).tileWidth = some tilewidth →
      (tif.dir (channels_to_run.getLastD 0).toNat).tileLength = some tileheight →
      (∀ c ∈ rowMajorCoords m_width m_height tilewidth tileheight, ∀ m ∈ channels_to_run,
        ((tif.dir m.toNat).readTile c.1 c.2).isSome = true) →
      (∀ c ∈ rowMajorCoords m_width m_height tilewidth tileheight,
        ∀ buf, writeTile c.1 c.2 buf = true) →
      ∃ res, Colorize tif writeTile parseChannel palette channels_to_run = some res ∧
        res.outcome = Outcome.returned 0 ∧
        res.reads = (rowMajorCoords m_width m_height tilewidth tileheight).flatMap
          (fun c => channels_to_run.map fun m => (m.toNat, c.1, c.2)) ∧
        res.written.map Prod.fst = rowMajorCoords m_width m_height tilewidth tileheight) ∧
    (∀ (tif : TiffIn) (writeTile : ℕ → ℕ → List ℕ → Bool) (writeScanline : ℕ → List ℕ → Bool),
      3 ≤ tif.dirs.length →
      (gray8 (tif.dir 0) = true ∧ gray8 (tif.dir 1) = true ∧ gray8 (tif.dir 2) = true) →
      (tif.dir 2).imageWidth = some m_width → (tif.dir 2).imageLength = some m_height →
      (tif.dir 0).isTiled = true → (tif.dir 0).tileWidth = some tilewidth →
      (tif.dir 0).tileLength = some tileheight →
      (tif.dir 1).tileSize = (tif.dir 0).tileSize →
      (∀ c ∈ rowMajorCoords m_width m_height tilewidth tileheight, ∀ d, d < 3 →
        ((tif.dir d).readTile c.1 c.2).isSome = true) →
      (∀ c ∈ rowMajorCoords m_width m_height tilewidth tileheight,
        ∀ buf, writeTile c.1 c.2 buf = true) →
      ∃ res, MergeGrayToRGB tif writeTile writeScanline = some res ∧
        res.outcome = Outcome.returned 0 ∧
        res.reads = (rowMajorCoords m_width m_height tilewidth tileheight).flatMap
          (fun c => [(0, c.1, c.2), (1, c.1, c.2), (2, c.1, c.2)]) ∧
        res.written.map Prod.fst = rowMajorCoords m_width m_height tilewidth tileheight) ∧
    (∀ (σ ε : Type) (body : ℕ → ℕ → σ → Except ε σ) (s : σ),
      tileLoop body m_width m_height tilewidth tileheight s
        = some (List.foldlM (fun s c => body c.1 c.2 s) s
            (rowMajorCoords m_width m_height tilewidth tileheight))) ∧
    visitedCoords m_width m_height tilewidth tileheight
      = some (Except.ok (rowMajorCoords m_width m_height tilewidth tileheight)) ∧
    (rowMajorCoords m_width m_height tilewidth tileheight).Nodup ∧
    (∀ c ∈ rowMajorCoords m_width m_height tilewidth tileheight,
      tilewidth ∣ c.1 ∧ tileheight ∣ c.2 ∧ c.1 < m_width ∧ c.2 < m_height) ∧
    (∀ k, k < ceilDiv m_height tileheight * ceilDiv m_width tilewidth →
      (rowMajorCoords m_width m_height tilewidth tileheight).getD k (0, 0)
        = (k % ceilDiv m_width tilewidth * tilewidth,
           k / ceilDiv m_width tilewidth * tileheight)) := by
  refine ⟨?_, ?_, ?_, fun σ ε body s => tileLoop_eq_foldlM body _ _ _ _ htw hth hw hh s,
    visitedCoords_eq _ _ _ _ htw hth hw hh, nodup_rowMajorCoords _ _ _ _ htw hth, ?_, ?_⟩
  · intro readTile writeTile ts hrd hwr
    obtain ⟨st, hst, _, _, hwc⟩ := foldlM_compressBody readTile writeTile ts
      (rowMajorCoords m_width m_height tilewidth tileheight)
      (fun c hc => Option.isSome_iff_exists.mp (hrd c hc)) hwr (compressInit ts)
    refine ⟨st, ?_, ?_⟩
    · unfold compressDirectory
      rw [tileLoop_eq_foldlM _ _ _ _ _ htw hth hw hh, hst]
    · rw [hwc]; simp [compressInit]
  · intro tif writeTile parseChannel palette channels_to_run hp hne hvalid htiled hts hfw hfh
      hftw hfth hrd hwr
    exact colorize_tiled_coords tif writeTile parseChannel palette channels_to_run m_width
      m_height tilewidth tileheight hp hne hvalid htiled hts hfw hfh hftw hfth htw hth hw hh
      hrd hwr
  · intro tif writeTile writeScanline hlen hgray hfw hfh htiled hftw hfth hts hrd hwr
    exact mergeGray_tiled_coords tif writeTile writeScanline m_width m_height tilewidth
      tileheight hlen hgray hfw hfh htiled hftw hfth hts htw hth hw hh hrd hwr
  · intro c hc
    obtain ⟨j, hj, i, hi, rfl⟩ := mem_rowMajorCoords.mp hc
    exact ⟨Dvd.intro_left i rfl, Dvd.intro_left j rfl, (lt_ceilDiv_iff htw).mp hi,
      (lt_ceilDiv_iff hth).mp hj⟩
  · intro k hk
    exact getD_grid _ _ _ _ k hk

theorem tile_traversal_row_major_witness :
    (0 : ℕ) < 2 ∧ (5 : ℕ) + 2 ≤ 2 ^ 64 ∧ (3 : ℕ) + 2 ≤ 2 ^ 64 ∧
    rowMajorCoords 5 3 2 2 = [(0, 0), (2, 0), (4, 0), (0, 2), (2, 2), (4, 2)] ∧
    (∀ c ∈ rowMajorCoords 5 3 2 2, ∀ m ∈ [(0 : ℤ), 1],
      ((twoChannelImage.dir m.toNat).readTile c.1 c.2).isSome = true) ∧
    (∀ c ∈ rowMajorCoords 5 3 2 2, ∀ d, d < 3 →
      ((threeTiledImage.dir d).readTile c.1 c.2).isSome = true) ∧
    (∃ st, compressDirectory (smallTiles 16 100).readTile (fun _ _ _ => true) 5 3 2 2 8
        = some (Except.ok st) ∧
      st.written.map Prod.fst = rowMajorCoords 5 3 2 2) ∧
    (∃ res, Colorize twoChannelImage (fun _ _ _ => true) whiteParse ["DAPI", "CD3"] [0, 1]
        = some res ∧
      res.outcome = Outcome.returned 0 ∧
      res.reads = (rowMajorCoords 5 3 2 2).flatMap
        (fun c => [(0 : ℤ), 1].map fun m => (m.toNat, c.1, c.2)) ∧
      res.written.map Prod.fst = rowMajorCoords 5 3 2 2) ∧
    (∃ res, MergeGrayToRGB threeTiledImage (fun _ _ _ => true) (fun _ _ => true) = some res ∧
      res.outcome = Outcome.returned 0 ∧
      res.reads = (rowMajorCoords 5 3 2 2).flatMap
        (fun c => [(0, c.1, c.2), (1, c.1, c.2), (2, c.1, c.2)]) ∧
      res.written.map Prod.fst = rowMajorCoords 5 3 2 2) ∧
    (rowMajorCoords 5 3 2 2).Nodup :=
  ⟨by decide, by norm_num, by norm_num, by decide, by decide, by decide,
    (tile_traversal_row_major 5 3 2 2 (by decide) (by decide) (by norm_num) (by norm_num)).1
      (smallTiles 16 100).readTile (fun _ _ _ => true) 8 (by decide) (fun _ _ _ => rfl),
    (tile_traversal_row_major 5 3 2 2 (by decide) (by decide) (by norm_num) (by norm_num)).2.1
      twoChannelImage (fun _ _ _ => true) whiteParse ["DAPI", "CD3"] [0, 1] (by decide)
      (by decide) (by decide) (by decide) (by decide) (by decide) (by decide) (by decide)
      (by decide) (by decide) (fun _ _ _ => rfl),
    (tile_traversal_row_major 5 3 2 2 (by decide) (by decide) (by norm_num)
      (by norm_num)).2.2.1 threeTiledImage (fun _ _ _ => true) (fun _ _ => true) (by decide)
      (by decide) (by decide) (by decide) (by decide) (by decide) (by decide) (by decide)
      (by decide) (fun _ _ _ => rfl),
    (tile_traversal_row_major 5 3 2 2 (by decide) (by decide) (by norm_num)
      (by norm_num)).2.2.2.2.2.1⟩

end TiffUtils
